import Mathlib

/- Verification development for a cooperative-localization simulator.
   The embedded program consists of: positional records (anchors and
   agents) with guarded coordinate access, a visibility-graph network
   whose directed edges carry a property bag, one-shot synchronized noisy
   distance (and angle) measurement, a connectivity check, a
   minimum-spanning-tree reduction, and the hybrid ADMM consensus solver.

   Numeric values are modelled over an arbitrary linear ordered field
   `F`.  The irrational operations the program uses (square root, atan2,
   pi) are supplied through an explicit operation table `MathOps`, and the
   stream of Gaussian samples produced by the random generator is an
   explicit function `gs : Nat -> F` giving the successive standard
   normal draws (a call gauss(0, sigma) returns `sigma * gs k` for the
   next index `k`).  This keeps every definition executable, so that
   concrete runs can be evaluated inside proofs. -/

/-- Operation table standing for the math library functions used by the
program: square root, atan2 and the constant pi. -/
structure MathOps (F : Type) where
  sqrt : F → F
  atan2 : F → F → F
  pi : F

/-- A point (point.py, class Point): a role tag `typ` (the source uses
the string "S" for anchors and "A" for agents) together with the raw
coordinate list `_coords`. -/
structure Point (F : Type) where
  typ : String
  _coords : List F

instance {F : Type} : Inhabited (Point F) := ⟨⟨"A", []⟩⟩

namespace Point

variable {F : Type} [LinearOrderedField F]

/-- Point.dim: the dimension, inferred from the coordinate count. -/
def dim (p : Point F) : Nat := p._coords.length

/-- The guarded `coords` property: anchors expose their raw coordinates,
agents raise ValueError. -/
def coords (p : Point F) : Except String (List F) :=
  if p.typ = "S" then .ok p._coords
  else .error "Attempt to acess coords of agent"

/-- Point.abssq: sum of squares of the guarded coordinates. -/
def abssq (p : Point F) : Except String F := do
  let cs ← p.coords
  return (cs.map (fun x => x * x)).sum

/-- Point.__abs__: square root of abssq. -/
def absval (ops : MathOps F) (p : Point F) : Except String F :=
  (p.abssq).map ops.sqrt

/-- Point.__iter__: iterates the guarded coords property. -/
def iter (p : Point F) : Except String (List F) :=
  p.coords

/-- Point._distsq: squared distance from the raw coordinates ("and
cheat"); never consults the guarded property. -/
def _distsq (p o : Point F) : F :=
  ((p._coords.zip o._coords).map (fun q => (q.1 - q.2) * (q.1 - q.2))).sum

/-- Point._dist: distance from the raw coordinates ("and cheat"). -/
def _dist (ops : MathOps F) (p o : Point F) : F :=
  ops.sqrt (p._distsq o)

/-- Point.distsq: squared distance through the guarded iterators of both
operands (zip(self, o) calls iter on both points up front). -/
def distsq (p o : Point F) : Except String F := do
  let a ← p.iter
  let b ← o.iter
  return ((a.zip b).map (fun q => (q.1 - q.2) * (q.1 - q.2))).sum

/-- Point.dist: square root of the guarded distsq. -/
def dist (ops : MathOps F) (p o : Point F) : Except String F :=
  (p.distsq o).map ops.sqrt

/-- Point.dist_noisy: the privileged distance scaled by the absolute
value of (1 + gauss(0, sigma)); `g` is the standard normal draw consumed
by the call, so gauss(0, sigma) = sigma * g. -/
def dist_noisy (ops : MathOps F) (p o : Point F) (sigma g : F) : F :=
  p._dist ops o * |1 + sigma * g|

end Point

@[simp]
theorem except_error_bind {ε β γ : Type} (e : ε) (f : β → Except ε γ) :
    (Except.error e >>= f) = Except.error e := rfl

@[simp]
theorem except_ok_bind {ε β γ : Type} (b : β) (f : β → Except ε γ) :
    ((Except.ok b : Except ε β) >>= f) = f b := rfl

@[simp]
theorem except_map_error {ε β γ : Type} (g : β → γ) (e : ε) :
    (g <$> (Except.error e : Except ε β)) = Except.error e := rfl

@[simp]
theorem except_map_ok {ε β γ : Type} (g : β → γ) (b : β) :
    (g <$> (Except.ok b : Except ε β)) = Except.ok (g b) := rfl

/-- Claim C9: reading the coordinates accessor of an Agent-role point
raises the agent-coordinates error (it never returns ground truth), while
for an Anchor-role point it returns exactly the stored coordinate
tuple. -/
theorem coords_role_guard {F : Type} [LinearOrderedField F]
    (p q : Point F) (hp : p.typ = "A") (hq : q.typ = "S") :
    p.coords = .error "Attempt to acess coords of agent" ∧
    q.coords = .ok q._coords := by
  constructor
  · simp [Point.coords, hp]
  · simp [Point.coords, hq]

/-- Witness for C9 at a concrete agent and anchor. -/
theorem coords_role_guard_witness :
    (Point.mk "A" [(1 : ℚ), 2]).coords = .error "Attempt to acess coords of agent" ∧
    (Point.mk "S" [(3 : ℚ), 4]).coords = .ok [3, 4] :=
  coords_role_guard (Point.mk "A" [(1 : ℚ), 2]) (Point.mk "S" [(3 : ℚ), 4])
    (by decide) (by decide)

/-- Claim C10: for an Agent-role point the public metric operations
abssq, abs, distsq and dist all raise the agent-coordinates error (they
go through the guarded coordinates accessor), dist/distsq raise as well
when their argument is an Agent-role point, while the privileged
underscore variants and dist_noisy built on them never consult the guard
(dist_noisy always returns the raw-distance value scaled by the noise
factor, agents included). -/
theorem agent_metric_guard {F : Type} [LinearOrderedField F]
    (ops : MathOps F) (p o : Point F) (hp : p.typ ≠ "S") :
    p.abssq = .error "Attempt to acess coords of agent" ∧
    p.absval ops = .error "Attempt to acess coords of agent" ∧
    p.iter = .error "Attempt to acess coords of agent" ∧
    p.distsq o = .error "Attempt to acess coords of agent" ∧
    p.dist ops o = .error "Attempt to acess coords of agent" ∧
    (∀ q : Point F, q.distsq p = .error "Attempt to acess coords of agent") ∧
    (∀ q : Point F, q.dist ops p = .error "Attempt to acess coords of agent") ∧
    (∀ sigma g : F, p.dist_noisy ops o sigma g =
      ops.sqrt (p._distsq o) * |1 + sigma * g|) := by
  have hc : p.coords = .error "Attempt to acess coords of agent" := by
    simp [Point.coords, hp]
  refine ⟨?_, ?_, ?_, ?_, ?_, ?_, ?_, ?_⟩
  · simp [Point.abssq, hc]
  · simp [Point.absval, Point.abssq, hc, Except.map]
  · simp [Point.iter, hc]
  · simp [Point.distsq, Point.iter, hc]
  · simp [Point.dist, Point.distsq, Point.iter, hc, Except.map]
  · intro q
    cases hq : q.coords with
    | error e =>
        have : e = "Attempt to acess coords of agent" := by
          by_cases h : q.typ = "S" <;> simp [Point.coords, h] at hq
          exact hq.symm
        simp [Point.distsq, Point.iter, hq, this]
    | ok v => simp [Point.distsq, Point.iter, hq, hc]
  · intro q
    cases hq : q.coords with
    | error e =>
        have : e = "Attempt to acess coords of agent" := by
          by_cases h : q.typ = "S" <;> simp [Point.coords, h] at hq
          exact hq.symm
        simp [Point.dist, Point.distsq, Point.iter, hq, this, Except.map]
    | ok v => simp [Point.dist, Point.distsq, Point.iter, hq, hc, Except.map]
  · intro sigma g
    rfl

/-- Witness for C10 at a concrete agent point. -/
theorem agent_metric_guard_witness :
    ((Point.mk "A" [(0 : ℚ), 1]).abssq = .error "Attempt to acess coords of agent" ∧
     (Point.mk "A" [(0 : ℚ), 1]).absval ⟨id, fun _ _ => 0, 3⟩ =
       .error "Attempt to acess coords of agent" ∧
     (Point.mk "A" [(0 : ℚ), 1]).iter = .error "Attempt to acess coords of agent" ∧
     (Point.mk "A" [(0 : ℚ), 1]).distsq (Point.mk "S" [2, 2]) =
       .error "Attempt to acess coords of agent" ∧
     (Point.mk "A" [(0 : ℚ), 1]).dist ⟨id, fun _ _ => 0, 3⟩ (Point.mk "S" [2, 2]) =
       .error "Attempt to acess coords of agent" ∧
     (∀ q : Point ℚ, q.distsq (Point.mk "A" [0, 1]) =
       .error "Attempt to acess coords of agent") ∧
     (∀ q : Point ℚ, q.dist ⟨id, fun _ _ => 0, 3⟩ (Point.mk "A" [0, 1]) =
       .error "Attempt to acess coords of agent") ∧
     (∀ sigma g : ℚ, (Point.mk "A" [(0 : ℚ), 1]).dist_noisy ⟨id, fun _ _ => 0, 3⟩
       (Point.mk "S" [2, 2]) sigma g =
       id ((Point.mk "A" [(0 : ℚ), 1])._distsq (Point.mk "S" [2, 2])) * |1 + sigma * g|)) :=
  agent_metric_guard ⟨id, fun _ _ => 0, 3⟩ (Point.mk "A" [(0 : ℚ), 1])
    (Point.mk "S" [2, 2]) (by decide)

/- ======================================================================
   The edge property bag (network.py, NetworkEdge.__getattr__ /
   __setattr__).  Attribute writes whose name starts with an underscore
   go to the ordinary instance attributes; every other write lands in the
   `props` dictionary.  Attribute reads consult the instance attributes
   first (normal Python lookup) and then the bag, and raise ValueError
   with the did-you-forget-to-transmit message when the name is in
   neither. -/

/-- Lookup in an association list standing for a Python dict. -/
def bagLookup {V : Type} (l : List (String × V)) (name : String) : Option V :=
  (l.find? (fun q => q.1 = name)).map (·.2)

/-- Insertion-ordered dict update: replacing an existing key keeps its
position, a new key is appended. -/
def bagInsert {V : Type} : List (String × V) → String → V → List (String × V)
  | [], n, v => [(n, v)]
  | q :: rest, n, v => if q.1 = n then (n, v) :: rest else q :: bagInsert rest n v

/-- The attribute state of a NetworkEdge: underscore-named instance
attributes and the `props` bag. -/
structure EdgeAttrs (V : Type) where
  inst : List (String × V)
  props : List (String × V)

namespace EdgeAttrs

/-- NetworkEdge.__setattr__. -/
def setattr {V : Type} (e : EdgeAttrs V) (name : String) (v : V) : EdgeAttrs V :=
  if name.startsWith "_" then { e with inst := bagInsert e.inst name v }
  else { e with props := bagInsert e.props name v }

/-- NetworkEdge.__getattr__ combined with normal attribute lookup:
instance attributes first, then the bag, otherwise the missing-property
error. -/
def getattr {V : Type} (e : EdgeAttrs V) (name : String) : Except String V :=
  match bagLookup e.inst name with
  | some v => .ok v
  | none =>
    match bagLookup e.props name with
    | some v => .ok v
    | none => .error (name ++ " is not an edge property; did you forget to transmit it?")

end EdgeAttrs

theorem bagLookup_bagInsert_self {V : Type} (l : List (String × V)) (n : String) (v : V) :
    bagLookup (bagInsert l n v) n = some v := by
  induction l with
  | nil => simp [bagInsert, bagLookup]
  | cons q rest ih =>
      by_cases h : q.1 = n
      · simp [bagInsert, bagLookup, h]
      · simpa [bagInsert, bagLookup, h] using ih

/-- Claim C4: for a property name that has not been set (in particular it
is not one of the pre-existing instance attributes, which Python's normal
lookup would shadow), setting that edge property and immediately getting
it returns exactly the value that was set, and getting it before any set
raises the missing-property ValueError rather than yielding a default. -/
theorem edge_prop_roundtrip {V : Type} (e : EdgeAttrs V) (name : String) (v : V)
    (hunset : bagLookup e.inst name = none ∧ bagLookup e.props name = none) :
    (e.setattr name v).getattr name = .ok v ∧
    e.getattr name =
      .error (name ++ " is not an edge property; did you forget to transmit it?") := by
  constructor
  · by_cases h : name.startsWith "_"
    · cases hp : bagLookup e.props name with
      | none => simp [EdgeAttrs.setattr, EdgeAttrs.getattr, h, bagLookup_bagInsert_self]
      | some w => simp [EdgeAttrs.setattr, EdgeAttrs.getattr, h, bagLookup_bagInsert_self]
    · simp [EdgeAttrs.setattr, EdgeAttrs.getattr, h, hunset.1, bagLookup_bagInsert_self]
  · simp [EdgeAttrs.getattr, hunset.1, hunset.2]

/-- Witness for C4: a round trip on a fresh edge state and a missing read
of a never-set property. -/
theorem edge_prop_roundtrip_witness :
    ((EdgeAttrs.mk ([] : List (String × ℚ)) []).setattr "z1" 7).getattr "z1" = .ok 7 ∧
    (EdgeAttrs.mk ([] : List (String × ℚ)) []).getattr "z1" =
      .error ("z1" ++ " is not an edge property; did you forget to transmit it?") :=
  edge_prop_roundtrip (EdgeAttrs.mk ([] : List (String × ℚ)) []) "z1" 7
    (by constructor <;> rfl)

/- ======================================================================
   The network graph (network.py, classes NetworkEdge / NetworkNode /
   Network).  Node identifiers: the source draws random unique strings
   from a global registry and uses them only as dictionary keys; here a
   node's identifier is its index in the input list, which realizes the
   same uniqueness contract.  A NetworkEdge's props dictionary always
   holds the keys the topology code writes ("typ", "pt", "dist",
   "angle"), modelled as typed fields; every algorithm-written property
   lands in the residual bag `bag`. -/

/-- A directed edge owned by its source node (network.py, NetworkEdge).
Construction copies the destination's role into `typ` and, when the
destination is an anchor, stores it under `pt`. -/
structure NetEdge (F : Type) where
  src : Nat
  dst : Nat
  typ : String
  pt : Option (Point F)
  dist : Option F
  angle : Option F
  bag : List (String × F)

instance {F : Type} : Inhabited (NetEdge F) := ⟨⟨0, 0, "A", none, none, none, []⟩⟩

/-- NetworkEdge.__init__(source, dest). -/
def NetEdge.new {F : Type} (src dst : Nat) (dstPt : Point F) : NetEdge F :=
  { src := src, dst := dst, typ := dstPt.typ,
    pt := if dstPt.typ = "S" then some dstPt else none,
    dist := none, angle := none, bag := [] }

/-- A node of the network (network.py, NetworkNode): the wrapped point,
the insertion-ordered edge dictionary keyed by neighbour identifier, and
the frozen iteration order `_order`. -/
structure NetNode (F : Type) where
  pt : Point F
  edges : List (Nat × NetEdge F)
  order : List Nat

instance {F : Type} : Inhabited (NetNode F) := ⟨⟨default, [], []⟩⟩

/-- The network graph state (network.py, class Network). -/
structure Net (F : Type) where
  nodes : List (NetNode F)

/-- Dictionary lookup in an insertion-ordered association list. -/
def dget {β : Type} (d : List (Nat × β)) (k : Nat) : Option β :=
  (d.find? (fun q => q.1 = k)).map (·.2)

/-- In-place update of the value stored at a key (Python
`d[k].field = v` mutates the entry, leaving position and keys alone; a
missing key is never updated on the paths the program takes). -/
def dmodify {β : Type} (d : List (Nat × β)) (k : Nat) (f : β → β) : List (Nat × β) :=
  d.map (fun q => if q.1 = k then (k, f q.2) else q)

/-- In-place update of a list element at an index. -/
def updateAt {β : Type} : List β → Nat → (β → β) → List β
  | [], _, _ => []
  | b :: rest, 0, f => f b :: rest
  | b :: rest, n + 1, f => b :: updateAt rest n f

namespace Net

variable {F : Type}

/-- The node at an index. -/
def node (net : Net F) (i : Nat) : NetNode F := net.nodes.getD i default

/-- The directed edge from node `i` to node `j`, when present. -/
def edge? (net : Net F) (i j : Nat) : Option (NetEdge F) := dget (net.node i).edges j

/-- The measured distance held by the directed edge from `i` to `j`. -/
def dist (net : Net F) (i j : Nat) : Option F := (net.edge? i j).bind (·.dist)

/-- The measured angle held by the directed edge from `i` to `j`. -/
def angle (net : Net F) (i j : Nat) : Option F := (net.edge? i j).bind (·.angle)

/-- Apply `f` to the edge stored at `i -> j` (in place). -/
def edgeModify (net : Net F) (i j : Nat) (f : NetEdge F → NetEdge F) : Net F :=
  ⟨updateAt net.nodes i (fun nd => { nd with edges := dmodify nd.edges j f })⟩

end Net

/-- Network._add_neighbours: for every ordered pair of distinct points
whose squared distance is strictly below visibility squared, create the
directed edge, then freeze the iteration order. -/
def addNeighbours {F : Type} [LinearOrderedField F]
    (pts : List (Point F)) (visibility : F) : List (NetNode F) :=
  (List.range pts.length).map (fun i =>
    let es := (List.range pts.length).filterMap (fun j =>
      if i = j then none
      else if (pts.getD i default)._distsq (pts.getD j default) < visibility * visibility then
        some (j, NetEdge.new i j (pts.getD j default))
      else none)
    { pt := pts.getD i default, edges := es, order := es.map (·.1) })

/-- Write the same measured value into both directed edges of a pair
(the body of Network._measure_distances' inner loop). -/
def syncSetDist {F : Type} (net : Net F) (i j : Nat) (d : F) : Net F :=
  (net.edgeModify i j (fun e => { e with dist := some d })).edgeModify j i
    (fun e => { e with dist := some d })

/-- The body of Network._measure_distances' inner loop: one noisy draw
from the source side, written into both directed edges. -/
def measPair {F : Type} [LinearOrderedField F] (ops : MathOps F) (gs : Nat → F)
    (sigma : F) (i : Nat) (acc : Net F × Nat) (j : Nat) : Net F × Nat :=
  (syncSetDist acc.1 i j
      (((acc.1.node i).pt).dist_noisy ops ((acc.1.node j).pt) sigma (gs acc.2)),
    acc.2 + 1)

/-- One iteration of Network._measure_distances' outer loop: measure all
edges owned by node `i`, in dictionary order. -/
def measNode {F : Type} [LinearOrderedField F] (ops : MathOps F) (gs : Nat → F)
    (sigma : F) (acc : Net F × Nat) (i : Nat) : Net F × Nat :=
  ((acc.1.node i).edges.map (·.1)).foldl (measPair ops gs sigma i) acc

/-- Network._measure_distances: for every node in input order and every
owned edge in dictionary order, draw one noisy distance from the source
side and write the identical value into both directed edges.  The second
component threads the index of the next Gaussian draw. -/
def measureDistances {F : Type} [LinearOrderedField F] (ops : MathOps F) (gs : Nat → F)
    (sigma : F) (net : Net F) (k : Nat) : Net F × Nat :=
  (List.range net.nodes.length).foldl (measNode ops gs sigma) (net, k)

/- ======================================================================
   Structural lemmas about the dictionary / update primitives. -/

theorem updateAt_length {β : Type} (l : List β) (i : Nat) (f : β → β) :
    (updateAt l i f).length = l.length := by
  induction l generalizing i with
  | nil => rfl
  | cons b rest ih =>
      cases i with
      | zero => simp [updateAt]
      | succ n => simp [updateAt, ih]

theorem updateAt_getD_ne {β : Type} (l : List β) (i : Nat) (f : β → β) (j : Nat) (d : β)
    (h : j ≠ i) : (updateAt l i f).getD j d = l.getD j d := by
  induction l generalizing i j with
  | nil => rfl
  | cons b rest ih =>
      cases i with
      | zero =>
          cases j with
          | zero => exact absurd rfl h
          | succ m => simp [updateAt]
      | succ n =>
          cases j with
          | zero => simp [updateAt]
          | succ m =>
              simp only [updateAt, List.getD_cons_succ]
              exact ih n m (by omega)

theorem updateAt_getD_self {β : Type} (l : List β) (i : Nat) (f : β → β) (d : β)
    (h : i < l.length) : (updateAt l i f).getD i d = f (l.getD i d) := by
  induction l generalizing i with
  | nil => simp at h
  | cons b rest ih =>
      cases i with
      | zero => simp [updateAt]
      | succ n =>
          simp only [updateAt, List.getD_cons_succ]
          exact ih n (by simpa using h)

theorem updateAt_oob {β : Type} (l : List β) (i : Nat) (f : β → β)
    (h : l.length ≤ i) : updateAt l i f = l := by
  induction l generalizing i with
  | nil => rfl
  | cons b rest ih =>
      cases i with
      | zero => simp at h
      | succ n => simp only [updateAt]; rw [ih n (by simpa using h)]

theorem dget_cons {β : Type} (q : Nat × β) (rest : List (Nat × β)) (k : Nat) :
    dget (q :: rest) k = if q.1 = k then some q.2 else dget rest k := by
  by_cases h : q.1 = k <;> simp [dget, List.find?_cons, h]

theorem dmodify_cons {β : Type} (q : Nat × β) (rest : List (Nat × β)) (k : Nat) (f : β → β) :
    dmodify (q :: rest) k f =
      (if q.1 = k then (k, f q.2) else q) :: dmodify rest k f := rfl

theorem dget_dmodify_self {β : Type} (d : List (Nat × β)) (k : Nat) (f : β → β) :
    dget (dmodify d k f) k = (dget d k).map f := by
  induction d with
  | nil => rfl
  | cons q rest ih =>
      rw [dmodify_cons]
      by_cases h : q.1 = k
      · simp [dget_cons, h]
      · simp [dget_cons, h, ih]

theorem dget_dmodify_ne {β : Type} (d : List (Nat × β)) (k : Nat) (f : β → β) (k' : Nat)
    (h : k' ≠ k) : dget (dmodify d k f) k' = dget d k' := by
  induction d with
  | nil => rfl
  | cons q rest ih =>
      rw [dmodify_cons]
      by_cases hq : q.1 = k
      · simp [dget_cons, hq, Ne.symm h, ih]
      · simp [dget_cons, hq, ih]

theorem dmodify_keys {β : Type} (d : List (Nat × β)) (k : Nat) (f : β → β) :
    (dmodify d k f).map (·.1) = d.map (·.1) := by
  induction d with
  | nil => rfl
  | cons q rest ih =>
      rw [dmodify_cons]
      by_cases h : q.1 = k
      · simp [h, ih]
      · simp [h, ih]

theorem dget_isSome_iff_mem_keys {β : Type} (d : List (Nat × β)) (k : Nat) :
    (dget d k).isSome = true ↔ k ∈ d.map (·.1) := by
  induction d with
  | nil => simp [dget]
  | cons q rest ih =>
      rw [dget_cons]
      by_cases h : q.1 = k
      · simp [h]
      · simp only [h, if_neg, not_false_iff, List.map_cons, List.mem_cons]
        rw [ih]
        constructor
        · intro hm
          exact Or.inr hm
        · intro hm
          rcases hm with hm | hm
          · exact absurd hm.symm h
          · exact hm

theorem dget_filterMap_if {β : Type} (l : List Nat) (P : Nat → Bool) (v : Nat → β) (j : Nat) :
    dget (l.filterMap (fun a => if P a then some (a, v a) else none)) j =
      if j ∈ l ∧ P j then some (v j) else none := by
  induction l with
  | nil => simp [dget]
  | cons a rest ih =>
      simp only [List.filterMap_cons]
      by_cases hP : P a
      · rw [if_pos hP, dget_cons]
        by_cases haj : a = j
        · subst haj
          simp [hP]
        · have hmem : j ∈ a :: rest ↔ j ∈ rest := by
            rw [List.mem_cons]
            exact or_iff_right (fun hh => haj hh.symm)
          simp only [haj, if_neg, not_false_iff, ih, hmem]
      · rw [if_neg (by simp [hP]), ih]
        by_cases haj : a = j
        · subst haj
          simp [hP]
        · have hmem : j ∈ a :: rest ↔ j ∈ rest := by
            rw [List.mem_cons]
            exact or_iff_right (fun hh => haj hh.symm)
          simp only [hmem]

theorem getD_map_range {β : Type} (n : Nat) (f : Nat → β) (i : Nat) (d : β) :
    (((List.range n).map f).getD i d) = if i < n then f i else d := by
  rw [List.getD_eq_getElem?_getD, List.getElem?_map]
  by_cases h : i < n
  · rw [List.getElem?_range h]
    simp [h]
  · rw [List.getElem?_eq_none (by simpa using Nat.le_of_not_lt h)]
    simp [h]

/- ======================================================================
   Lemmas about edge modification and the measured network. -/

theorem Point._distsq_comm {F : Type} [LinearOrderedField F] (p o : Point F) :
    p._distsq o = o._distsq p := by
  unfold Point._distsq
  suffices h : ∀ l1 l2 : List F,
      ((l1.zip l2).map (fun q => (q.1 - q.2) * (q.1 - q.2))).sum =
        ((l2.zip l1).map (fun q => (q.1 - q.2) * (q.1 - q.2))).sum by
    exact h _ _
  intro l1
  induction l1 with
  | nil => intro l2; cases l2 <;> simp
  | cons a rest ih =>
      intro l2
      cases l2 with
      | nil => simp
      | cons b r2 =>
          simp only [List.zip_cons_cons, List.map_cons, List.sum_cons, ih r2]
          ring_nf

theorem Point.dist_noisy_comm {F : Type} [LinearOrderedField F] (ops : MathOps F)
    (p o : Point F) (sigma g : F) :
    p.dist_noisy ops o sigma g = o.dist_noisy ops p sigma g := by
  unfold Point.dist_noisy Point._dist
  rw [Point._distsq_comm]

theorem node_edgeModify {F : Type} (net : Net F) (i j a : Nat) (f : NetEdge F → NetEdge F) :
    (net.edgeModify i j f).node a =
      if a = i ∧ a < net.nodes.length then
        { net.node a with edges := dmodify (net.node a).edges j f }
      else net.node a := by
  unfold Net.edgeModify Net.node
  by_cases ha : a = i
  · subst ha
    by_cases hl : a < net.nodes.length
    · rw [updateAt_getD_self _ _ _ _ hl]
      simp [hl]
    · rw [updateAt_oob _ _ _ (Nat.le_of_not_lt hl)]
      simp [hl]
  · rw [updateAt_getD_ne _ _ _ _ _ ha]
    simp [ha]

theorem getD_default_oob {β : Type} [Inhabited β] (l : List β) (i : Nat)
    (h : ¬ i < l.length) : l.getD i default = default := by
  rw [List.getD_eq_getElem?_getD, List.getElem?_eq_none (Nat.le_of_not_lt h)]
  rfl

theorem edge?_edgeModify {F : Type} (net : Net F) (i j a b : Nat) (f : NetEdge F → NetEdge F) :
    (net.edgeModify i j f).edge? a b =
      if a = i ∧ b = j then (net.edge? a b).map f else net.edge? a b := by
  unfold Net.edge?
  rw [node_edgeModify]
  by_cases ha : a = i
  · subst ha
    by_cases hl : a < net.nodes.length
    · simp only [hl, and_true, and_self, if_pos, true_and]
      by_cases hb : b = j
      · subst hb
        simp [dget_dmodify_self]
      · simp [hb, dget_dmodify_ne _ _ _ _ hb]
    · have hd : net.node a = default := by
        unfold Net.node
        exact getD_default_oob _ _ hl
      simp only [hl, and_false, if_false, hd, dget, and_true, true_and]
      split <;> rfl
  · simp [ha]

theorem nodes_length_edgeModify {F : Type} (net : Net F) (i j : Nat)
    (f : NetEdge F → NetEdge F) :
    (net.edgeModify i j f).nodes.length = net.nodes.length := by
  unfold Net.edgeModify
  exact updateAt_length _ _ _

theorem pt_edgeModify {F : Type} (net : Net F) (i j a : Nat) (f : NetEdge F → NetEdge F) :
    ((net.edgeModify i j f).node a).pt = (net.node a).pt := by
  rw [node_edgeModify]
  split <;> rfl

theorem order_edgeModify {F : Type} (net : Net F) (i j a : Nat) (f : NetEdge F → NetEdge F) :
    ((net.edgeModify i j f).node a).order = (net.node a).order := by
  rw [node_edgeModify]
  split <;> rfl

theorem keys_edgeModify {F : Type} (net : Net F) (i j a : Nat) (f : NetEdge F → NetEdge F) :
    ((net.edgeModify i j f).node a).edges.map (·.1) = (net.node a).edges.map (·.1) := by
  rw [node_edgeModify]
  split
  · exact dmodify_keys _ _ _
  · rfl

theorem edge?_edgeModify_isSome {F : Type} (net : Net F) (i j a b : Nat)
    (f : NetEdge F → NetEdge F) :
    ((net.edgeModify i j f).edge? a b).isSome = (net.edge? a b).isSome := by
  rw [edge?_edgeModify]
  split
  · cases he : net.edge? a b <;> simp [he]
  · rfl

theorem dist_edgeModify_set {F : Type} (net : Net F) (i j a b : Nat) (d : F) :
    (net.edgeModify i j (fun e => { e with dist := some d })).dist a b =
      if (a = i ∧ b = j) ∧ (net.edge? a b).isSome = true then some d
      else net.dist a b := by
  unfold Net.dist
  rw [edge?_edgeModify]
  by_cases h : a = i ∧ b = j
  · rw [if_pos h]
    cases he : net.edge? a b <;> simp [he, h]
  · rw [if_neg h]
    simp [h]

theorem edge?_syncSetDist_isSome {F : Type} (net : Net F) (i j a b : Nat) (d : F) :
    ((syncSetDist net i j d).edge? a b).isSome = (net.edge? a b).isSome := by
  unfold syncSetDist
  rw [edge?_edgeModify_isSome, edge?_edgeModify_isSome]

theorem dist_syncSetDist {F : Type} (net : Net F) (i j a b : Nat) (d : F) :
    (syncSetDist net i j d).dist a b =
      if ((a = i ∧ b = j) ∨ (a = j ∧ b = i)) ∧ (net.edge? a b).isSome = true then some d
      else net.dist a b := by
  unfold syncSetDist
  rw [dist_edgeModify_set, edge?_edgeModify_isSome, dist_edgeModify_set]
  by_cases hS : (net.edge? a b).isSome = true
  · by_cases hA : a = i ∧ b = j
    · by_cases hB : a = j ∧ b = i
      · rw [if_pos ⟨hB, hS⟩, if_pos ⟨Or.inl hA, hS⟩]
      · rw [if_neg (by tauto), if_pos ⟨hA, hS⟩, if_pos ⟨Or.inl hA, hS⟩]
    · by_cases hB : a = j ∧ b = i
      · rw [if_pos ⟨hB, hS⟩, if_pos ⟨Or.inr hB, hS⟩]
      · rw [if_neg (by tauto), if_neg (by tauto), if_neg (by tauto)]
  · rw [if_neg (by tauto), if_neg (by tauto), if_neg (by tauto)]

theorem pt_syncSetDist {F : Type} (net : Net F) (i j a : Nat) (d : F) :
    ((syncSetDist net i j d).node a).pt = (net.node a).pt := by
  unfold syncSetDist
  rw [pt_edgeModify, pt_edgeModify]

theorem order_syncSetDist {F : Type} (net : Net F) (i j a : Nat) (d : F) :
    ((syncSetDist net i j d).node a).order = (net.node a).order := by
  unfold syncSetDist
  rw [order_edgeModify, order_edgeModify]

theorem keys_syncSetDist {F : Type} (net : Net F) (i j a : Nat) (d : F) :
    ((syncSetDist net i j d).node a).edges.map (·.1) = (net.node a).edges.map (·.1) := by
  unfold syncSetDist
  rw [keys_edgeModify, keys_edgeModify]

theorem length_syncSetDist {F : Type} (net : Net F) (i j : Nat) (d : F) :
    (syncSetDist net i j d).nodes.length = net.nodes.length := by
  unfold syncSetDist
  rw [nodes_length_edgeModify, nodes_length_edgeModify]

/- Invariants of the measurement pass. -/

/-- The network's nodes wrap exactly the input points. -/
def PtsOf {F : Type} (net : Net F) (pts : List (Point F)) : Prop :=
  ∀ a, (net.node a).pt = pts.getD a default

/-- Edge existence is symmetric. -/
def ExistSym {F : Type} (net : Net F) : Prop :=
  ∀ a b, (net.edge? a b).isSome = (net.edge? b a).isSome

/-- The two directed edges of every pair hold the same distance value. -/
def DistSym {F : Type} (net : Net F) : Prop :=
  ∀ a b, net.dist a b = net.dist b a

/-- Every stored distance is a noisy measurement value: the pair's true
distance scaled by the noise factor of a single Gaussian draw. -/
def DistNoisyForm {F : Type} [LinearOrderedField F] (ops : MathOps F) (gs : Nat → F)
    (sigma : F) (pts : List (Point F)) (net : Net F) : Prop :=
  ∀ a b v, net.dist a b = some v →
    ∃ m, v = (pts.getD a default).dist_noisy ops (pts.getD b default) sigma (gs m)

/-- The key sets (and hence the edge sets) agree with a reference net. -/
def KeysEq {F : Type} (net net₀ : Net F) : Prop :=
  ∀ a, (net.node a).edges.map (·.1) = (net₀.node a).edges.map (·.1)

/-- Invariant carried through Network._measure_distances. -/
structure MeasInv {F : Type} [LinearOrderedField F] (ops : MathOps F) (gs : Nat → F)
    (sigma : F) (pts : List (Point F)) (net₀ : Net F) (s : Net F × Nat) : Prop where
  hpts : PtsOf s.1 pts
  hex : ExistSym s.1
  hsym : DistSym s.1
  hform : DistNoisyForm ops gs sigma pts s.1
  hkeys : KeysEq s.1 net₀

theorem measPair_inv {F : Type} [LinearOrderedField F] {ops : MathOps F} {gs : Nat → F}
    {sigma : F} {pts : List (Point F)} {net₀ : Net F} {s : Net F × Nat}
    (h : MeasInv ops gs sigma pts net₀ s) (i j : Nat) :
    MeasInv ops gs sigma pts net₀ (measPair ops gs sigma i s j) := by
  obtain ⟨hpts, hex, hsym, hform, hkeys⟩ := h
  refine ⟨?_, ?_, ?_, ?_, ?_⟩
  · intro a
    show ((syncSetDist s.1 i j _).node a).pt = _
    rw [pt_syncSetDist]
    exact hpts a
  · intro a b
    show ((syncSetDist s.1 i j _).edge? a b).isSome = ((syncSetDist s.1 i j _).edge? b a).isSome
    rw [edge?_syncSetDist_isSome, edge?_syncSetDist_isSome]
    exact hex a b
  · intro a b
    show (syncSetDist s.1 i j _).dist a b = (syncSetDist s.1 i j _).dist b a
    rw [dist_syncSetDist, dist_syncSetDist]
    by_cases hs : (s.1.edge? a b).isSome = true
    · have hs2 : (s.1.edge? b a).isSome = true := by rw [← hex a b]; exact hs
      by_cases hc : (a = i ∧ b = j) ∨ (a = j ∧ b = i)
      · have hc2 : (b = i ∧ a = j) ∨ (b = j ∧ a = i) := by tauto
        simp [hc, hc2, hs, hs2]
      · have hc2 : ¬ ((b = i ∧ a = j) ∨ (b = j ∧ a = i)) := by tauto
        simp [hc, hc2, hsym a b]
    · have hs2 : ¬ (s.1.edge? b a).isSome = true := by rw [← hex a b]; exact hs
      simp [hs, hs2, hsym a b]
  · intro a b v
    show (syncSetDist s.1 i j _).dist a b = some v → _
    rw [dist_syncSetDist]
    by_cases hc : ((a = i ∧ b = j) ∨ (a = j ∧ b = i)) ∧ (s.1.edge? a b).isSome = true
    · rw [if_pos hc]
      intro hv
      have hv' : ((s.1.node i).pt).dist_noisy ops ((s.1.node j).pt) sigma (gs s.2) = v :=
        Option.some.inj hv
      rcases hc.1 with ⟨ha, hb⟩ | ⟨ha, hb⟩
      · subst ha; subst hb
        exact ⟨s.2, by rw [← hv', hpts a, hpts b]⟩
      · subst ha; subst hb
        refine ⟨s.2, ?_⟩
        rw [← hv', hpts b, hpts a, Point.dist_noisy_comm]
    · rw [if_neg hc]
      exact hform a b v
  · intro a
    show ((syncSetDist s.1 i j _).node a).edges.map (·.1) = _
    rw [keys_syncSetDist]
    exact hkeys a

theorem measPair_isSome_mono {F : Type} [LinearOrderedField F] {ops : MathOps F}
    {gs : Nat → F} {sigma : F} (s : Net F × Nat) (i j a b : Nat)
    (h : (s.1.dist a b).isSome = true) :
    (((measPair ops gs sigma i s j).1).dist a b).isSome = true := by
  show ((syncSetDist s.1 i j _).dist a b).isSome = true
  rw [dist_syncSetDist]
  split
  · rfl
  · exact h

theorem measPair_writes {F : Type} [LinearOrderedField F] {ops : MathOps F}
    {gs : Nat → F} {sigma : F} (s : Net F × Nat) (i j : Nat)
    (h : (s.1.edge? i j).isSome = true) :
    (((measPair ops gs sigma i s j).1).dist i j).isSome = true := by
  show ((syncSetDist s.1 i j _).dist i j).isSome = true
  rw [dist_syncSetDist]
  simp [h]

/- Generic foldl reasoning helpers. -/

theorem foldl_mono {σ β : Type} (f : σ → β → σ) (P R : σ → Prop) (l : List β) (s : σ)
    (hP : ∀ s b, b ∈ l → P s → P (f s b))
    (hR : ∀ s b, b ∈ l → P s → R s → R (f s b))
    (hps : P s) (hrs : R s) : R (l.foldl f s) := by
  induction l generalizing s with
  | nil => exact hrs
  | cons x xs ih =>
      exact ih (f s x)
        (fun s' b hb hp => hP s' b (List.mem_cons_of_mem _ hb) hp)
        (fun s' b hb hp hr => hR s' b (List.mem_cons_of_mem _ hb) hp hr)
        (hP s x (List.mem_cons_self _ _) hps)
        (hR s x (List.mem_cons_self _ _) hps hrs)

theorem foldl_pres {σ β : Type} (f : σ → β → σ) (P : σ → Prop) (l : List β) (s : σ)
    (hP : ∀ s b, b ∈ l → P s → P (f s b)) (hps : P s) : P (l.foldl f s) :=
  foldl_mono f P P l s hP (fun s' b hb hp _ => hP s' b hb hp) hps hps

theorem foldl_inv_establish {σ β : Type} (f : σ → β → σ) (P : σ → Prop) (Q : β → σ → Prop)
    (l : List β) (s : σ)
    (hP : ∀ s b, b ∈ l → P s → P (f s b))
    (hNew : ∀ s b, b ∈ l → P s → Q b (f s b))
    (hMono : ∀ s b c, b ∈ l → P s → Q c s → Q c (f s b))
    (h : P s) : P (l.foldl f s) ∧ ∀ b ∈ l, Q b (l.foldl f s) := by
  induction l generalizing s with
  | nil => exact ⟨h, by simp⟩
  | cons x xs ih =>
      have hstep : P (f s x) := hP s x (List.mem_cons_self _ _) h
      obtain ⟨h1, h2⟩ := ih (f s x)
        (fun s' b hb hp => hP s' b (List.mem_cons_of_mem _ hb) hp)
        (fun s' b hb hp => hNew s' b (List.mem_cons_of_mem _ hb) hp)
        (fun s' b c hb hp hq => hMono s' b c (List.mem_cons_of_mem _ hb) hp hq)
        hstep
      refine ⟨h1, ?_⟩
      intro b hb
      rcases List.mem_cons.mp hb with hb | hb
      · rw [hb]
        exact foldl_mono f P (Q x) xs (f s x)
          (fun s' c hc hp => hP s' c (List.mem_cons_of_mem _ hc) hp)
          (fun s' c hc hp hq => hMono s' c x (List.mem_cons_of_mem _ hc) hp hq)
          hstep (hNew s x (List.mem_cons_self _ _) h)
      · exact h2 b hb

/- ======================================================================
   Characterization of the freshly built visibility graph, and claim C3. -/

theorem length_addNeighbours {F : Type} [LinearOrderedField F]
    (pts : List (Point F)) (vis : F) :
    (addNeighbours pts vis).length = pts.length := by
  unfold addNeighbours
  simp

theorem node_addNeighbours_pt {F : Type} [LinearOrderedField F]
    (pts : List (Point F)) (vis : F) (a : Nat) :
    ((Net.mk (addNeighbours pts vis)).node a).pt = pts.getD a default := by
  show ((addNeighbours pts vis).getD a default).pt = _
  unfold addNeighbours
  rw [getD_map_range]
  by_cases h : a < pts.length
  · rw [if_pos h]
  · rw [if_neg h, getD_default_oob _ _ h]
    rfl

theorem edge?_addNeighbours {F : Type} [LinearOrderedField F]
    (pts : List (Point F)) (vis : F) (i j : Nat) :
    (Net.mk (addNeighbours pts vis)).edge? i j =
      if i < pts.length ∧ j < pts.length ∧ i ≠ j ∧
          (pts.getD i default)._distsq (pts.getD j default) < vis * vis
      then some (NetEdge.new i j (pts.getD j default)) else none := by
  show dget (((addNeighbours pts vis).getD i default)).edges j = _
  unfold addNeighbours
  rw [getD_map_range]
  by_cases hi : i < pts.length
  · rw [if_pos hi]
    have hfun : (fun j => if i = j then none
          else if (pts.getD i default)._distsq (pts.getD j default) < vis * vis then
            some (j, NetEdge.new i j (pts.getD j default))
          else none)
        = (fun a => if (decide (¬ i = a) &&
              decide ((pts.getD i default)._distsq (pts.getD a default) < vis * vis)) then
            some (a, NetEdge.new i a (pts.getD a default)) else none) := by
      funext a
      by_cases h1 : i = a
      · simp [h1]
      · by_cases h2 : (pts.getD i default)._distsq (pts.getD a default) < vis * vis <;>
          simp [h1, h2]
    show dget ((List.range pts.length).filterMap _) j = _
    rw [hfun, dget_filterMap_if]
    by_cases hj : j < pts.length <;> by_cases hne : i = j <;>
      by_cases hvis : (pts.getD i default)._distsq (pts.getD j default) < vis * vis <;>
      simp [hi, hj, hne, hvis, List.mem_range]
  · rw [if_neg hi]
    have hnone : dget (default : NetNode F).edges j = none := rfl
    rw [hnone, if_neg (by tauto)]

theorem dist_addNeighbours_none {F : Type} [LinearOrderedField F]
    (pts : List (Point F)) (vis : F) (a b : Nat) :
    (Net.mk (addNeighbours pts vis)).dist a b = none := by
  unfold Net.dist
  rw [edge?_addNeighbours]
  split <;> rfl

theorem existSym_addNeighbours {F : Type} [LinearOrderedField F]
    (pts : List (Point F)) (vis : F) :
    ExistSym (Net.mk (addNeighbours pts vis)) := by
  intro a b
  rw [edge?_addNeighbours, edge?_addNeighbours]
  have hiff : (a < pts.length ∧ b < pts.length ∧ a ≠ b ∧
        (pts.getD a default)._distsq (pts.getD b default) < vis * vis)
      ↔ (b < pts.length ∧ a < pts.length ∧ b ≠ a ∧
        (pts.getD b default)._distsq (pts.getD a default) < vis * vis) := by
    rw [Point._distsq_comm]
    tauto
  by_cases h : a < pts.length ∧ b < pts.length ∧ a ≠ b ∧
      (pts.getD a default)._distsq (pts.getD b default) < vis * vis
  · rw [if_pos h, if_pos (hiff.mp h)]
    rfl
  · rw [if_neg h, if_neg (fun hh => h (hiff.mpr hh))]

/-- The composition the Network constructor performs before its
connectivity check: build the visibility graph, then measure. -/
def measuredNet {F : Type} [LinearOrderedField F] (ops : MathOps F) (gs : Nat → F)
    (pts : List (Point F)) (visibility sigma : F) (k : Nat) : Net F × Nat :=
  measureDistances ops gs sigma (Net.mk (addNeighbours pts visibility)) k

theorem measInv_init {F : Type} [LinearOrderedField F] (ops : MathOps F) (gs : Nat → F)
    (sigma : F) (pts : List (Point F)) (vis : F) (k : Nat) :
    MeasInv ops gs sigma pts (Net.mk (addNeighbours pts vis))
      (Net.mk (addNeighbours pts vis), k) := by
  refine ⟨?_, ?_, ?_, ?_, ?_⟩
  · intro a
    exact node_addNeighbours_pt pts vis a
  · exact existSym_addNeighbours pts vis
  · intro a b
    rw [dist_addNeighbours_none, dist_addNeighbours_none]
  · intro a b v hv
    rw [dist_addNeighbours_none] at hv
    exact absurd hv (Option.noConfusion)
  · intro a
    rfl

theorem measNode_inv {F : Type} [LinearOrderedField F] {ops : MathOps F} {gs : Nat → F}
    {sigma : F} {pts : List (Point F)} {net₀ : Net F} {s : Net F × Nat}
    (hp : MeasInv ops gs sigma pts net₀ s) (i : Nat) :
    MeasInv ops gs sigma pts net₀ (measNode ops gs sigma s i) := by
  unfold measNode
  exact foldl_pres _ _ _ _ (fun s' j _ hp' => measPair_inv hp' i j) hp

set_option maxHeartbeats 1000000 in
theorem measNode_isSome_mono {F : Type} [LinearOrderedField F] {ops : MathOps F}
    {gs : Nat → F} {sigma : F} {pts : List (Point F)} {net₀ : Net F} {s : Net F × Nat}
    (hp : MeasInv ops gs sigma pts net₀ s) (i c jj : Nat)
    (h : (s.1.dist c jj).isSome = true) :
    (((measNode ops gs sigma s i).1).dist c jj).isSome = true := by
  unfold measNode
  have step := foldl_mono (measPair ops gs sigma i)
    (MeasInv ops gs sigma pts net₀)
    (fun s' => (s'.1.dist c jj).isSome = true)
    ((s.1.node i).edges.map (·.1)) s
    (fun s' j _ hp' => measPair_inv hp' i j)
    (fun s' j _ _ hr => measPair_isSome_mono s' i j c jj hr)
    hp h
  exact step

theorem measNode_writes {F : Type} [LinearOrderedField F] {ops : MathOps F}
    {gs : Nat → F} {sigma : F} {pts : List (Point F)} {net₀ : Net F} {s : Net F × Nat}
    (hp : MeasInv ops gs sigma pts net₀ s) (i : Nat) :
    ∀ jj, ((net₀.edge? i jj).isSome = true) →
      (((measNode ops gs sigma s i).1).dist i jj).isSome = true := by
  have hinner := foldl_inv_establish (measPair ops gs sigma i)
    (MeasInv ops gs sigma pts net₀)
    (fun j s' => (s'.1.dist i j).isSome = true)
    ((s.1.node i).edges.map (·.1)) s
    (fun s' j _ hp' => measPair_inv hp' i j)
    (fun s' j hj hp' => by
      refine measPair_writes s' i j ?_
      have hj0 : j ∈ (net₀.node i).edges.map (·.1) := by
        rw [← hp.hkeys i]
        exact hj
      have hj' : j ∈ (s'.1.node i).edges.map (·.1) := by
        rw [hp'.hkeys i]
        exact hj0
      exact (dget_isSome_iff_mem_keys _ _).mpr hj')
    (fun s' j c _ _ hq => measPair_isSome_mono s' i j i c hq)
    hp
  intro jj hjj
  have hjj' : jj ∈ (net₀.node i).edges.map (·.1) :=
    (dget_isSome_iff_mem_keys _ _).mp hjj
  have hjl : jj ∈ (s.1.node i).edges.map (·.1) := by
    rw [hp.hkeys i]
    exact hjj'
  exact hinner.2 jj hjl

theorem measureDistances_established {F : Type} [LinearOrderedField F] (ops : MathOps F)
    (gs : Nat → F) (sigma : F) (pts : List (Point F)) (vis : F) (k : Nat) :
    MeasInv ops gs sigma pts (Net.mk (addNeighbours pts vis))
      (measuredNet ops gs pts vis sigma k) ∧
    ∀ i j, i < pts.length →
      ((Net.mk (addNeighbours pts vis)).edge? i j).isSome = true →
      (((measuredNet ops gs pts vis sigma k).1).dist i j).isSome = true := by
  have hlen : (Net.mk (addNeighbours pts vis)).nodes.length = pts.length :=
    length_addNeighbours pts vis
  have key := foldl_inv_establish (measNode ops gs sigma)
    (MeasInv ops gs sigma pts (Net.mk (addNeighbours pts vis)))
    (fun i s => ∀ jj, ((Net.mk (addNeighbours pts vis)).edge? i jj).isSome = true →
      ((s.1.dist i jj).isSome = true))
    (List.range (Net.mk (addNeighbours pts vis)).nodes.length)
    (Net.mk (addNeighbours pts vis), k)
    (fun s i _ hp => measNode_inv hp i)
    (fun s i _ hp => measNode_writes hp i)
    (fun s i c _ hp hq jj hjj => measNode_isSome_mono hp i c jj (hq jj hjj))
    (measInv_init ops gs sigma pts vis k)
  refine ⟨key.1, ?_⟩
  intro i j hi hij
  have hmem : i ∈ List.range (Net.mk (addNeighbours pts vis)).nodes.length := by
    rw [hlen]
    exact List.mem_range.mpr hi
  exact key.2 i hmem j hij

/-- Claim C3: after the Topology Builder's distance measurement, the two
directed edges of every mutually visible pair hold the identical measured
distance, and that value is a single noisy measurement (the pair's true
distance scaled by the noise factor of one Gaussian draw), written to
both sides rather than re-rolled per direction. -/
theorem measured_dist_sync {F : Type} [LinearOrderedField F] (ops : MathOps F)
    (gs : Nat → F) (pts : List (Point F)) (vis sigma : F) (k : Nat) (i j : Nat)
    (hi : i < pts.length) (hj : j < pts.length) (hij : i ≠ j)
    (hvis : (pts.getD i default)._distsq (pts.getD j default) < vis * vis) :
    (measuredNet ops gs pts vis sigma k).1.dist i j =
      (measuredNet ops gs pts vis sigma k).1.dist j i ∧
    ∃ m v, (measuredNet ops gs pts vis sigma k).1.dist i j = some v ∧
      v = (pts.getD i default).dist_noisy ops (pts.getD j default) sigma (gs m) := by
  obtain ⟨hinv, hcov⟩ := measureDistances_established ops gs sigma pts vis k
  have he : ((Net.mk (addNeighbours pts vis)).edge? i j).isSome = true := by
    rw [edge?_addNeighbours, if_pos ⟨hi, hj, hij, hvis⟩]
    rfl
  have hsome := hcov i j hi he
  obtain ⟨v, hv⟩ := Option.isSome_iff_exists.mp hsome
  obtain ⟨m, hm⟩ := hinv.hform i j v hv
  exact ⟨hinv.hsym i j, m, v, hv, hm⟩

/-- Shared concrete operation table over the rationals, used to evaluate
the model on concrete runs. -/
def qOps : MathOps ℚ := ⟨id, fun _ _ => 0, 3⟩

/-- Witness for C3 on a concrete two-node network. -/
theorem measured_dist_sync_witness :
    ((measuredNet qOps (fun _ : Nat => (0 : ℚ)) [Point.mk "S" [0, 0], Point.mk "A" [1, 0]]
        2 0 0).1.dist 0 1 =
      (measuredNet qOps (fun _ : Nat => (0 : ℚ)) [Point.mk "S" [0, 0], Point.mk "A" [1, 0]]
        2 0 0).1.dist 1 0) ∧
    ∃ (m : Nat) (v : ℚ),
      (measuredNet qOps (fun _ : Nat => (0 : ℚ)) [Point.mk "S" [0, 0], Point.mk "A" [1, 0]]
        2 0 0).1.dist 0 1 = some v ∧
      v = (([Point.mk "S" [0, 0], Point.mk "A" [(1 : ℚ), 0]].getD 0 default)).dist_noisy qOps
        ([Point.mk "S" [0, 0], Point.mk "A" [1, 0]].getD 1 default) 0
        ((fun _ : Nat => (0 : ℚ)) m) :=
  measured_dist_sync qOps (fun _ : Nat => (0 : ℚ))
    [Point.mk "S" [0, 0], Point.mk "A" [1, 0]] 2 0 0 0 1
    (by decide) (by decide) (by decide)
    (by norm_num [Point._distsq])

/- ======================================================================
   Connectivity check (network.py, Network._check_connectivity) and
   claim C2.  The depth-first traversal computes the set of nodes
   reachable from points[0]; here that seen-set is computed as the
   fixpoint of a neighbour-expansion step, reached after at most one
   expansion per node. -/

/-- One expansion of the seen-set by all neighbours of seen nodes. -/
def stepFn (nbrs : Nat → List Nat) (S : Finset Nat) : Finset Nat :=
  S ∪ S.biUnion (fun i => (nbrs i).toFinset)

/-- The seen-set after `n` expansions starting from node 0. -/
def iterReach (nbrs : Nat → List Nat) (n : Nat) : Finset Nat :=
  (stepFn nbrs)^[n] {0}

theorem subset_stepFn (nbrs : Nat → List Nat) (S : Finset Nat) : S ⊆ stepFn nbrs S :=
  Finset.subset_union_left

theorem stepFn_mono (nbrs : Nat → List Nat) {S T : Finset Nat} (h : S ⊆ T) :
    stepFn nbrs S ⊆ stepFn nbrs T :=
  Finset.union_subset_union h (Finset.biUnion_subset_biUnion_of_subset_left _ h)

theorem iterReach_chain (nbrs : Nat → List Nat) (a b : Nat) (h : a ≤ b) :
    iterReach nbrs a ⊆ iterReach nbrs b := by
  induction b with
  | zero =>
      have : a = 0 := Nat.le_zero.mp h
      subst this
      exact fun x hx => hx
  | succ b ih =>
      rcases Nat.lt_or_ge a (b + 1) with hb | hb
      · have hab : a ≤ b := Nat.lt_succ_iff.mp hb
        refine (ih hab).trans ?_
        unfold iterReach
        rw [Function.iterate_succ_apply']
        exact subset_stepFn _ _
      · have : a = b + 1 := Nat.le_antisymm h hb
        subst this
        exact fun x hx => hx

theorem iterReach_subset_range (nbrs : Nat → List Nat) (n : Nat)
    (huniv : ∀ i j, j ∈ nbrs i → j < n) (hn : 0 < n) (m : Nat) :
    iterReach nbrs m ⊆ Finset.range n := by
  induction m with
  | zero =>
      intro x hx
      unfold iterReach at hx
      simp only [Function.iterate_zero_apply, Finset.mem_singleton] at hx
      subst hx
      exact Finset.mem_range.mpr hn
  | succ m ih =>
      intro x hx
      unfold iterReach at hx ih
      rw [Function.iterate_succ_apply'] at hx
      unfold stepFn at hx
      rcases Finset.mem_union.mp hx with hx | hx
      · exact ih hx
      · obtain ⟨i, hi, hxi⟩ := Finset.mem_biUnion.mp hx
        exact Finset.mem_range.mpr (huniv i x (List.mem_toFinset.mp hxi))

theorem iterReach_growth (nbrs : Nat → List Nat) (k : Nat)
    (h : ∀ m < k, iterReach nbrs m ≠ iterReach nbrs (m + 1)) :
    k + 1 ≤ (iterReach nbrs k).card := by
  induction k with
  | zero =>
      unfold iterReach
      simp
  | succ k ih =>
      have hk : k + 1 ≤ (iterReach nbrs k).card :=
        ih (fun m hm => h m (Nat.lt_succ_of_lt hm))
      have hne : iterReach nbrs k ≠ iterReach nbrs (k + 1) := h k (Nat.lt_succ_self k)
      have hsub : iterReach nbrs k ⊆ iterReach nbrs (k + 1) :=
        iterReach_chain nbrs k (k + 1) (Nat.le_succ k)
      have hlt : (iterReach nbrs k).card < (iterReach nbrs (k + 1)).card :=
        Finset.card_lt_card (Finset.ssubset_iff_subset_ne.mpr ⟨hsub, hne⟩)
      omega

theorem iterReach_stabilize (nbrs : Nat → List Nat) (a : Nat)
    (h : iterReach nbrs a = iterReach nbrs (a + 1)) (b : Nat) (hab : a ≤ b) :
    iterReach nbrs b = iterReach nbrs a := by
  induction b with
  | zero =>
      have : a = 0 := Nat.le_zero.mp hab
      subst this
      rfl
  | succ b ih =>
      rcases Nat.lt_or_ge a (b + 1) with hb | hb
      · have hab' : a ≤ b := Nat.lt_succ_iff.mp hb
        have hb' : iterReach nbrs b = iterReach nbrs a := ih hab'
        have : iterReach nbrs (b + 1) = iterReach nbrs (a + 1) := by
          unfold iterReach
          rw [Function.iterate_succ_apply', Function.iterate_succ_apply']
          unfold iterReach at hb'
          rw [hb']
        rw [this, ← h]
      · have : a = b + 1 := Nat.le_antisymm hab hb
        subst this
        rfl

theorem iterReach_fixpoint (nbrs : Nat → List Nat) (n : Nat)
    (huniv : ∀ i j, j ∈ nbrs i → j < n) (hn : 0 < n) :
    stepFn nbrs (iterReach nbrs n) = iterReach nbrs n := by
  by_cases hstab : ∃ m, m < n ∧ iterReach nbrs m = iterReach nbrs (m + 1)
  · obtain ⟨m, hm, hfix⟩ := hstab
    have h1 : iterReach nbrs n = iterReach nbrs m :=
      iterReach_stabilize nbrs m hfix n (Nat.le_of_lt hm)
    have h2 : iterReach nbrs (n + 1) = iterReach nbrs m :=
      iterReach_stabilize nbrs m hfix (n + 1) (Nat.le_of_lt (Nat.lt_succ_of_lt hm))
    have h3 : stepFn nbrs (iterReach nbrs n) = iterReach nbrs (n + 1) := by
      unfold iterReach
      rw [Function.iterate_succ_apply']
    rw [h3, h2, h1]
  · exfalso
    push_neg at hstab
    have hgrow : n + 1 ≤ (iterReach nbrs n).card :=
      iterReach_growth nbrs n (fun m hm => hstab m hm)
    have hbound : (iterReach nbrs n).card ≤ n := by
      calc (iterReach nbrs n).card
          ≤ (Finset.range n).card :=
            Finset.card_le_card (iterReach_subset_range nbrs n huniv hn n)
        _ = n := Finset.card_range n
    omega

theorem iterReach_sound (nbrs : Nat → List Nat) (m : Nat) :
    ∀ j ∈ iterReach nbrs m, Relation.ReflTransGen (fun a b => b ∈ nbrs a) 0 j := by
  induction m with
  | zero =>
      intro j hj
      unfold iterReach at hj
      simp only [Function.iterate_zero_apply, Finset.mem_singleton] at hj
      subst hj
      exact Relation.ReflTransGen.refl
  | succ m ih =>
      intro j hj
      unfold iterReach at hj ih
      rw [Function.iterate_succ_apply'] at hj
      unfold stepFn at hj
      rcases Finset.mem_union.mp hj with hj | hj
      · exact ih j hj
      · obtain ⟨i, hi, hji⟩ := Finset.mem_biUnion.mp hj
        exact Relation.ReflTransGen.tail (ih i hi) (List.mem_toFinset.mp hji)

theorem iterReach_complete (nbrs : Nat → List Nat) (n : Nat)
    (huniv : ∀ i j, j ∈ nbrs i → j < n) (hn : 0 < n) (j : Nat)
    (h : Relation.ReflTransGen (fun a b => b ∈ nbrs a) 0 j) :
    j ∈ iterReach nbrs n := by
  have hfix := iterReach_fixpoint nbrs n huniv hn
  have h0 : 0 ∈ iterReach nbrs n := by
    refine iterReach_chain nbrs 0 n (Nat.zero_le n) ?_
    unfold iterReach
    simp
  induction h with
  | refl => exact h0
  | tail hab hbc ih =>
      rename_i b c
      have hb := ih
      have : c ∈ stepFn nbrs (iterReach nbrs n) := by
        unfold stepFn
        refine Finset.mem_union_right _ ?_
        refine Finset.mem_biUnion.mpr ⟨b, hb, ?_⟩
        exact List.mem_toFinset.mpr hbc
      rwa [hfix] at this

/-- The neighbour identifiers of a node (the keys of its edge dict). -/
def netNbrs {F : Type} (net : Net F) (i : Nat) : List Nat :=
  (net.node i).edges.map (·.1)

/-- The seen-set of the traversal from points[0]. -/
def reachSet {F : Type} (net : Net F) : Finset Nat :=
  iterReach (netNbrs net) net.nodes.length

/-- Network._check_connectivity: True iff every node is in the seen-set
of the traversal from points[0]. -/
def checkConnectivity {F : Type} (net : Net F) : Bool :=
  decide (∀ j ∈ Finset.range net.nodes.length, j ∈ reachSet net)

/-- Network.__init__: build the visibility graph, measure synchronized
noisy distances, then (by default) validate connectivity, raising
DisconnectedGraphError and aborting construction when the check fails. -/
def buildNetwork {F : Type} [LinearOrderedField F] (ops : MathOps F) (gs : Nat → F)
    (pts : List (Point F)) (visibility sigma : F) (k : Nat) (check_disconnect : Bool) :
    Except String (Net F × Nat) :=
  if check_disconnect && !(checkConnectivity (measuredNet ops gs pts visibility sigma k).1) then
    .error "Graph is disconnected."
  else .ok (measuredNet ops gs pts visibility sigma k)

/-- The visibility relation of the spec: two distinct in-range indices
whose points lie at squared distance strictly below visibility squared. -/
def visAdj {F : Type} [LinearOrderedField F] (pts : List (Point F)) (vis : F)
    (i j : Nat) : Prop :=
  i < pts.length ∧ j < pts.length ∧ i ≠ j ∧
    (pts.getD i default)._distsq (pts.getD j default) < vis * vis

theorem visAdj_symm {F : Type} [LinearOrderedField F] (pts : List (Point F)) (vis : F) :
    Symmetric (visAdj pts vis) := by
  rintro i j ⟨h1, h2, h3, h4⟩
  refine ⟨h2, h1, h3.symm, ?_⟩
  rw [Point._distsq_comm]
  exact h4

theorem length_measNode' {F : Type} [LinearOrderedField F] (ops : MathOps F) (gs : Nat → F)
    (sigma : F) (s : Net F × Nat) (i : Nat) :
    (measNode ops gs sigma s i).1.nodes.length = s.1.nodes.length := by
  unfold measNode
  have step := foldl_pres (measPair ops gs sigma i)
    (fun s' => s'.1.nodes.length = s.1.nodes.length)
    ((s.1.node i).edges.map (·.1)) s
    (fun s' j _ h => by
      show (syncSetDist s'.1 i j _).nodes.length = _
      rw [length_syncSetDist]
      exact h)
    rfl
  exact step

theorem length_measuredNet {F : Type} [LinearOrderedField F] (ops : MathOps F)
    (gs : Nat → F) (pts : List (Point F)) (vis sigma : F) (k : Nat) :
    (measuredNet ops gs pts vis sigma k).1.nodes.length = pts.length := by
  unfold measuredNet measureDistances
  have step := foldl_pres (measNode ops gs sigma)
    (fun s' => s'.1.nodes.length = pts.length)
    (List.range (Net.mk (addNeighbours pts vis)).nodes.length)
    (Net.mk (addNeighbours pts vis), k)
    (fun s' i _ h => by
      show (measNode ops gs sigma s' i).1.nodes.length = pts.length
      rw [length_measNode']
      exact h)
    (length_addNeighbours pts vis)
  exact step

theorem netNbrs_measuredNet {F : Type} [LinearOrderedField F] (ops : MathOps F)
    (gs : Nat → F) (pts : List (Point F)) (vis sigma : F) (k : Nat) (i j : Nat) :
    (j ∈ netNbrs (measuredNet ops gs pts vis sigma k).1 i) ↔ visAdj pts vis i j := by
  have hkeys := (measureDistances_established ops gs sigma pts vis k).1.hkeys i
  unfold netNbrs
  rw [hkeys, ← dget_isSome_iff_mem_keys]
  show ((Net.mk (addNeighbours pts vis)).edge? i j).isSome = true ↔ _
  rw [edge?_addNeighbours]
  unfold visAdj
  by_cases h : i < pts.length ∧ j < pts.length ∧ i ≠ j ∧
      (pts.getD i default)._distsq (pts.getD j default) < vis * vis
  · rw [if_pos h]
    exact ⟨fun _ => h, fun _ => rfl⟩
  · rw [if_neg h]
    exact ⟨fun hf => absurd hf (by simp), fun hcond => absurd hcond h⟩

theorem checkConnectivity_measured_iff {F : Type} [LinearOrderedField F] (ops : MathOps F)
    (gs : Nat → F) (pts : List (Point F)) (vis sigma : F) (k : Nat)
    (hn : 0 < pts.length) :
    checkConnectivity (measuredNet ops gs pts vis sigma k).1 = true ↔
      ∀ j < pts.length, Relation.ReflTransGen (visAdj pts vis) 0 j := by
  unfold checkConnectivity reachSet
  rw [length_measuredNet, decide_eq_true_eq]
  constructor
  · intro h j hj
    have hmem := h j (Finset.mem_range.mpr hj)
    have hr := iterReach_sound (netNbrs (measuredNet ops gs pts vis sigma k).1)
      pts.length j hmem
    exact Relation.ReflTransGen.mono
      (fun a b hab => (netNbrs_measuredNet ops gs pts vis sigma k a b).mp hab) hr
  · intro h j hjm
    have hj := Finset.mem_range.mp hjm
    refine iterReach_complete _ _ ?_ hn j ?_
    · intro a b hb
      exact ((netNbrs_measuredNet ops gs pts vis sigma k a b).mp hb).2.1
    · exact Relation.ReflTransGen.mono
        (fun a b hab => (netNbrs_measuredNet ops gs pts vis sigma k a b).mpr hab) (h j hj)

/-- Claim C2: for a non-empty point list, constructing the Network with
default connectivity checking raises DisconnectedGraphError exactly when
the visibility graph (edges strictly below the visibility radius) has a
pair of nodes with no path between them (more than one connected
component, the visibility relation being symmetric); and on success the
full measured network is returned, with every node reachable from node
0 (no degraded network is ever produced). -/
theorem network_error_iff_disconnected {F : Type} [LinearOrderedField F] (ops : MathOps F)
    (gs : Nat → F) (pts : List (Point F)) (vis sigma : F) (k : Nat)
    (hn : 0 < pts.length) :
    (buildNetwork ops gs pts vis sigma k true = .error "Graph is disconnected." ↔
      ∃ i j, i < pts.length ∧ j < pts.length ∧
        ¬ Relation.ReflTransGen (visAdj pts vis) i j) ∧
    (∀ net k', buildNetwork ops gs pts vis sigma k true = .ok (net, k') →
      net = (measuredNet ops gs pts vis sigma k).1 ∧
      ∀ j < pts.length, Relation.ReflTransGen (visAdj pts vis) 0 j) := by
  unfold buildNetwork
  by_cases hc : checkConnectivity (measuredNet ops gs pts vis sigma k).1 = true
  · have hconn := (checkConnectivity_measured_iff ops gs pts vis sigma k hn).mp hc
    rw [hc]
    simp only [Bool.and_false, Bool.not_true, if_false, Bool.false_eq_true]
    constructor
    · constructor
      · intro h
        exact absurd h (by simp)
      · rintro ⟨i, j, hi, hj, hnp⟩
        exfalso
        have hsym : Symmetric (Relation.ReflTransGen (visAdj pts vis)) :=
          Relation.ReflTransGen.symmetric (visAdj_symm pts vis)
        exact hnp ((hsym (hconn i hi)).trans (hconn j hj))
    · intro net k' hok
      have := Except.ok.inj hok
      have hnet : net = (measuredNet ops gs pts vis sigma k).1 := by
        rw [this]
      exact ⟨hnet, hconn⟩
  · have hdisc : ¬ ∀ j < pts.length, Relation.ReflTransGen (visAdj pts vis) 0 j :=
      fun h => hc ((checkConnectivity_measured_iff ops gs pts vis sigma k hn).mpr h)
    have hcb : checkConnectivity (measuredNet ops gs pts vis sigma k).1 = false :=
      Bool.eq_false_iff.mpr hc
    rw [hcb]
    simp only [Bool.not_false, Bool.and_true, if_true, Bool.true_and]
    constructor
    · constructor
      · intro _
        push_neg at hdisc
        obtain ⟨j, hj, hnp⟩ := hdisc
        exact ⟨0, j, hn, hj, hnp⟩
      · intro _
        trivial
    · intro net k' hok
      exact absurd hok (by simp)

/-- A zero noise stream for concrete runs. -/
def qgs : Nat → ℚ := fun _ => 0

/-- Concrete far-apart pair used to exercise the connectivity check. -/
def demoPts2 : List (Point ℚ) := [Point.mk "S" [0, 0], Point.mk "A" [5, 5]]

/-- Witness for C2 on a concrete two-node input. -/
theorem network_error_iff_disconnected_witness :
    ((buildNetwork qOps qgs demoPts2 1 0 0 true = .error "Graph is disconnected." ↔
        ∃ i j, i < demoPts2.length ∧ j < demoPts2.length ∧
          ¬ Relation.ReflTransGen (visAdj demoPts2 1) i j) ∧
      (∀ net k', buildNetwork qOps qgs demoPts2 1 0 0 true = .ok (net, k') →
        net = (measuredNet qOps qgs demoPts2 1 0 0).1 ∧
        ∀ j < demoPts2.length, Relation.ReflTransGen (visAdj demoPts2 1) 0 j)) :=
  network_error_iff_disconnected qOps qgs demoPts2 1 0 0 (by decide)

/- ======================================================================
   Angle measurement (network.py, Network.measure_angles) and claim C5.
   Python's float modulo x % y is x - y * floor(x / y). -/

/-- Python's float modulo. -/
def pyMod {F : Type} [LinearOrderedField F] [FloorRing F] (x y : F) : F :=
  x - y * (⌊x / y⌋ : ℤ)

/-- Store an angle on the directed edge i -> j (in place). -/
def setAngle {F : Type} (net : Net F) (i j : Nat) (u : F) : Net F :=
  net.edgeModify i j (fun e => { e with angle := some u })

theorem angle_setAngle {F : Type} (net : Net F) (i j a b : Nat) (u : F) :
    (setAngle net i j u).angle a b =
      if (a = i ∧ b = j) ∧ (net.edge? a b).isSome = true then some u
      else net.angle a b := by
  unfold setAngle Net.angle
  rw [edge?_edgeModify]
  by_cases h : a = i ∧ b = j
  · rw [if_pos h]
    cases he : net.edge? a b <;> simp [he, h]
  · rw [if_neg h]
    simp [h]

theorem dist_setAngle {F : Type} (net : Net F) (i j a b : Nat) (u : F) :
    (setAngle net i j u).dist a b = net.dist a b := by
  unfold setAngle Net.dist
  rw [edge?_edgeModify]
  by_cases h : a = i ∧ b = j
  · rw [if_pos h]
    cases he : net.edge? a b <;> simp [he, h]
  · rw [if_neg h]

/-- The noisy bearing measured for the directed edge i -> j: atan2 of the
coordinate difference (destination minus source), plus pi times the
Gaussian draw (Network.measure_angles computes
actual + pi * gauss(0, sigma)). -/
def approxAngle {F : Type} [LinearOrderedField F] (ops : MathOps F) (gs : Nat → F)
    (sigma : F) (acc : Net F × Nat) (i j : Nat) : F :=
  ops.atan2
    (((acc.1.node j).pt)._coords.getD 1 0 - ((acc.1.node i).pt)._coords.getD 1 0)
    (((acc.1.node j).pt)._coords.getD 0 0 - ((acc.1.node i).pt)._coords.getD 0 0)
  + ops.pi * (sigma * gs acc.2)

/-- The body of Network.measure_angles' inner loop: write the noisy
bearing on the forward edge and its pi-shifted reduction on the reverse
edge, consuming one draw. -/
def angStep {F : Type} [LinearOrderedField F] [FloorRing F] (ops : MathOps F)
    (gs : Nat → F) (sigma : F) (i : Nat) (acc : Net F × Nat) (j : Nat) : Net F × Nat :=
  (setAngle (setAngle acc.1 i j (approxAngle ops gs sigma acc i j)) j i
      (pyMod (ops.pi + approxAngle ops gs sigma acc i j) (2 * ops.pi)),
    acc.2 + 1)

/-- One iteration of Network.measure_angles' outer loop. -/
def angNode {F : Type} [LinearOrderedField F] [FloorRing F] (ops : MathOps F)
    (gs : Nat → F) (sigma : F) (acc : Net F × Nat) (i : Nat) : Net F × Nat :=
  ((acc.1.node i).edges.map (·.1)).foldl (angStep ops gs sigma i) acc

/-- Network.measure_angles: for every node in input order and every owned
edge in dictionary order, measure the angle and write the shifted value
on the reverse edge. -/
def measureAngles {F : Type} [LinearOrderedField F] [FloorRing F] (ops : MathOps F)
    (gs : Nat → F) (sigma : F) (net : Net F) (k : Nat) : Net F × Nat :=
  (List.range net.nodes.length).foldl (angNode ops gs sigma) (net, k)

theorem angle_angStep {F : Type} [LinearOrderedField F] [FloorRing F] (ops : MathOps F)
    (gs : Nat → F) (sigma : F) (i : Nat) (acc : Net F × Nat) (j a b : Nat) :
    (angStep ops gs sigma i acc j).1.angle a b =
      if (a = j ∧ b = i) ∧ (acc.1.edge? a b).isSome = true then
        some (pyMod (ops.pi + approxAngle ops gs sigma acc i j) (2 * ops.pi))
      else if (a = i ∧ b = j) ∧ (acc.1.edge? a b).isSome = true then
        some (approxAngle ops gs sigma acc i j)
      else acc.1.angle a b := by
  show (setAngle (setAngle acc.1 i j _) j i _).angle a b = _
  rw [angle_setAngle]
  have hiso : ((setAngle acc.1 i j (approxAngle ops gs sigma acc i j)).edge? a b).isSome
      = (acc.1.edge? a b).isSome := edge?_edgeModify_isSome _ _ _ _ _ _
  rw [hiso, angle_setAngle]

theorem pt_angStep {F : Type} [LinearOrderedField F] [FloorRing F] (ops : MathOps F)
    (gs : Nat → F) (sigma : F) (i : Nat) (acc : Net F × Nat) (j a : Nat) :
    ((angStep ops gs sigma i acc j).1.node a).pt = (acc.1.node a).pt := by
  show ((setAngle (setAngle acc.1 i j _) j i _).node a).pt = _
  unfold setAngle
  rw [pt_edgeModify, pt_edgeModify]

theorem keys_angStep {F : Type} [LinearOrderedField F] [FloorRing F] (ops : MathOps F)
    (gs : Nat → F) (sigma : F) (i : Nat) (acc : Net F × Nat) (j a : Nat) :
    ((angStep ops gs sigma i acc j).1.node a).edges.map (·.1) =
      ((acc.1.node a).edges.map (·.1)) := by
  show ((setAngle (setAngle acc.1 i j _) j i _).node a).edges.map (·.1) = _
  unfold setAngle
  rw [keys_edgeModify, keys_edgeModify]

theorem edge?_angStep_isSome {F : Type} [LinearOrderedField F] [FloorRing F]
    (ops : MathOps F) (gs : Nat → F) (sigma : F) (i : Nat) (acc : Net F × Nat)
    (j a b : Nat) :
    ((angStep ops gs sigma i acc j).1.edge? a b).isSome = (acc.1.edge? a b).isSome := by
  show ((setAngle (setAngle acc.1 i j _) j i _).edge? a b).isSome = _
  unfold setAngle
  rw [edge?_edgeModify_isSome, edge?_edgeModify_isSome]

theorem foldl_establish_ordered {σ : Type} (f : σ → Nat → σ) (P : σ → Prop)
    (Q : Nat → σ → Prop) :
    ∀ (l : List Nat) (s : σ), l.Pairwise (· < ·) →
    (∀ s b, b ∈ l → P s → P (f s b)) →
    (∀ s b, b ∈ l → P s → Q b (f s b)) →
    (∀ s b c, b ∈ l → c < b → P s → Q c s → Q c (f s b)) →
    P s → P (l.foldl f s) ∧ ∀ b ∈ l, Q b (l.foldl f s) := by
  intro l
  induction l with
  | nil =>
      intro s _ _ _ _ h
      exact ⟨h, by simp⟩
  | cons x xs ih =>
      intro s hsort hP hNew hMono h
      have hx := List.pairwise_cons.mp hsort
      have hstep : P (f s x) := hP s x (List.mem_cons_self _ _) h
      obtain ⟨h1, h2⟩ := ih (f s x) hx.2
        (fun s' b hb hp => hP s' b (List.mem_cons_of_mem _ hb) hp)
        (fun s' b hb hp => hNew s' b (List.mem_cons_of_mem _ hb) hp)
        (fun s' b c hb hcb hp hq => hMono s' b c (List.mem_cons_of_mem _ hb) hcb hp hq)
        hstep
      refine ⟨h1, ?_⟩
      intro b hb
      rcases List.mem_cons.mp hb with hb | hb
      · rw [hb]
        exact foldl_mono f P (Q x) xs (f s x)
          (fun s' c hc hp => hP s' c (List.mem_cons_of_mem _ hc) hp)
          (fun s' c hc hp hq =>
            hMono s' c x (List.mem_cons_of_mem _ hc) (hx.1 c hc) hp hq)
          hstep (hNew s x (List.mem_cons_self _ _) h)
      · exact h2 b hb

/-- State invariant of the angle pass: node points and edge keys are
those of the measured base network `M`. -/
structure AngInv {F : Type} (pts : List (Point F)) (M : Net F) (s : Net F × Nat) : Prop where
  hpts : PtsOf s.1 pts
  hkeys : KeysEq s.1 M

/-- The final relation between the two directed angles of a pair: the
higher-indexed side holds its own noisy bearing (one Gaussian draw), and
the lower-indexed side holds exactly that value shifted by pi and reduced
modulo 2 pi — the pair shares the single surviving draw. -/
def AngRel {F : Type} [LinearOrderedField F] [FloorRing F] (ops : MathOps F)
    (gs : Nat → F) (sigma : F) (pts : List (Point F)) (s : Net F × Nat)
    (hi lo : Nat) : Prop :=
  ∃ m v, s.1.angle hi lo = some v ∧
    v = ops.atan2
        ((pts.getD lo default)._coords.getD 1 0 - (pts.getD hi default)._coords.getD 1 0)
        ((pts.getD lo default)._coords.getD 0 0 - (pts.getD hi default)._coords.getD 0 0)
      + ops.pi * (sigma * gs m) ∧
    s.1.angle lo hi = some (pyMod (ops.pi + v) (2 * ops.pi))

theorem angStep_inv {F : Type} [LinearOrderedField F] [FloorRing F] {ops : MathOps F}
    {gs : Nat → F} {sigma : F} {pts : List (Point F)} {M : Net F} {acc : Net F × Nat}
    (hp : AngInv pts M acc) (i j : Nat) :
    AngInv pts M (angStep ops gs sigma i acc j) := by
  refine ⟨fun a => ?_, fun a => ?_⟩
  · rw [pt_angStep]
    exact hp.hpts a
  · rw [keys_angStep]
    exact hp.hkeys a

theorem angStep_untouched {F : Type} [LinearOrderedField F] [FloorRing F]
    (ops : MathOps F) (gs : Nat → F) (sigma : F) (i : Nat) (acc : Net F × Nat)
    (j a b : Nat) (h1 : ¬(a = j ∧ b = i)) (h2 : ¬(a = i ∧ b = j)) :
    (angStep ops gs sigma i acc j).1.angle a b = acc.1.angle a b := by
  rw [angle_angStep, if_neg (by tauto), if_neg (by tauto)]

theorem angStep_establish {F : Type} [LinearOrderedField F] [FloorRing F]
    {ops : MathOps F} {gs : Nat → F} {sigma : F} {pts : List (Point F)} {M : Net F}
    {acc : Net F × Nat} (hp : AngInv pts M acc) (i j : Nat) (hij : i ≠ j)
    (hei : (acc.1.edge? i j).isSome = true) (hej : (acc.1.edge? j i).isSome = true) :
    AngRel ops gs sigma pts (angStep ops gs sigma i acc j) i j := by
  refine ⟨acc.2, approxAngle ops gs sigma acc i j, ?_, ?_, ?_⟩
  · rw [angle_angStep, if_neg (by tauto), if_pos ⟨⟨rfl, rfl⟩, hei⟩]
  · unfold approxAngle
    rw [hp.hpts i, hp.hpts j]
  · rw [angle_angStep, if_pos ⟨⟨rfl, rfl⟩, hej⟩]

theorem angStep_ready {F : Type} [LinearOrderedField F] [FloorRing F]
    {ops : MathOps F} {gs : Nat → F} {sigma : F} {pts : List (Point F)} {M : Net F}
    {acc : Net F × Nat} (hp : AngInv pts M acc) (hMex : ExistSym M) (i j : Nat)
    (hij : i ≠ j) (hkeysM : j ∈ (M.node i).edges.map (·.1)) :
    AngRel ops gs sigma pts (angStep ops gs sigma i acc j) i j := by
  have hei : (acc.1.edge? i j).isSome = true := by
    have hm : j ∈ (acc.1.node i).edges.map (·.1) := by
      rw [hp.hkeys i]
      exact hkeysM
    exact (dget_isSome_iff_mem_keys _ _).mpr hm
  have hejM : (M.edge? j i).isSome = true := by
    rw [hMex j i]
    exact (dget_isSome_iff_mem_keys _ _).mpr hkeysM
  have hej : (acc.1.edge? j i).isSome = true := by
    have hm : i ∈ (M.node j).edges.map (·.1) := (dget_isSome_iff_mem_keys _ _).mp hejM
    have : i ∈ (acc.1.node j).edges.map (·.1) := by
      rw [hp.hkeys j]
      exact hm
    exact (dget_isSome_iff_mem_keys _ _).mpr this
  exact angStep_establish hp i j hij hei hej

theorem angNode_inv {F : Type} [LinearOrderedField F] [FloorRing F] {ops : MathOps F}
    {gs : Nat → F} {sigma : F} {pts : List (Point F)} {M : Net F} {s : Net F × Nat}
    (hp : AngInv pts M s) (i : Nat) :
    AngInv pts M (angNode ops gs sigma s i) := by
  unfold angNode
  have step := foldl_pres (angStep ops gs sigma i) (AngInv pts M)
    ((s.1.node i).edges.map (·.1)) s
    (fun s' j _ hp' => angStep_inv hp' i j) hp
  exact step

theorem angNode_establish {F : Type} [LinearOrderedField F] [FloorRing F]
    {ops : MathOps F} {gs : Nat → F} {sigma : F} {pts : List (Point F)} {M : Net F}
    {s : Net F × Nat} (hp : AngInv pts M s) (hMex : ExistSym M) (i : Nat) :
    ∀ j, j < i → (M.edge? i j).isSome = true →
      AngRel ops gs sigma pts (angNode ops gs sigma s i) i j := by
  unfold angNode
  have key := foldl_inv_establish (angStep ops gs sigma i)
    (AngInv pts M)
    (fun j acc' => j < i → AngRel ops gs sigma pts acc' i j)
    ((s.1.node i).edges.map (·.1)) s
    (fun acc' j _ hp' => angStep_inv hp' i j)
    (fun acc' j hj hp' hji => by
      have hkeysM : j ∈ (M.node i).edges.map (·.1) := by
        rw [← hp.hkeys i]
        exact hj
      exact angStep_ready hp' hMex i j (Nat.ne_of_gt hji) hkeysM)
    (fun acc' b c hb hp' hq hci => by
      by_cases hcb : c = b
      · subst hcb
        have hkeysM : c ∈ (M.node i).edges.map (·.1) := by
          rw [← hp.hkeys i]
          exact hb
        exact angStep_ready hp' hMex i c (Nat.ne_of_gt hci) hkeysM
      · obtain ⟨m, v, e1, e2, e3⟩ := hq hci
        refine ⟨m, v, ?_, e2, ?_⟩
        · rw [angStep_untouched ops gs sigma i acc' b i c
            (by rintro ⟨_, hc⟩; exact absurd hc (Nat.ne_of_lt hci))
            (by rintro ⟨_, hc⟩; exact hcb hc)]
          exact e1
        · rw [angStep_untouched ops gs sigma i acc' b c i
            (by rintro ⟨hc, _⟩; exact hcb hc)
            (by rintro ⟨hc, _⟩; exact absurd hc (Nat.ne_of_lt hci))]
          exact e3)
    hp
  intro j hji hje
  have hkeysM : j ∈ (M.node i).edges.map (·.1) := (dget_isSome_iff_mem_keys _ _).mp hje
  have hjl : j ∈ (s.1.node i).edges.map (·.1) := by
    rw [hp.hkeys i]
    exact hkeysM
  exact key.2 j hjl hji

theorem measureAngles_AngRel {F : Type} [LinearOrderedField F] [FloorRing F]
    (ops : MathOps F) (gs : Nat → F) (pts : List (Point F)) (vis sigma sigmaA : F)
    (k k2 : Nat) :
    ∀ i ∈ List.range (measuredNet ops gs pts vis sigma k).1.nodes.length,
    ∀ j, j < i → ((measuredNet ops gs pts vis sigma k).1.edge? i j).isSome = true →
      AngRel ops gs sigmaA pts
        (measureAngles ops gs sigmaA (measuredNet ops gs pts vis sigma k).1 k2) i j := by
  have hMex : ExistSym (measuredNet ops gs pts vis sigma k).1 :=
    (measureDistances_established ops gs sigma pts vis k).1.hex
  have hMpts : PtsOf (measuredNet ops gs pts vis sigma k).1 pts :=
    (measureDistances_established ops gs sigma pts vis k).1.hpts
  unfold measureAngles
  have key := foldl_establish_ordered (angNode ops gs sigmaA)
    (AngInv pts (measuredNet ops gs pts vis sigma k).1)
    (fun i s' => ∀ j, j < i →
      (((measuredNet ops gs pts vis sigma k).1).edge? i j).isSome = true →
      AngRel ops gs sigmaA pts s' i j)
    (List.range (measuredNet ops gs pts vis sigma k).1.nodes.length)
    ((measuredNet ops gs pts vis sigma k).1, k2)
    (List.pairwise_lt_range _)
    (fun s' b _ hp => angNode_inv hp b)
    (fun s' b _ hp => angNode_establish hp hMex b)
    (fun s' b c _ hcb hp hq j hjc hje => by
      unfold angNode
      have step := foldl_mono (angStep ops gs sigmaA b)
        (AngInv pts (measuredNet ops gs pts vis sigma k).1)
        (fun acc' => AngRel ops gs sigmaA pts acc' c j)
        ((s'.1.node b).edges.map (·.1)) s'
        (fun acc' x _ hp' => angStep_inv hp' b x)
        (fun acc' x _ hp' hr => by
          obtain ⟨m, v, e1, e2, e3⟩ := hr
          refine ⟨m, v, ?_, e2, ?_⟩
          · rw [angStep_untouched ops gs sigmaA b acc' x c j
              (by rintro ⟨_, hjb⟩; exact absurd hjb (Nat.ne_of_lt (hjc.trans hcb)))
              (by rintro ⟨hc, _⟩; exact absurd hc (Nat.ne_of_lt hcb))]
            exact e1
          · rw [angStep_untouched ops gs sigmaA b acc' x j c
              (by rintro ⟨_, hc⟩; exact absurd hc (Nat.ne_of_lt hcb))
              (by rintro ⟨hjb, _⟩; exact absurd hjb (Nat.ne_of_lt (hjc.trans hcb)))]
            exact e3)
        hp (hq j hjc hje)
      exact step)
    ⟨hMpts, fun a => rfl⟩
  intro i hi j hji hje
  exact key.2 i hi j hji hje

theorem measureAngles_pair {F : Type} [LinearOrderedField F] [FloorRing F]
    (ops : MathOps F) (gs : Nat → F) (pts : List (Point F)) (vis sigma sigmaA : F)
    (k k2 : Nat) (i j : Nat) (hij : i < j) (hj : j < pts.length)
    (hvis : (pts.getD i default)._distsq (pts.getD j default) < vis * vis) :
    AngRel ops gs sigmaA pts
      (measureAngles ops gs sigmaA (measuredNet ops gs pts vis sigma k).1 k2) j i := by
  have hi : i < pts.length := hij.trans hj
  have hmem : j ∈ List.range (measuredNet ops gs pts vis sigma k).1.nodes.length := by
    rw [length_measuredNet]
    exact List.mem_range.mpr hj
  refine measureAngles_AngRel ops gs pts vis sigma sigmaA k k2 j hmem i hij ?_
  have hadj : visAdj pts vis j i :=
    ⟨hj, hi, (Nat.ne_of_lt hij).symm, by rw [Point._distsq_comm]; exact hvis⟩
  have hmemk : i ∈ netNbrs (measuredNet ops gs pts vis sigma k).1 j :=
    (netNbrs_measuredNet ops gs pts vis sigma k j i).mpr hadj
  exact (dget_isSome_iff_mem_keys _ _).mpr hmemk

/-- Claim C5 (amended): when angle measurement is performed, for every
mutually visible pair the direction owned by the higher input index ends
holding its true bearing plus pi times a single Gaussian draw, and the
opposite direction holds exactly that angle plus pi reduced modulo 2 pi —
the pair's two final angles share that one surviving draw, with no
independent noise added on the reverse side. -/
theorem measured_angles_shared_draw {F : Type} [LinearOrderedField F] [FloorRing F]
    (ops : MathOps F) (gs : Nat → F) (pts : List (Point F)) (vis sigma sigmaA : F)
    (k k2 : Nat) (i j : Nat) (hij : i < j) (hj : j < pts.length)
    (hvis : (pts.getD i default)._distsq (pts.getD j default) < vis * vis) :
    ∃ m v,
      (measureAngles ops gs sigmaA (measuredNet ops gs pts vis sigma k).1 k2).1.angle j i
        = some v ∧
      v = ops.atan2
          ((pts.getD i default)._coords.getD 1 0 - (pts.getD j default)._coords.getD 1 0)
          ((pts.getD i default)._coords.getD 0 0 - (pts.getD j default)._coords.getD 0 0)
        + ops.pi * (sigmaA * gs m) ∧
      (measureAngles ops gs sigmaA (measuredNet ops gs pts vis sigma k).1 k2).1.angle i j
        = some (pyMod (ops.pi + v) (2 * ops.pi)) :=
  measureAngles_pair ops gs pts vis sigma sigmaA k k2 i j hij hj hvis

/-- Two anchors on a unit segment, for the angle-measurement runs. -/
def rowPts : List (Point ℚ) := [Point.mk "S" [0, 0], Point.mk "S" [1, 0]]

/-- An all-ones noise stream: every Gaussian draw is nonzero. -/
def onegs : Nat → ℚ := fun _ => 1

/-- Witness for the amended C5 on the concrete two-anchor network. -/
theorem measured_angles_shared_draw_witness :
    ∃ m v,
      (measureAngles qOps onegs 1 (measuredNet qOps onegs rowPts 2 0 0).1 2).1.angle 1 0
        = some v ∧
      v = qOps.atan2
          ((rowPts.getD 0 default)._coords.getD 1 0 - (rowPts.getD 1 default)._coords.getD 1 0)
          ((rowPts.getD 0 default)._coords.getD 0 0 - (rowPts.getD 1 default)._coords.getD 0 0)
        + qOps.pi * (1 * onegs m) ∧
      (measureAngles qOps onegs 1 (measuredNet qOps onegs rowPts 2 0 0).1 2).1.angle 0 1
        = some (pyMod (qOps.pi + v) (2 * qOps.pi)) :=
  measured_angles_shared_draw qOps onegs rowPts 2 0 1 0 2 0 1 (by decide) (by decide)
    (by norm_num [rowPts, Point._distsq])

/-- Counterexample to C5 as stated: on the concrete two-anchor run with
every Gaussian draw equal to one, the surviving forward angle (direction
1 to 0) is 3 (the fake pi) plus bearing, while the reverse direction
holds exactly its pi-shifted reduction 0; no choice of independent draw
satisfies the claimed `forward + pi (mod 2 pi) plus own noise` equation,
since that value is 3 for every draw while the actual reverse angle is
0. -/
theorem measure_angles_indep_noise_counterexample :
    (measureAngles qOps onegs 1 (measuredNet qOps onegs rowPts 2 0 0).1 2).1.angle 1 0
      = some 3 ∧
    (measureAngles qOps onegs 1 (measuredNet qOps onegs rowPts 2 0 0).1 2).1.angle 0 1
      = some 0 ∧
    ∀ m : Nat,
      (measureAngles qOps onegs 1 (measuredNet qOps onegs rowPts 2 0 0).1 2).1.angle 0 1 ≠
        some (pyMod (qOps.pi + 3) (2 * qOps.pi) + qOps.pi * (1 * onegs m)) := by
  obtain ⟨m, v, e1, e2, e3⟩ :=
    measureAngles_pair qOps onegs rowPts 2 0 1 0 2 0 1 (by decide) (by decide)
      (by norm_num [rowPts, Point._distsq])
  have hv : v = 3 := by
    rw [e2]
    show qOps.atan2 _ _ + qOps.pi * (1 * onegs m) = 3
    norm_num [qOps, onegs]
  have hmod : pyMod (qOps.pi + 3) (2 * qOps.pi) = 0 := by
    show pyMod ((3 : ℚ) + 3) (2 * 3) = 0
    norm_num [pyMod]
  refine ⟨by rw [← hv]; exact e1, by rw [e3, hv, hmod], ?_⟩
  intro m'
  rw [e3, hv, hmod]
  intro hcontra
  have : (0 : ℚ) = 0 + qOps.pi * (1 * onegs m') := Option.some.inj hcontra
  norm_num [qOps, onegs] at this

/- ======================================================================
   Minimum-spanning-tree reduction (network.py, Network.mst) and claims
   C6 / C7.  The priority queue is modelled as a list from which the
   minimum-weight entry is removed (ties resolved to the earliest entry;
   the source breaks heap ties by edge string order, which no claim
   depends on).  An entry is (weight, source uid, destination uid). -/

/-- Remove a minimum-weight entry from a nonempty queue, returning it and
the rest. -/
def selectMin {F : Type} [LinearOrderedField F] :
    (F × Nat × Nat) → List (F × Nat × Nat) → ((F × Nat × Nat) × List (F × Nat × Nat))
  | x, [] => (x, [])
  | x, y :: ys =>
    if x.1 ≤ y.1 then
      let p := selectMin x ys
      (p.1, y :: p.2)
    else
      let p := selectMin y ys
      (p.1, x :: p.2)

/-- heapq.heappop on the modelled queue. -/
def popMinQ {F : Type} [LinearOrderedField F] :
    List (F × Nat × Nat) → Option ((F × Nat × Nat) × List (F × Nat × Nat))
  | [] => none
  | x :: xs => some (selectMin x xs)

/-- Python dict assignment: replace in place or append. -/
def dinsert {β : Type} : List (Nat × β) → Nat → β → List (Nat × β)
  | [], k, v => [(k, v)]
  | q :: rest, k, v => if q.1 = k then (k, v) :: rest else q :: dinsert rest k v

/-- pt.edges.clear() for every node. -/
def clearEdges {F : Type} (net : Net F) : Net F :=
  ⟨net.nodes.map (fun nd => { nd with edges := [] })⟩

/-- Store a fresh edge object under the destination key of a node. -/
def nodeInsertEdge {F : Type} (net : Net F) (i j : Nat) (e : NetEdge F) : Net F :=
  ⟨updateAt net.nodes i (fun nd => { nd with edges := dinsert nd.edges j e })⟩

/-- Reinstate one retained pair: fresh NetworkEdge objects in both
directions. -/
def addTakenEdge {F : Type} (net : Net F) (p : Nat × Nat) : Net F :=
  nodeInsertEdge (nodeInsertEdge net p.1 p.2 (NetEdge.new p.1 p.2 ((net.node p.2).pt)))
    p.2 p.1 (NetEdge.new p.2 p.1 ((net.node p.1).pt))

/-- pt._order = list(pt.edges) for every node. -/
def refreezeOrders {F : Type} (net : Net F) : Net F :=
  ⟨net.nodes.map (fun nd => { nd with order := nd.edges.map (·.1) })⟩

/-- The pushes performed when a vertex is taken: every edge of that
vertex whose destination is not yet taken. -/
def pushes {F : Type} [LinearOrderedField F] (net : Net F) (wt : NetEdge F → F)
    (taken : Finset Nat) (d : Nat) : List (F × Nat × Nat) :=
  ((net.node d).edges.map (·.2)).filterMap
    (fun e => if e.dst ∈ taken then none else some (wt e, e.src, e.dst))

/-- Prim's loop from Network.mst: pop a minimum-weight edge; skip it if
its destination is already taken, otherwise take the edge and its
destination and push the destination's out-edges.  Fuel bounds the
number of pops; an empty pop (heapq on an empty list — the disconnected
case) fails. -/
def primLoop {F : Type} [LinearOrderedField F] (net : Net F) (wt : NetEdge F → F) :
    Nat → List (F × Nat × Nat) → Finset Nat → List (Nat × Nat) →
      Option (List (Nat × Nat))
  | 0, _, _, _ => none
  | fuel + 1, queue, taken, takenE =>
    if taken.card < net.nodes.length then
      match popMinQ queue with
      | none => none
      | some (q, rest) =>
        if q.2.2 ∈ taken then primLoop net wt fuel rest taken takenE
        else
          primLoop net wt fuel (rest ++ pushes net wt taken q.2.2)
            (insert q.2.2 taken) (takenE ++ [(q.2.1, q.2.2)])
    else some takenE

/-- Network.mst: run Prim's algorithm over the current edge set, discard
non-tree edges, rebuild fresh edge objects for retained pairs, refreeze
iteration orders, and re-measure distances. -/
def mstRun {F : Type} [LinearOrderedField F] (ops : MathOps F) (gs : Nat → F)
    (net : Net F) (wt : NetEdge F → F) (sigma : F) (k : Nat) : Option (Net F × Nat) :=
  match primLoop net wt (net.nodes.length * net.nodes.length + 1)
      (((net.node 0).edges.map (·.2)).map (fun e => (wt e, e.src, e.dst)))
      {0} [] with
  | none => none
  | some takenE =>
    some (measureDistances ops gs sigma (refreezeOrders (takenE.foldl addTakenEdge (clearEdges net))) k)

theorem selectMin_perm {F : Type} [LinearOrderedField F] (x : F × Nat × Nat)
    (ys : List (F × Nat × Nat)) :
    List.Perm ((selectMin x ys).1 :: (selectMin x ys).2) (x :: ys) := by
  induction ys generalizing x with
  | nil => simp [selectMin]
  | cons y ys ih =>
      unfold selectMin
      by_cases h : x.1 ≤ y.1
      · rw [if_pos h]
        show ((selectMin x ys).1 :: y :: (selectMin x ys).2).Perm (x :: y :: ys)
        have h1 : ((selectMin x ys).1 :: y :: (selectMin x ys).2).Perm
            (y :: (selectMin x ys).1 :: (selectMin x ys).2) := List.Perm.swap _ _ _
        have h2 := (ih x).cons y
        have h3 : (x :: y :: ys).Perm (y :: x :: ys) := List.Perm.swap _ _ _
        exact (h1.trans h2).trans h3.symm
      · rw [if_neg h]
        show ((selectMin y ys).1 :: x :: (selectMin y ys).2).Perm (x :: y :: ys)
        have h1 : ((selectMin y ys).1 :: x :: (selectMin y ys).2).Perm
            (x :: (selectMin y ys).1 :: (selectMin y ys).2) := List.Perm.swap _ _ _
        have h2 := (ih y).cons x
        exact h1.trans h2

theorem popMinQ_perm {F : Type} [LinearOrderedField F] (queue : List (F × Nat × Nat))
    (q : F × Nat × Nat) (rest : List (F × Nat × Nat))
    (h : popMinQ queue = some (q, rest)) : List.Perm (q :: rest) queue := by
  cases queue with
  | nil => exact absurd h (by simp [popMinQ])
  | cons x xs =>
      unfold popMinQ at h
      have h2 : selectMin x xs = (q, rest) := Option.some.inj h
      have hq : q = (selectMin x xs).1 := by rw [h2]
      have hr : rest = (selectMin x xs).2 := by rw [h2]
      rw [hq, hr]
      exact selectMin_perm x xs

theorem popMinQ_nonempty {F : Type} [LinearOrderedField F] (queue : List (F × Nat × Nat))
    (h : queue ≠ []) : ∃ q rest, popMinQ queue = some (q, rest) := by
  cases queue with
  | nil => exact absurd rfl h
  | cons x xs => exact ⟨(selectMin x xs).1, (selectMin x xs).2, rfl⟩

theorem dget_mem {β : Type} (d : List (Nat × β)) (k : Nat) (v : β)
    (h : dget d k = some v) : (k, v) ∈ d := by
  induction d with
  | nil => exact absurd h (by simp [dget])
  | cons q rest ih =>
      rw [dget_cons] at h
      by_cases hq : q.1 = k
      · rw [if_pos hq] at h
        have : q = (k, v) := by
          have h2 := Option.some.inj h
          cases q
          simp only at hq h2
          rw [hq, h2]
        rw [← this]
        exact List.mem_cons_self _ _
      · rw [if_neg hq] at h
        exact List.mem_cons_of_mem _ (ih h)

theorem mem_dget {β : Type} (d : List (Nat × β)) (k : Nat) (v : β)
    (h : (k, v) ∈ d) : (dget d k).isSome = true := by
  induction d with
  | nil => exact absurd h (by simp)
  | cons q rest ih =>
      rw [dget_cons]
      by_cases hq : q.1 = k
      · rw [if_pos hq]
        rfl
      · rw [if_neg hq]
        rcases List.mem_cons.mp h with h | h
        · rw [← h] at hq
          exact absurd rfl hq
        · exact ih h

/-- Edge existence between identified nodes. -/
def edgeAdj {F : Type} (net : Net F) (u v : Nat) : Prop :=
  (net.edge? u v).isSome = true

/-- Adjacency in the retained tree-edge list (as an undirected graph). -/
def treeAdj (takenE : List (Nat × Nat)) (a b : Nat) : Prop :=
  (a, b) ∈ takenE ∨ (b, a) ∈ takenE

/-- Wellformedness of a network's edge dictionaries: every entry of node
i's dict has source i, destination equal to its key, and an in-range
key. -/
def WFNet {F : Type} (net : Net F) : Prop :=
  ∀ i, i < net.nodes.length → ∀ q ∈ (net.node i).edges,
    q.2.src = i ∧ q.2.dst = q.1 ∧ q.1 < net.nodes.length

/-- The number of future pushes still possible: total out-degree of the
untaken vertices. -/
def budget {F : Type} (net : Net F) (taken : Finset Nat) : Nat :=
  ((Finset.range net.nodes.length) \ taken).sum (fun v => (net.node v).edges.length)

theorem mem_pushes {F : Type} [LinearOrderedField F] (net : Net F) (wt : NetEdge F → F)
    (taken : Finset Nat) (d : Nat) (hd : d < net.nodes.length) (hwf : WFNet net)
    (x : F × Nat × Nat) (hx : x ∈ pushes net wt taken d) :
    x.2.1 = d ∧ edgeAdj net d x.2.2 ∧ x.2.2 ∉ taken := by
  unfold pushes at hx
  obtain ⟨e, he, hxe⟩ := List.mem_filterMap.mp hx
  obtain ⟨q, hq, hqe⟩ := List.mem_map.mp he
  by_cases hmem : e.dst ∈ taken
  · rw [if_pos hmem] at hxe
    exact absurd hxe (by simp)
  · rw [if_neg hmem] at hxe
    have hx2 := Option.some.inj hxe
    obtain ⟨hsrc, hdst, hlt⟩ := hwf d hd q hq
    have hesrc : e.src = d := by rw [← hqe]; exact hsrc
    have hedst : e.dst = q.1 := by rw [← hqe]; exact hdst
    have hadj : edgeAdj net d e.dst := by
      unfold edgeAdj Net.edge?
      rw [hedst]
      have hmq : (q.1, q.2) ∈ (net.node d).edges := by
        rw [Prod.mk.eta]
        exact hq
      exact mem_dget _ _ _ hmq
    refine ⟨?_, ?_, ?_⟩
    · rw [← hx2]
      exact hesrc
    · rw [← hx2]
      exact hadj
    · rw [← hx2]
      exact hmem

theorem pushes_cover {F : Type} [LinearOrderedField F] (net : Net F) (wt : NetEdge F → F)
    (taken : Finset Nat) (d v : Nat) (hd : d < net.nodes.length) (hwf : WFNet net)
    (hadj : edgeAdj net d v) (hv : v ∉ taken) :
    ∃ w, (w, d, v) ∈ pushes net wt taken d := by
  unfold edgeAdj at hadj
  obtain ⟨e, he⟩ := Option.isSome_iff_exists.mp hadj
  have hmem : (v, e) ∈ (net.node d).edges := dget_mem _ _ _ he
  obtain ⟨hsrc, hdst, _⟩ := hwf d hd (v, e) hmem
  refine ⟨wt e, ?_⟩
  unfold pushes
  refine List.mem_filterMap.mpr ⟨e, ?_, ?_⟩
  · exact List.mem_map.mpr ⟨(v, e), hmem, rfl⟩
  · rw [if_neg (by rw [hdst]; exact hv)]
    rw [hsrc, hdst]

theorem pushes_length_le {F : Type} [LinearOrderedField F] (net : Net F)
    (wt : NetEdge F → F) (taken : Finset Nat) (d : Nat) :
    (pushes net wt taken d).length ≤ (net.node d).edges.length := by
  unfold pushes
  calc (((net.node d).edges.map (·.2)).filterMap _).length
      ≤ ((net.node d).edges.map (·.2)).length := List.length_filterMap_le _ _
    _ = (net.node d).edges.length := List.length_map _ _

theorem cross_of_reach {F : Type} (net : Net F) (taken : Finset Nat) (v : Nat)
    (h0 : (0 : Nat) ∈ taken) (hv : v ∉ taken)
    (hr : Relation.ReflTransGen (edgeAdj net) 0 v) :
    ∃ u w, u ∈ taken ∧ w ∉ taken ∧ edgeAdj net u w := by
  induction hr with
  | refl => exact absurd h0 hv
  | tail hab hbc ih =>
      rename_i b c
      by_cases hb : b ∈ taken
      · exact ⟨b, c, hb, hv, hbc⟩
      · exact ih hb

theorem edgeAdj_lt {F : Type} (net : Net F) (hwf : WFNet net) (u v : Nat)
    (hu : u < net.nodes.length) (h : edgeAdj net u v) : v < net.nodes.length := by
  unfold edgeAdj at h
  obtain ⟨e, he⟩ := Option.isSome_iff_exists.mp h
  exact (hwf u hu (v, e) (dget_mem _ _ _ he)).2.2

theorem rtg_treeAdj_append (takenE ext : List (Nat × Nat)) (a b : Nat)
    (h : Relation.ReflTransGen (treeAdj takenE) a b) :
    Relation.ReflTransGen (treeAdj (takenE ++ ext)) a b := by
  refine Relation.ReflTransGen.mono ?_ h
  intro x y hxy
  rcases hxy with hxy | hxy
  · exact Or.inl (List.mem_append_left _ hxy)
  · exact Or.inr (List.mem_append_left _ hxy)

/-- The loop invariant of Prim's algorithm as run by Network.mst. -/
structure PrimInv {F : Type} (net : Net F) (queue : List (F × Nat × Nat))
    (taken : Finset Nat) (takenE : List (Nat × Nat)) : Prop where
  h0 : (0 : Nat) ∈ taken
  hsub : ∀ a ∈ taken, a < net.nodes.length
  hqueue : ∀ x ∈ queue, x.2.1 ∈ taken ∧ edgeAdj net x.2.1 x.2.2
  hcross : ∀ u v, u ∈ taken → v ∉ taken → edgeAdj net u v → ∃ w, (w, u, v) ∈ queue
  htredge : ∀ p ∈ takenE, p.1 ∈ taken ∧ p.2 ∈ taken ∧ edgeAdj net p.1 p.2 ∧ p.1 ≠ p.2
  hcount : takenE.length + 1 = taken.card
  hconn : ∀ u ∈ taken, Relation.ReflTransGen (treeAdj takenE) 0 u
  hpairs : takenE.Pairwise (fun p q => ¬ (p = q ∨ (p.1 = q.2 ∧ p.2 = q.1)))

theorem primLoop_correct {F : Type} [LinearOrderedField F] (net : Net F)
    (wt : NetEdge F → F) (hwf : WFNet net)
    (hconn : ∀ v, v < net.nodes.length → Relation.ReflTransGen (edgeAdj net) 0 v) :
    ∀ fuel queue taken takenE,
      PrimInv net queue taken takenE →
      queue.length + budget net taken < fuel →
      ∃ T, primLoop net wt fuel queue taken takenE = some T ∧
        T.length + 1 = net.nodes.length ∧
        (∀ p ∈ T, edgeAdj net p.1 p.2 ∧ p.1 ≠ p.2 ∧
          p.1 < net.nodes.length ∧ p.2 < net.nodes.length) ∧
        (∀ v, v < net.nodes.length → Relation.ReflTransGen (treeAdj T) 0 v) ∧
        T.Pairwise (fun p q => ¬ (p = q ∨ (p.1 = q.2 ∧ p.2 = q.1))) := by
  intro fuel
  induction fuel with
  | zero =>
      intro queue taken takenE hinv hbud
      omega
  | succ fuel ih =>
      intro queue taken takenE hinv hbud
      by_cases hdone : taken.card < net.nodes.length
      · have huntaken : ∃ v, v < net.nodes.length ∧ v ∉ taken := by
          by_contra hall
          push_neg at hall
          have hsub2 : Finset.range net.nodes.length ⊆ taken :=
            fun v hv => hall v (Finset.mem_range.mp hv)
          have := Finset.card_le_card hsub2
          rw [Finset.card_range] at this
          omega
        obtain ⟨v, hvn, hvt⟩ := huntaken
        obtain ⟨u, w, hu, hw, hadj⟩ := cross_of_reach net taken v hinv.h0 hvt (hconn v hvn)
        obtain ⟨wq, hwq⟩ := hinv.hcross u w hu hw hadj
        have hqne : queue ≠ [] := by
          intro hq
          rw [hq] at hwq
          exact absurd hwq (List.not_mem_nil _)
        obtain ⟨q, rest, hpop⟩ := popMinQ_nonempty queue hqne
        have hperm := popMinQ_perm queue q rest hpop
        have hqmem : q ∈ queue := hperm.subset (List.mem_cons_self q rest)
        have hlen : queue.length = rest.length + 1 := by
          have hl := hperm.length_eq
          simp only [List.length_cons] at hl
          omega
        obtain ⟨hqsrc, hqadj⟩ := hinv.hqueue q hqmem
        unfold primLoop
        rw [if_pos hdone, hpop]
        dsimp only
        by_cases hd : q.2.2 ∈ taken
        · rw [if_pos hd]
          refine ih rest taken takenE
            ⟨hinv.h0, hinv.hsub, ?_, ?_, hinv.htredge, hinv.hcount, hinv.hconn, hinv.hpairs⟩
            (by omega)
          · intro x hx
            exact hinv.hqueue x (hperm.subset (List.mem_cons_of_mem _ hx))
          · intro u' v' hu' hv' hadj'
            obtain ⟨w', hw'⟩ := hinv.hcross u' v' hu' hv' hadj'
            have hmem2 : (w', u', v') ∈ q :: rest := hperm.symm.subset hw'
            rcases List.mem_cons.mp hmem2 with heq | hm
            · exfalso
              have hveq : v' = q.2.2 := congrArg (fun z => z.2.2) heq
              rw [hveq] at hv'
              exact hv' hd
            · exact ⟨w', hm⟩
        · rw [if_neg hd]
          have hdn : q.2.2 < net.nodes.length :=
            edgeAdj_lt net hwf q.2.1 q.2.2 (hinv.hsub _ hqsrc) hqadj
          have hple := pushes_length_le net wt taken q.2.2
          have hsdiff : Finset.range net.nodes.length \ insert q.2.2 taken =
              (Finset.range net.nodes.length \ taken).erase q.2.2 := by
            ext x
            simp only [Finset.mem_sdiff, Finset.mem_erase, Finset.mem_insert, Finset.mem_range]
            tauto
          have hdmem : q.2.2 ∈ Finset.range net.nodes.length \ taken :=
            Finset.mem_sdiff.mpr ⟨Finset.mem_range.mpr hdn, hd⟩
          have hbudd : budget net (insert q.2.2 taken) + (net.node q.2.2).edges.length =
              budget net taken := by
            unfold budget
            rw [hsdiff]
            exact Finset.sum_erase_add _ _ hdmem
          refine ih (rest ++ pushes net wt taken q.2.2) (insert q.2.2 taken)
            (takenE ++ [(q.2.1, q.2.2)])
            ⟨Finset.mem_insert_of_mem hinv.h0, ?_, ?_, ?_, ?_, ?_, ?_, ?_⟩
            (by rw [List.length_append]; omega)
          · intro a ha
            rcases Finset.mem_insert.mp ha with ha | ha
            · rw [ha]
              exact hdn
            · exact hinv.hsub a ha
          · intro x hx
            rcases List.mem_append.mp hx with hx | hx
            · obtain ⟨h1, h2⟩ := hinv.hqueue x (hperm.subset (List.mem_cons_of_mem _ hx))
              exact ⟨Finset.mem_insert_of_mem h1, h2⟩
            · obtain ⟨h1, h2, h3⟩ := mem_pushes net wt taken q.2.2 hdn hwf x hx
              refine ⟨by rw [h1]; exact Finset.mem_insert_self _ _, ?_⟩
              rw [h1]
              exact h2
          · intro u' v' hu' hv' hadj'
            have hv'old : v' ∉ taken := fun hvv => hv' (Finset.mem_insert_of_mem hvv)
            rcases Finset.mem_insert.mp hu' with hu' | hu'
            · obtain ⟨w', hw'⟩ := pushes_cover net wt taken q.2.2 v' hdn hwf
                (by rw [← hu']; exact hadj') hv'old
              refine ⟨w', List.mem_append_right _ ?_⟩
              rw [hu']
              exact hw'
            · obtain ⟨w', hw'⟩ := hinv.hcross u' v' hu' hv'old hadj'
              have hmem2 : (w', u', v') ∈ q :: rest := hperm.symm.subset hw'
              rcases List.mem_cons.mp hmem2 with heq | hm
              · exfalso
                have hveq : v' = q.2.2 := congrArg (fun z => z.2.2) heq
                exact hv' (by rw [hveq]; exact Finset.mem_insert_self _ _)
              · exact ⟨w', List.mem_append_left _ hm⟩
          · intro p hp
            rcases List.mem_append.mp hp with hp | hp
            · obtain ⟨h1, h2, h3, h4⟩ := hinv.htredge p hp
              exact ⟨Finset.mem_insert_of_mem h1, Finset.mem_insert_of_mem h2, h3, h4⟩
            · have hpq : p = (q.2.1, q.2.2) := by simpa using hp
              rw [hpq]
              refine ⟨Finset.mem_insert_of_mem hqsrc, Finset.mem_insert_self _ _, hqadj, ?_⟩
              intro he
              exact hd (he ▸ hqsrc)
          · have hc := hinv.hcount
            rw [List.length_append, Finset.card_insert_of_not_mem hd]
            simp only [List.length_cons, List.length_nil]
            omega
          · intro a ha
            rcases Finset.mem_insert.mp ha with ha | ha
            · have h1 := rtg_treeAdj_append takenE [(q.2.1, q.2.2)] 0 q.2.1
                (hinv.hconn q.2.1 hqsrc)
              rw [ha]
              refine Relation.ReflTransGen.tail h1 ?_
              exact Or.inl (List.mem_append_right _ (List.mem_singleton.mpr rfl))
            · exact rtg_treeAdj_append takenE [(q.2.1, q.2.2)] 0 a (hinv.hconn a ha)
          · refine List.pairwise_append.mpr ⟨hinv.hpairs, by simp, ?_⟩
            intro p hp q' hq'
            have hq'' : q' = (q.2.1, q.2.2) := by simpa using hq'
            obtain ⟨h1, h2, _, _⟩ := hinv.htredge p hp
            rw [hq'']
            rintro (heq | ⟨he1, he2⟩)
            · have : p.2 = q.2.2 := by rw [heq]
              rw [this] at h2
              exact hd h2
            · simp only at he1
              exact hd (he1 ▸ h1)
      · push_neg at hdone
        unfold primLoop
        rw [if_neg (by omega)]
        have hsub2 : taken ⊆ Finset.range net.nodes.length :=
          fun a ha => Finset.mem_range.mpr (hinv.hsub a ha)
        have heq : taken = Finset.range net.nodes.length := by
          apply Finset.eq_of_subset_of_card_le hsub2
          rw [Finset.card_range]
          exact hdone
        refine ⟨takenE, rfl, ?_, ?_, ?_, hinv.hpairs⟩
        · have hc := hinv.hcount
          rw [heq, Finset.card_range] at hc
          exact hc
        · intro p hp
          obtain ⟨h1, h2, h3, h4⟩ := hinv.htredge p hp
          exact ⟨h3, h4, hinv.hsub _ h1, hinv.hsub _ h2⟩
        · intro v' hv'
          have : v' ∈ taken := by
            rw [heq]
            exact Finset.mem_range.mpr hv'
          exact hinv.hconn v' this

theorem dget_dinsert_self {β : Type} (d : List (Nat × β)) (k : Nat) (v : β) :
    dget (dinsert d k v) k = some v := by
  induction d with
  | nil => simp [dinsert, dget_cons]
  | cons q rest ih =>
      unfold dinsert
      by_cases h : q.1 = k
      · simp [dget_cons, h]
      · simp [dget_cons, h, ih]

theorem dget_dinsert_ne {β : Type} (d : List (Nat × β)) (k : Nat) (v : β) (k' : Nat)
    (h : k' ≠ k) : dget (dinsert d k v) k' = dget d k' := by
  induction d with
  | nil =>
      show dget [(k, v)] k' = dget [] k'
      rw [dget_cons, if_neg (fun hh => h hh.symm)]
  | cons q rest ih =>
      unfold dinsert
      by_cases hq : q.1 = k
      · simp [dget_cons, hq, Ne.symm h, ih]
      · simp [dget_cons, hq, ih]

/-- Nodes of a mapped network, provided the map fixes the default node. -/
theorem node_map_net {F : Type} (net : Net F) (f : NetNode F → NetNode F)
    (hf : f default = default) (a : Nat) :
    (Net.mk (net.nodes.map f)).node a = f (net.node a) := by
  show (net.nodes.map f).getD a default = f (net.nodes.getD a default)
  rw [List.getD_eq_getElem?_getD, List.getD_eq_getElem?_getD, List.getElem?_map]
  by_cases h : a < net.nodes.length
  · rw [List.getElem?_eq_getElem h]
    rfl
  · rw [List.getElem?_eq_none (Nat.le_of_not_lt h)]
    show default = f default
    exact hf.symm

theorem node_clearEdges {F : Type} (net : Net F) (a : Nat) :
    (clearEdges net).node a = { net.node a with edges := [] } := by
  unfold clearEdges
  exact node_map_net net _ rfl a

theorem node_refreezeOrders {F : Type} (net : Net F) (a : Nat) :
    (refreezeOrders net).node a =
      { net.node a with order := (net.node a).edges.map (·.1) } := by
  unfold refreezeOrders
  exact node_map_net net _ rfl a

theorem length_clearEdges {F : Type} (net : Net F) :
    (clearEdges net).nodes.length = net.nodes.length := by
  unfold clearEdges
  simp

theorem length_refreezeOrders {F : Type} (net : Net F) :
    (refreezeOrders net).nodes.length = net.nodes.length := by
  unfold refreezeOrders
  simp

theorem edge?_refreezeOrders {F : Type} (net : Net F) (a b : Nat) :
    (refreezeOrders net).edge? a b = net.edge? a b := by
  unfold Net.edge?
  rw [node_refreezeOrders]

theorem node_nodeInsertEdge {F : Type} (net : Net F) (i j : Nat) (e : NetEdge F) (a : Nat) :
    (nodeInsertEdge net i j e).node a =
      if a = i ∧ a < net.nodes.length then
        { net.node a with edges := dinsert (net.node a).edges j e }
      else net.node a := by
  unfold nodeInsertEdge Net.node
  by_cases ha : a = i
  · subst ha
    by_cases hl : a < net.nodes.length
    · rw [updateAt_getD_self _ _ _ _ hl]
      simp [hl]
    · rw [updateAt_oob _ _ _ (Nat.le_of_not_lt hl)]
      simp [hl]
  · rw [updateAt_getD_ne _ _ _ _ _ ha]
    simp [ha]

theorem edge?_nodeInsertEdge {F : Type} (net : Net F) (i j : Nat) (e : NetEdge F)
    (a b : Nat) :
    (nodeInsertEdge net i j e).edge? a b =
      if a = i ∧ b = j ∧ i < net.nodes.length then some e else net.edge? a b := by
  unfold Net.edge?
  rw [node_nodeInsertEdge]
  by_cases ha : a = i
  · subst ha
    by_cases hl : a < net.nodes.length
    · simp only [hl, and_self, if_pos, and_true, true_and]
      by_cases hb : b = j
      · subst hb
        simp [dget_dinsert_self]
      · simp [hb, dget_dinsert_ne _ _ _ _ hb]
    · simp [hl]
  · simp [ha]

theorem pt_nodeInsertEdge {F : Type} (net : Net F) (i j : Nat) (e : NetEdge F) (a : Nat) :
    ((nodeInsertEdge net i j e).node a).pt = (net.node a).pt := by
  rw [node_nodeInsertEdge]
  split <;> rfl

theorem order_nodeInsertEdge {F : Type} (net : Net F) (i j : Nat) (e : NetEdge F) (a : Nat) :
    ((nodeInsertEdge net i j e).node a).order = (net.node a).order := by
  rw [node_nodeInsertEdge]
  split <;> rfl

theorem length_nodeInsertEdge {F : Type} (net : Net F) (i j : Nat) (e : NetEdge F) :
    (nodeInsertEdge net i j e).nodes.length = net.nodes.length := by
  unfold nodeInsertEdge
  exact updateAt_length _ _ _

theorem pt_addTakenEdge {F : Type} (net : Net F) (p : Nat × Nat) (a : Nat) :
    ((addTakenEdge net p).node a).pt = (net.node a).pt := by
  unfold addTakenEdge
  rw [pt_nodeInsertEdge, pt_nodeInsertEdge]

theorem order_addTakenEdge {F : Type} (net : Net F) (p : Nat × Nat) (a : Nat) :
    ((addTakenEdge net p).node a).order = (net.node a).order := by
  unfold addTakenEdge
  rw [order_nodeInsertEdge, order_nodeInsertEdge]

theorem length_addTakenEdge {F : Type} (net : Net F) (p : Nat × Nat) :
    (addTakenEdge net p).nodes.length = net.nodes.length := by
  unfold addTakenEdge
  rw [length_nodeInsertEdge, length_nodeInsertEdge]

theorem edge?_addTakenEdge {F : Type} (net : Net F) (p : Nat × Nat) (a b : Nat)
    (hp1 : p.1 < net.nodes.length) (hp2 : p.2 < net.nodes.length) :
    (addTakenEdge net p).edge? a b =
      if a = p.2 ∧ b = p.1 then some (NetEdge.new p.2 p.1 ((net.node p.1).pt))
      else if a = p.1 ∧ b = p.2 then some (NetEdge.new p.1 p.2 ((net.node p.2).pt))
      else net.edge? a b := by
  unfold addTakenEdge
  rw [edge?_nodeInsertEdge, edge?_nodeInsertEdge]
  have hl1 : (nodeInsertEdge net p.1 p.2 (NetEdge.new p.1 p.2 ((net.node p.2).pt))).nodes.length
      = net.nodes.length := length_nodeInsertEdge _ _ _ _
  rw [hl1]
  by_cases h1 : a = p.2 ∧ b = p.1
  · rw [if_pos ⟨h1.1, h1.2, hp2⟩, if_pos h1]
  · rw [if_neg (by tauto)]
    by_cases h2 : a = p.1 ∧ b = p.2
    · rw [if_neg h1, if_pos ⟨h2.1, h2.2, hp1⟩, if_pos h2]
    · rw [if_neg h1, if_neg (by tauto), if_neg h2]

theorem length_rebuild {F : Type} (X : Net F) (T : List (Nat × Nat)) :
    (T.foldl addTakenEdge X).nodes.length = X.nodes.length := by
  have step := foldl_pres addTakenEdge (fun s => s.nodes.length = X.nodes.length) T X
    (fun s p _ h => by
      show (addTakenEdge s p).nodes.length = X.nodes.length
      rw [length_addTakenEdge]
      exact h) rfl
  exact step

theorem pt_rebuild {F : Type} (X : Net F) (T : List (Nat × Nat)) (a : Nat) :
    ((T.foldl addTakenEdge X).node a).pt = (X.node a).pt := by
  have step := foldl_pres addTakenEdge (fun s => (s.node a).pt = (X.node a).pt) T X
    (fun s p _ h => by
      show ((addTakenEdge s p).node a).pt = (X.node a).pt
      rw [pt_addTakenEdge]
      exact h) rfl
  exact step

theorem edge?_rebuild {F : Type} (net : Net F) (T : List (Nat × Nat))
    (hT : ∀ p ∈ T, p.1 < net.nodes.length ∧ p.2 < net.nodes.length) (a b : Nat) :
    (T.foldl addTakenEdge (clearEdges net)).edge? a b =
      if (a, b) ∈ T ∨ (b, a) ∈ T then some (NetEdge.new a b ((net.node b).pt)) else none := by
  induction T using List.reverseRecOn with
  | nil =>
      simp only [List.foldl_nil, List.not_mem_nil, or_self, if_false]
      unfold Net.edge?
      rw [node_clearEdges]
      rfl
  | append_singleton T' p ihT =>
      rw [List.foldl_append]
      simp only [List.foldl_cons, List.foldl_nil]
      have hT' : ∀ q ∈ T', q.1 < net.nodes.length ∧ q.2 < net.nodes.length :=
        fun q hq => hT q (List.mem_append_left _ hq)
      have hp := hT p (List.mem_append_right _ (List.mem_singleton.mpr rfl))
      have hlen : (T'.foldl addTakenEdge (clearEdges net)).nodes.length = net.nodes.length := by
        rw [length_rebuild, length_clearEdges]
      have hpt1 : ((T'.foldl addTakenEdge (clearEdges net)).node p.1).pt = (net.node p.1).pt := by
        rw [pt_rebuild, node_clearEdges]
      have hpt2 : ((T'.foldl addTakenEdge (clearEdges net)).node p.2).pt = (net.node p.2).pt := by
        rw [pt_rebuild, node_clearEdges]
      rw [edge?_addTakenEdge _ p a b (by rw [hlen]; exact hp.1) (by rw [hlen]; exact hp.2)]
      rw [hpt1, hpt2]
      by_cases h1 : a = p.2 ∧ b = p.1
      · obtain ⟨ha, hb⟩ := h1
        subst ha
        subst hb
        rw [if_pos ⟨rfl, rfl⟩,
          if_pos (Or.inr (List.mem_append_right _ (List.mem_singleton.mpr rfl)))]
      · rw [if_neg h1]
        by_cases h2 : a = p.1 ∧ b = p.2
        · obtain ⟨ha, hb⟩ := h2
          subst ha
          subst hb
          rw [if_pos ⟨rfl, rfl⟩,
            if_pos (Or.inl (List.mem_append_right _ (List.mem_singleton.mpr rfl)))]
        · rw [if_neg h2, ihT hT']
          have hmemiff : ((a, b) ∈ T' ++ [p] ∨ (b, a) ∈ T' ++ [p]) ↔
              ((a, b) ∈ T' ∨ (b, a) ∈ T') := by
            simp only [List.mem_append, List.mem_singleton]
            constructor
            · rintro ((hm | hm) | (hm | hm))
              · exact Or.inl hm
              · exact absurd (Prod.mk.injEq a b p.1 p.2 ▸ hm) (by
                  intro hh
                  exact h2 ⟨(Prod.ext_iff.mp hm).1, (Prod.ext_iff.mp hm).2⟩)
              · exact Or.inr hm
              · exfalso
                exact h1 ⟨(Prod.ext_iff.mp hm).2 ▸ rfl, (Prod.ext_iff.mp hm).1 ▸ rfl⟩
            · rintro (hm | hm)
              · exact Or.inl (Or.inl hm)
              · exact Or.inr (Or.inl hm)
          rw [if_congr hmemiff rfl rfl]

theorem measureDistances_general {F : Type} [LinearOrderedField F] (ops : MathOps F)
    (gs : Nat → F) (sigma : F) (pts : List (Point F)) (net₀ : Net F) (k : Nat)
    (h0 : MeasInv ops gs sigma pts net₀ (net₀, k)) :
    MeasInv ops gs sigma pts net₀ (measureDistances ops gs sigma net₀ k) ∧
    ∀ i j, i < net₀.nodes.length → (net₀.edge? i j).isSome = true →
      (((measureDistances ops gs sigma net₀ k).1).dist i j).isSome = true := by
  have key := foldl_inv_establish (measNode ops gs sigma)
    (MeasInv ops gs sigma pts net₀)
    (fun i s => ∀ jj, (net₀.edge? i jj).isSome = true → ((s.1.dist i jj).isSome = true))
    (List.range net₀.nodes.length) (net₀, k)
    (fun s i _ hp => measNode_inv hp i)
    (fun s i _ hp => measNode_writes hp i)
    (fun s i c _ hp hq jj hjj => measNode_isSome_mono hp i c jj (hq jj hjj))
    h0
  exact ⟨key.1, fun i j hi hij => key.2 i (List.mem_range.mpr hi) j hij⟩

theorem ptsOf_self {F : Type} (net : Net F) : PtsOf net (net.nodes.map (·.pt)) := by
  intro a
  show (net.nodes.getD a default).pt = (net.nodes.map (·.pt)).getD a default
  rw [List.getD_eq_getElem?_getD, List.getD_eq_getElem?_getD, List.getElem?_map]
  by_cases h : a < net.nodes.length
  · rw [List.getElem?_eq_getElem h]
    rfl
  · rw [List.getElem?_eq_none (Nat.le_of_not_lt h)]
    rfl

/-- Forget the measured distance (the only field the measurement pass
writes). -/
def eraseDist {F : Type} (e : NetEdge F) : NetEdge F := { e with dist := none }

theorem eraseDist_syncSetDist {F : Type} (net : Net F) (i j : Nat) (d : F) (a b : Nat) :
    ((syncSetDist net i j d).edge? a b).map eraseDist = (net.edge? a b).map eraseDist := by
  unfold syncSetDist
  rw [edge?_edgeModify, edge?_edgeModify]
  have hcomp : ∀ o : Option (NetEdge F),
      (o.map (fun e => { e with dist := some d })).map eraseDist = o.map eraseDist := by
    intro o
    cases o <;> rfl
  split
  · split
    · rw [hcomp, hcomp]
    · rw [hcomp]
  · split
    · rw [hcomp]
    · rfl

theorem eraseDist_measureDistances {F : Type} [LinearOrderedField F] (ops : MathOps F)
    (gs : Nat → F) (sigma : F) (net : Net F) (k : Nat) (a b : Nat) :
    (((measureDistances ops gs sigma net k).1).edge? a b).map eraseDist =
      (net.edge? a b).map eraseDist := by
  unfold measureDistances
  have step := foldl_pres (measNode ops gs sigma)
    (fun s => (s.1.edge? a b).map eraseDist = (net.edge? a b).map eraseDist)
    (List.range net.nodes.length) (net, k)
    (fun s i _ h => by
      show (((measNode ops gs sigma s i).1).edge? a b).map eraseDist = _
      unfold measNode
      have inner := foldl_pres (measPair ops gs sigma i)
        (fun s' => (s'.1.edge? a b).map eraseDist = (net.edge? a b).map eraseDist)
        ((s.1.node i).edges.map (·.1)) s
        (fun s' j _ h' => by
          show ((syncSetDist s'.1 i j _).edge? a b).map eraseDist = _
          rw [eraseDist_syncSetDist]
          exact h') h
      exact inner) rfl
  exact step

theorem edge?_measureDistances_isSome {F : Type} [LinearOrderedField F] (ops : MathOps F)
    (gs : Nat → F) (sigma : F) (net : Net F) (k : Nat) (a b : Nat) :
    (((measureDistances ops gs sigma net k).1).edge? a b).isSome = (net.edge? a b).isSome := by
  have h := eraseDist_measureDistances ops gs sigma net k a b
  cases h1 : ((measureDistances ops gs sigma net k).1).edge? a b <;>
    cases h2 : net.edge? a b <;> rw [h1, h2] at h <;> simp at h ⊢

theorem order_measureDistances {F : Type} [LinearOrderedField F] (ops : MathOps F)
    (gs : Nat → F) (sigma : F) (net : Net F) (k : Nat) (a : Nat) :
    (((measureDistances ops gs sigma net k).1).node a).order = (net.node a).order := by
  unfold measureDistances
  have step := foldl_pres (measNode ops gs sigma)
    (fun s => (s.1.node a).order = (net.node a).order)
    (List.range net.nodes.length) (net, k)
    (fun s i _ h => by
      show ((measNode ops gs sigma s i).1.node a).order = _
      unfold measNode
      have inner := foldl_pres (measPair ops gs sigma i)
        (fun s' => (s'.1.node a).order = (net.node a).order)
        ((s.1.node i).edges.map (·.1)) s
        (fun s' j _ h' => by
          show ((syncSetDist s'.1 i j _).node a).order = _
          rw [order_syncSetDist]
          exact h') h
      exact inner) rfl
  exact step

theorem keys_measureDistances {F : Type} [LinearOrderedField F] (ops : MathOps F)
    (gs : Nat → F) (sigma : F) (net : Net F) (k : Nat) (a : Nat) :
    (((measureDistances ops gs sigma net k).1).node a).edges.map (·.1) =
      (net.node a).edges.map (·.1) := by
  unfold measureDistances
  have step := foldl_pres (measNode ops gs sigma)
    (fun s => (s.1.node a).edges.map (·.1) = (net.node a).edges.map (·.1))
    (List.range net.nodes.length) (net, k)
    (fun s i _ h => by
      show ((measNode ops gs sigma s i).1.node a).edges.map (·.1) = _
      unfold measNode
      have inner := foldl_pres (measPair ops gs sigma i)
        (fun s' => (s'.1.node a).edges.map (·.1) = (net.node a).edges.map (·.1))
        ((s.1.node i).edges.map (·.1)) s
        (fun s' j _ h' => by
          show ((syncSetDist s'.1 i j _).node a).edges.map (·.1) = _
          rw [keys_syncSetDist]
          exact h') h
      exact inner) rfl
  exact step

theorem order_angStep {F : Type} [LinearOrderedField F] [FloorRing F] (ops : MathOps F)
    (gs : Nat → F) (sigma : F) (i : Nat) (acc : Net F × Nat) (j a : Nat) :
    ((angStep ops gs sigma i acc j).1.node a).order = (acc.1.node a).order := by
  show ((setAngle (setAngle acc.1 i j _) j i _).node a).order = _
  unfold setAngle
  rw [order_edgeModify, order_edgeModify]

theorem order_measureAngles {F : Type} [LinearOrderedField F] [FloorRing F]
    (ops : MathOps F) (gs : Nat → F) (sigma : F) (net : Net F) (k : Nat) (a : Nat) :
    (((measureAngles ops gs sigma net k).1).node a).order = (net.node a).order := by
  unfold measureAngles
  have step := foldl_pres (angNode ops gs sigma)
    (fun s => (s.1.node a).order = (net.node a).order)
    (List.range net.nodes.length) (net, k)
    (fun s i _ h => by
      show ((angNode ops gs sigma s i).1.node a).order = _
      unfold angNode
      have inner := foldl_pres (angStep ops gs sigma i)
        (fun s' => (s'.1.node a).order = (net.node a).order)
        ((s.1.node i).edges.map (·.1)) s
        (fun s' j _ h' => by
          show ((angStep ops gs sigma i s' j).1.node a).order = _
          rw [order_angStep]
          exact h') h
      exact inner) rfl
  exact step

theorem primInv_init {F : Type} [LinearOrderedField F] (net : Net F) (wt : NetEdge F → F)
    (hwf : WFNet net) (hn : 0 < net.nodes.length) :
    PrimInv net (((net.node 0).edges.map (·.2)).map (fun e => (wt e, e.src, e.dst)))
      {0} [] := by
  refine ⟨Finset.mem_singleton_self 0, ?_, ?_, ?_, ?_, ?_, ?_, List.Pairwise.nil⟩
  · intro a ha
    rw [Finset.mem_singleton.mp ha]
    exact hn
  · intro x hx
    obtain ⟨e, he, hex⟩ := List.mem_map.mp hx
    obtain ⟨q, hq, hqe⟩ := List.mem_map.mp he
    obtain ⟨hsrc, hdst, _⟩ := hwf 0 hn q hq
    have hes : e.src = 0 := by rw [← hqe]; exact hsrc
    have hed : e.dst = q.1 := by rw [← hqe]; exact hdst
    have hadj : edgeAdj net 0 e.dst := by
      unfold edgeAdj Net.edge?
      rw [hed]
      refine mem_dget _ _ q.2 ?_
      rw [Prod.mk.eta]
      exact hq
    constructor
    · rw [← hex]
      show e.src ∈ ({0} : Finset Nat)
      rw [hes]
      exact Finset.mem_singleton_self 0
    · rw [← hex]
      show edgeAdj net e.src e.dst
      rw [hes]
      exact hadj
  · intro u v hu hv hadj
    have hu0 : u = 0 := Finset.mem_singleton.mp hu
    subst hu0
    unfold edgeAdj at hadj
    obtain ⟨e, he⟩ := Option.isSome_iff_exists.mp hadj
    have hmem : (v, e) ∈ (net.node 0).edges := dget_mem _ _ _ he
    obtain ⟨hsrc, hdst, _⟩ := hwf 0 hn (v, e) hmem
    refine ⟨wt e, ?_⟩
    refine List.mem_map.mpr ⟨e, List.mem_map.mpr ⟨(v, e), hmem, rfl⟩, ?_⟩
    simp only at hsrc hdst
    rw [hsrc, hdst]
  · intro p hp
    exact absurd hp (List.not_mem_nil p)
  · simp
  · intro u hu
    rw [Finset.mem_singleton.mp hu]

theorem outdeg_le {F : Type} (net : Net F) (i : Nat) (hi : i < net.nodes.length)
    (hwf : WFNet net) (hnd : ((net.node i).edges.map (·.1)).Nodup) :
    (net.node i).edges.length ≤ net.nodes.length := by
  have hsub : ∀ x ∈ (net.node i).edges.map (·.1), x < net.nodes.length := by
    intro x hx
    obtain ⟨q, hq, hqx⟩ := List.mem_map.mp hx
    have h := (hwf i hi q hq).2.2
    rw [← hqx]
    exact h
  have hlen : (net.node i).edges.length = ((net.node i).edges.map (·.1)).length :=
    (List.length_map _ _).symm
  rw [hlen]
  have h1 : ((net.node i).edges.map (·.1)).toFinset ⊆ Finset.range net.nodes.length := by
    intro x hx
    rw [List.mem_toFinset] at hx
    exact Finset.mem_range.mpr (hsub x hx)
  have h2 := Finset.card_le_card h1
  rw [List.toFinset_card_of_nodup hnd, Finset.card_range] at h2
  exact h2

theorem initial_budget_lt {F : Type} [LinearOrderedField F] (net : Net F)
    (wt : NetEdge F → F) (hwf : WFNet net)
    (hnd : ∀ i, i < net.nodes.length → ((net.node i).edges.map (·.1)).Nodup)
    (hn : 0 < net.nodes.length) :
    (((net.node 0).edges.map (·.2)).map (fun e => (wt e, e.src, e.dst))).length
      + budget net {0} < net.nodes.length * net.nodes.length + 1 := by
  have hq : (((net.node 0).edges.map (·.2)).map
      (fun e => (wt e, e.src, e.dst))).length = (net.node 0).edges.length := by
    rw [List.length_map, List.length_map]
  rw [hq]
  unfold budget
  rw [Finset.sdiff_singleton_eq_erase]
  have hsum : (net.node 0).edges.length
      + ((Finset.range net.nodes.length).erase 0).sum (fun v => (net.node v).edges.length)
      = (Finset.range net.nodes.length).sum (fun v => (net.node v).edges.length) :=
    Finset.add_sum_erase (Finset.range net.nodes.length)
      (fun v => (net.node v).edges.length) (Finset.mem_range.mpr hn)
  have hb : (Finset.range net.nodes.length).sum (fun v => (net.node v).edges.length)
      ≤ net.nodes.length * net.nodes.length := by
    have hstep := Finset.sum_le_sum (fun i hi =>
      outdeg_le net i (Finset.mem_range.mp hi) hwf (hnd i (Finset.mem_range.mp hi)))
    rw [Finset.sum_const, Finset.card_range, smul_eq_mul] at hstep
    exact hstep
  omega

theorem length_measureDistances {F : Type} [LinearOrderedField F] (ops : MathOps F)
    (gs : Nat → F) (sigma : F) (net : Net F) (k : Nat) :
    ((measureDistances ops gs sigma net k).1).nodes.length = net.nodes.length := by
  unfold measureDistances
  have step := foldl_pres (measNode ops gs sigma)
    (fun s' => s'.1.nodes.length = net.nodes.length)
    (List.range net.nodes.length) (net, k)
    (fun s' i _ h => by
      show (measNode ops gs sigma s' i).1.nodes.length = net.nodes.length
      rw [length_measNode']
      exact h)
    rfl
  exact step

theorem mstRun_spec {F : Type} [LinearOrderedField F] (ops : MathOps F) (gs : Nat → F)
    (net : Net F) (wt : NetEdge F → F) (sigma : F) (k : Nat)
    (hwf : WFNet net)
    (hnd : ∀ i, i < net.nodes.length → ((net.node i).edges.map (·.1)).Nodup)
    (hn : 0 < net.nodes.length)
    (hconn : ∀ v, v < net.nodes.length → Relation.ReflTransGen (edgeAdj net) 0 v) :
    ∃ T net' kf, mstRun ops gs net wt sigma k = some (net', kf) ∧
      T.length + 1 = net.nodes.length ∧
      T.Pairwise (fun p q => ¬ (p = q ∨ (p.1 = q.2 ∧ p.2 = q.1))) ∧
      (∀ p ∈ T, edgeAdj net p.1 p.2 ∧ p.1 ≠ p.2) ∧
      net'.nodes.length = net.nodes.length ∧
      (∀ a b, (net'.edge? a b).map eraseDist =
        if (a, b) ∈ T ∨ (b, a) ∈ T
        then some (NetEdge.new a b ((net.node b).pt)) else none) ∧
      (∀ a b, edgeAdj net' a b ↔ treeAdj T a b) ∧
      (∀ a b, treeAdj T a b → (net'.dist a b).isSome = true) ∧
      DistSym net' ∧
      DistNoisyForm ops gs sigma (net.nodes.map (·.pt)) net' ∧
      (∀ v, v < net.nodes.length → Relation.ReflTransGen (edgeAdj net') 0 v) := by
  obtain ⟨T, hpl, hTlen, hTmem, hTconn, hTpair⟩ :=
    primLoop_correct net wt hwf hconn
      (net.nodes.length * net.nodes.length + 1)
      (((net.node 0).edges.map (·.2)).map (fun e => (wt e, e.src, e.dst)))
      {0} [] (primInv_init net wt hwf hn) (initial_budget_lt net wt hwf hnd hn)
  have hTb : ∀ p ∈ T, p.1 < net.nodes.length ∧ p.2 < net.nodes.length :=
    fun p hp => ⟨(hTmem p hp).2.2.1, (hTmem p hp).2.2.2⟩
  refine ⟨T, (measureDistances ops gs sigma
      (refreezeOrders (T.foldl addTakenEdge (clearEdges net))) k).1,
    (measureDistances ops gs sigma
      (refreezeOrders (T.foldl addTakenEdge (clearEdges net))) k).2, ?_⟩
  have hRlen : (refreezeOrders (T.foldl addTakenEdge (clearEdges net))).nodes.length
      = net.nodes.length := by
    rw [length_refreezeOrders, length_rebuild, length_clearEdges]
  have hRedge : ∀ a b, (refreezeOrders (T.foldl addTakenEdge (clearEdges net))).edge? a b
      = if (a, b) ∈ T ∨ (b, a) ∈ T
        then some (NetEdge.new a b ((net.node b).pt)) else none := by
    intro a b
    rw [edge?_refreezeOrders]
    exact edge?_rebuild net T hTb a b
  have hRpt : ∀ a, ((refreezeOrders (T.foldl addTakenEdge (clearEdges net))).node a).pt
      = (net.node a).pt := by
    intro a
    rw [node_refreezeOrders]
    show ((T.foldl addTakenEdge (clearEdges net)).node a).pt = _
    rw [pt_rebuild, node_clearEdges]
  have hRdist : ∀ a b,
      (refreezeOrders (T.foldl addTakenEdge (clearEdges net))).dist a b = none := by
    intro a b
    unfold Net.dist
    rw [hRedge]
    split
    · rfl
    · rfl
  have hinit : MeasInv ops gs sigma (net.nodes.map (·.pt))
      (refreezeOrders (T.foldl addTakenEdge (clearEdges net)))
      ((refreezeOrders (T.foldl addTakenEdge (clearEdges net))), k) := by
    refine ⟨?_, ?_, ?_, ?_, ?_⟩
    · intro a
      show ((refreezeOrders (T.foldl addTakenEdge (clearEdges net))).node a).pt = _
      rw [hRpt]
      exact ptsOf_self net a
    · intro a b
      show ((refreezeOrders (T.foldl addTakenEdge (clearEdges net))).edge? a b).isSome = _
      rw [hRedge, hRedge]
      by_cases h : (a, b) ∈ T ∨ (b, a) ∈ T
      · rw [if_pos h, if_pos (Or.symm h)]
        rfl
      · rw [if_neg h, if_neg (fun hc => h (Or.symm hc))]
    · intro a b
      show (refreezeOrders (T.foldl addTakenEdge (clearEdges net))).dist a b = _
      rw [hRdist, hRdist]
    · intro a b v hv
      rw [show (refreezeOrders (T.foldl addTakenEdge (clearEdges net))).dist a b = none
        from hRdist a b] at hv
      exact absurd hv (by simp)
    · intro a
      rfl
  obtain ⟨hfin, hwrt⟩ := measureDistances_general ops gs sigma (net.nodes.map (·.pt))
    (refreezeOrders (T.foldl addTakenEdge (clearEdges net))) k hinit
  have hmeq : ∀ a b, (((measureDistances ops gs sigma
      (refreezeOrders (T.foldl addTakenEdge (clearEdges net))) k).1).edge? a b).map eraseDist
      = if (a, b) ∈ T ∨ (b, a) ∈ T
        then some (NetEdge.new a b ((net.node b).pt)) else none := by
    intro a b
    rw [eraseDist_measureDistances, hRedge]
    split
    · rfl
    · rfl
  have hadj : ∀ a b, edgeAdj (measureDistances ops gs sigma
      (refreezeOrders (T.foldl addTakenEdge (clearEdges net))) k).1 a b ↔ treeAdj T a b := by
    intro a b
    unfold edgeAdj treeAdj
    rw [edge?_measureDistances_isSome, hRedge]
    by_cases h : (a, b) ∈ T ∨ (b, a) ∈ T
    · rw [if_pos h]
      exact ⟨fun _ => h, fun _ => rfl⟩
    · rw [if_neg h]
      exact ⟨fun hc => absurd hc (by simp), fun hc => absurd hc h⟩
  refine ⟨?_, hTlen, hTpair, ?_, ?_, hmeq, hadj, ?_, hfin.hsym, hfin.hform, ?_⟩
  · unfold mstRun
    rw [hpl]
  · intro p hp
    exact ⟨(hTmem p hp).1, (hTmem p hp).2.1⟩
  · rw [length_measureDistances, hRlen]
  · intro a b hab
    have ha : a < net.nodes.length := by
      rcases hab with h | h
      · exact (hTb _ h).1
      · exact (hTb _ h).2
    refine hwrt a b (by rw [hRlen]; exact ha) ?_
    rw [hRedge]
    rcases hab with h | h
    · rw [if_pos (Or.inl h)]
      rfl
    · rw [if_pos (Or.inr h)]
      rfl
  · intro v hv
    refine Relation.ReflTransGen.mono ?_ (hTconn v hv)
    intro x y hxy
    exact (hadj x y).mpr hxy

/-- Claim C7: for every connected network, Network.mst succeeds and
returns a reduced network in which the retained unordered pairs form a
tree on the N nodes: there are exactly N - 1 of them (pairwise distinct
as unordered pairs, all drawn from the original edge set), adjacency in
the reduced network is exactly tree adjacency, the reduced network is
connected, every retained pair holds freshly constructed edge objects
(identical to NetworkEdge.__init__'s output once the re-measured
distance is forgotten: empty property bag, no angle), and distances are
re-measured on the reduced edge set (present on every tree pair,
synchronized across directions, and of noisy-measurement form). -/
theorem mst_tree_props {F : Type} [LinearOrderedField F] (ops : MathOps F) (gs : Nat → F)
    (net : Net F) (wt : NetEdge F → F) (sigma : F) (k : Nat)
    (hwf : WFNet net)
    (hnd : ∀ i, i < net.nodes.length → ((net.node i).edges.map (·.1)).Nodup)
    (hn : 0 < net.nodes.length)
    (hconn : ∀ v, v < net.nodes.length → Relation.ReflTransGen (edgeAdj net) 0 v) :
    ∃ T net' kf, mstRun ops gs net wt sigma k = some (net', kf) ∧
      T.length + 1 = net.nodes.length ∧
      T.Pairwise (fun p q => ¬ (p = q ∨ (p.1 = q.2 ∧ p.2 = q.1))) ∧
      (∀ p ∈ T, edgeAdj net p.1 p.2 ∧ p.1 ≠ p.2) ∧
      net'.nodes.length = net.nodes.length ∧
      (∀ a b, (net'.edge? a b).map eraseDist =
        if (a, b) ∈ T ∨ (b, a) ∈ T
        then some (NetEdge.new a b ((net.node b).pt)) else none) ∧
      (∀ a b, edgeAdj net' a b ↔ treeAdj T a b) ∧
      (∀ a b, treeAdj T a b → (net'.dist a b).isSome = true) ∧
      DistSym net' ∧
      DistNoisyForm ops gs sigma (net.nodes.map (·.pt)) net' ∧
      (∀ v, v < net.nodes.length → Relation.ReflTransGen (edgeAdj net') 0 v) :=
  mstRun_spec ops gs net wt sigma k hwf hnd hn hconn

/-- A two-anchor network with one mutually visible pair, in the state
Network.mst receives it. -/
def mstDemoNet : Net ℚ :=
  ⟨[⟨Point.mk "S" [0, 0], [(1, NetEdge.new 0 1 (Point.mk "S" [1, 0]))], [1]⟩,
    ⟨Point.mk "S" [1, 0], [(0, NetEdge.new 1 0 (Point.mk "S" [0, 0]))], [0]⟩]⟩

/-- A weight function assigning every edge the same cost. -/
def zeroWt : NetEdge ℚ → ℚ := fun _ => 0

/-- Witness for C7 on a concrete connected two-node network. -/
theorem mst_tree_props_witness :
    ∃ T net' kf, mstRun qOps qgs mstDemoNet zeroWt 0 0 = some (net', kf) ∧
      T.length + 1 = mstDemoNet.nodes.length ∧
      T.Pairwise (fun p q => ¬ (p = q ∨ (p.1 = q.2 ∧ p.2 = q.1))) ∧
      (∀ p ∈ T, edgeAdj mstDemoNet p.1 p.2 ∧ p.1 ≠ p.2) ∧
      net'.nodes.length = mstDemoNet.nodes.length ∧
      (∀ a b, (net'.edge? a b).map eraseDist =
        if (a, b) ∈ T ∨ (b, a) ∈ T
        then some (NetEdge.new a b ((mstDemoNet.node b).pt)) else none) ∧
      (∀ a b, edgeAdj net' a b ↔ treeAdj T a b) ∧
      (∀ a b, treeAdj T a b → (net'.dist a b).isSome = true) ∧
      DistSym net' ∧
      DistNoisyForm qOps qgs 0 (mstDemoNet.nodes.map (·.pt)) net' ∧
      (∀ v, v < mstDemoNet.nodes.length → Relation.ReflTransGen (edgeAdj net') 0 v) := by
  refine mst_tree_props qOps qgs mstDemoNet zeroWt 0 0 ?_ ?_ ?_ ?_
  · intro i hi q hq
    have hi2 : i < 2 := hi
    interval_cases i
    · have hq1 : q = (1, NetEdge.new 0 1 (Point.mk "S" [1, 0])) :=
        List.mem_singleton.mp hq
      rw [hq1]
      refine ⟨rfl, rfl, ?_⟩
      decide
    · have hq1 : q = (0, NetEdge.new 1 0 (Point.mk "S" [0, 0])) :=
        List.mem_singleton.mp hq
      rw [hq1]
      refine ⟨rfl, rfl, ?_⟩
      decide
  · intro i hi
    have hi2 : i < 2 := hi
    interval_cases i
    · decide
    · decide
  · decide
  · intro v hv
    have hv2 : v < 2 := hv
    interval_cases v
    · exact Relation.ReflTransGen.refl
    · refine Relation.ReflTransGen.single ?_
      show (mstDemoNet.edge? 0 1).isSome = true
      decide

/-- Three anchors forming a visibility triangle (pairwise squared
distances 1, 4 and 5, all below 3 * 3). -/
def triPts : List (Point ℚ) := [Point.mk "S" [0, 0], Point.mk "S" [1, 0], Point.mk "S" [0, 2]]

theorem triBuilt_eval : addNeighbours triPts 3 =
    [⟨Point.mk "S" [0, 0],
      [(1, NetEdge.new 0 1 (Point.mk "S" [1, 0])), (2, NetEdge.new 0 2 (Point.mk "S" [0, 2]))],
      [1, 2]⟩,
     ⟨Point.mk "S" [1, 0],
      [(0, NetEdge.new 1 0 (Point.mk "S" [0, 0])), (2, NetEdge.new 1 2 (Point.mk "S" [0, 2]))],
      [0, 2]⟩,
     ⟨Point.mk "S" [0, 2],
      [(0, NetEdge.new 2 0 (Point.mk "S" [0, 0])), (1, NetEdge.new 2 1 (Point.mk "S" [1, 0]))],
      [0, 1]⟩] := by
  norm_num [addNeighbours, triPts, Point._distsq, List.range_succ,
    List.filterMap_cons, List.filterMap_nil]

/-- The triangle network in the state Network.mst receives it: built
from `triPts` and measured exactly (zero noise draws, so each measured
distance is the squared distance passed through the identity square
root of `qOps`). -/
def triMeasured : Net ℚ :=
  ⟨[⟨Point.mk "S" [0, 0],
      [(1, { NetEdge.new 0 1 (Point.mk "S" [1, 0]) with dist := some 1 }),
       (2, { NetEdge.new 0 2 (Point.mk "S" [0, 2]) with dist := some 4 })],
      [1, 2]⟩,
    ⟨Point.mk "S" [1, 0],
      [(0, { NetEdge.new 1 0 (Point.mk "S" [0, 0]) with dist := some 1 }),
       (2, { NetEdge.new 1 2 (Point.mk "S" [0, 2]) with dist := some 5 })],
      [0, 2]⟩,
    ⟨Point.mk "S" [0, 2],
      [(0, { NetEdge.new 2 0 (Point.mk "S" [0, 0]) with dist := some 4 }),
       (1, { NetEdge.new 2 1 (Point.mk "S" [1, 0]) with dist := some 5 })],
      [0, 1]⟩]⟩

theorem triMeasured_eval : measuredNet qOps qgs triPts 3 0 0 = (triMeasured, 6) := by
  unfold measuredNet
  rw [triBuilt_eval]
  norm_num [measureDistances, measNode, measPair, syncSetDist, Net.edgeModify, Net.node,
    dget, dmodify, updateAt, Point.dist_noisy, Point._dist, Point._distsq, qOps, qgs,
    NetEdge.new, List.range_succ, triMeasured]

/-- The weight Network.mst pushes on the heap: the edge's measured
distance (always present when mst runs). -/
def distWt : NetEdge ℚ → ℚ := fun e => e.dist.getD 0

theorem triPrim_eval : primLoop triMeasured distWt
    (triMeasured.nodes.length * triMeasured.nodes.length + 1)
    (((triMeasured.node 0).edges.map (·.2)).map (fun e => (distWt e, e.src, e.dst)))
    {0} [] = some [(0, 1), (0, 2)] := by decide

/-- Claim C6 (amended): each node's edge iteration order is frozen at
graph-build time as the key sequence of its edge dictionary, and
distance measurement and angle measurement both leave every node's
order unchanged; the MST reduction, however, re-freezes each node's
order to the key sequence of its freshly rebuilt edge dictionary, which
retains only the node's tree neighbours. -/
theorem edge_order_frozen_until_mst {F : Type} [LinearOrderedField F] [FloorRing F]
    (ops : MathOps F) (gs : Nat → F) (sigma vis : F) (pts : List (Point F))
    (net : Net F) (wt : NetEdge F → F) (k a : Nat) :
    (((Net.mk (addNeighbours pts vis)).node a).order =
      ((Net.mk (addNeighbours pts vis)).node a).edges.map (·.1)) ∧
    (((measureDistances ops gs sigma net k).1).node a).order = (net.node a).order ∧
    (((measureAngles ops gs sigma net k).1).node a).order = (net.node a).order ∧
    (∀ net' kf, mstRun ops gs net wt sigma k = some (net', kf) →
      (net'.node a).order = (net'.node a).edges.map (·.1)) := by
  refine ⟨?_, order_measureDistances ops gs sigma net k a,
    order_measureAngles ops gs sigma net k a, ?_⟩
  · show ((addNeighbours pts vis).getD a default).order
        = ((addNeighbours pts vis).getD a default).edges.map (·.1)
    rw [List.getD_eq_getElem?_getD]
    cases hx : (addNeighbours pts vis)[a]? with
    | none => rfl
    | some nd =>
        have hmem : nd ∈ addNeighbours pts vis := List.getElem?_mem hx
        unfold addNeighbours at hmem
        obtain ⟨i, _, hi⟩ := List.mem_map.mp hmem
        show nd.order = nd.edges.map (·.1)
        rw [← hi]
  · intro net' kf h
    unfold mstRun at h
    cases hpl : primLoop net wt (net.nodes.length * net.nodes.length + 1)
        (((net.node 0).edges.map (·.2)).map (fun e => (wt e, e.src, e.dst))) {0} [] with
    | none =>
        rw [hpl] at h
        exact absurd h (by simp)
    | some T =>
        rw [hpl] at h
        dsimp only at h
        have hinj := Option.some.inj h
        have hnet : net' = (measureDistances ops gs sigma
            (refreezeOrders (T.foldl addTakenEdge (clearEdges net))) k).1 := by
          rw [hinj]
        rw [hnet, order_measureDistances, keys_measureDistances, node_refreezeOrders]

/-- Counterexample to C6 as stated: on the concrete three-anchor
network built from `triPts` with visibility 3 and exact measurement,
node 1's iteration order is frozen as [0, 2] at build time and still
reads [0, 2] when Network.mst starts, but after the MST reduction (with
the measured distances as heap weights, exactly as Network.mst pushes
them) node 1's order is [0]: the MST reduction does change a node's
edge iteration order. -/
theorem edge_order_never_changed_counterexample :
    ∃ net' kf,
      mstRun qOps qgs (measuredNet qOps qgs triPts 3 0 0).1 distWt 0
        (measuredNet qOps qgs triPts 3 0 0).2 = some (net', kf) ∧
      (((measuredNet qOps qgs triPts 3 0 0).1).node 1).order = [0, 2] ∧
      (net'.node 1).order = [0] := by
  rw [triMeasured_eval]
  show ∃ net' kf, mstRun qOps qgs triMeasured distWt 0 6 = some (net', kf) ∧
      (triMeasured.node 1).order = [0, 2] ∧ (net'.node 1).order = [0]
  refine ⟨(measureDistances qOps qgs 0
      (refreezeOrders ([(0, 1), (0, 2)].foldl addTakenEdge (clearEdges triMeasured))) 6).1,
    (measureDistances qOps qgs 0
      (refreezeOrders ([(0, 1), (0, 2)].foldl addTakenEdge (clearEdges triMeasured))) 6).2,
    ?_, by decide, ?_⟩
  · unfold mstRun
    rw [triPrim_eval]
  · rw [order_measureDistances]
    decide

/- ======================================================================
   The hybrid ADMM solver (algorithms/admmh.py).  Node and edge state is
   held in typed records; in the source the edge values live in the
   generic property bag and each one is written by the protocol before
   it is first read (postinit writes x, lam1, lam2, c; build_messages
   writes m1s, m2s; message handling writes m1r, m2r and updates c;
   iteration_end writes z1, z2), so the records' initial field values are
   never consulted.  scipy.optimize.minimize is an external library call
   and enters the model as an opaque function `minimize` from the node
   state it reads (func and funcgrad read self.x, self.y, self.c,
   self.switched and the edge values) to the minimizing vector. -/

/-- LAMMAX. -/
def LAMMAX {F : Type} [LinearOrderedField F] : F := 1000

/-- EPS_C. -/
def EPS_C {F : Type} [LinearOrderedField F] : F := 5 / 1000

/-- ZETA_C. -/
def ZETA_C {F : Type} [LinearOrderedField F] : F := 5 / 100

/-- THETA_C. -/
def THETA_C {F : Type} [LinearOrderedField F] : F := 98 / 100

/-- DELTA_C. -/
def DELTA_C {F : Type} [LinearOrderedField F] : F := 101 / 100

/-- TAU_C. -/
def TAU_C {F : Type} [LinearOrderedField F] : F := 3 / 1000

/-- np.zeros((n,)). -/
def vzero {F : Type} [LinearOrderedField F] (n : Nat) : List F := List.replicate n 0

/-- Componentwise vector sum. -/
def vadd {F : Type} [LinearOrderedField F] (a b : List F) : List F :=
  (a.zip b).map (fun q => q.1 + q.2)

/-- Componentwise vector difference. -/
def vsub {F : Type} [LinearOrderedField F] (a b : List F) : List F :=
  (a.zip b).map (fun q => q.1 - q.2)

/-- Vector divided by a scalar. -/
def vdivs {F : Type} [LinearOrderedField F] (a : List F) (s : F) : List F :=
  a.map (fun t => t / s)

/-- Scalar times vector. -/
def vmuls {F : Type} [LinearOrderedField F] (s : F) (a : List F) : List F :=
  a.map (fun t => s * t)

/-- np.linalg.norm. -/
def vnorm {F : Type} [LinearOrderedField F] (ops : MathOps F) (a : List F) : F :=
  ops.sqrt ((a.map (fun t => t * t)).sum)

/-- np.max(np.abs(v)) (the vectors it is applied to are nonempty, and
their absolute values are nonnegative, so seeding the fold with 0 agrees
with numpy). -/
def vmaxabs {F : Type} [LinearOrderedField F] (a : List F) : F :=
  (a.map (fun t => |t|)).foldl max 0

/-- np.minimum(L, np.maximum(-L, v)): componentwise clamp. -/
def vclamp {F : Type} [LinearOrderedField F] (L : F) (a : List F) : List F :=
  a.map (fun t => min L (max (-L) t))

/-- The three message types of the protocol: (1, z1 value), (2, z2
value), (3, parameter c). -/
inductive HMsg (F : Type) where
  | m1 : List F → HMsg F
  | m2 : List F → HMsg F
  | mc : F → HMsg F

/-- The per-edge protocol state of a HybridNode's edge (the source keeps
it in the edge's property bag). -/
structure HEdge (F : Type) where
  typ : String
  ptc : Option (List F)
  dist : F
  x : List F
  lam1 : List F
  lam2 : List F
  c : F
  m1s : List F
  m2s : List F
  m1r : List F
  m2r : List F
  y : List F
  z1 : List F
  z2 : List F

instance {F : Type} [LinearOrderedField F] : Inhabited (HEdge F) :=
  ⟨⟨"A", none, 0, [], [], [], 0, [], [], [], [], [], [], []⟩⟩

/-- A HybridNode: the wrapped point data, the solver state set up by
HybridNode.__init__ (x, c, prev_primal_gap, switched), the working y
value, the edge dictionary, the frozen order and the message queue. -/
structure HNode (F : Type) where
  typ : String
  _coords : List F
  x : List F
  c : F
  prev_primal_gap : F
  switched : Bool
  y : List F
  edges : List (Nat × HEdge F)
  order : List Nat
  queue : List (HMsg F × Nat)

instance {F : Type} [LinearOrderedField F] : Inhabited (HNode F) :=
  ⟨⟨"A", [], [], 0, 0, false, [], [], [], []⟩⟩

/-- Point.dim of the wrapped point. -/
def HNode.dim {F : Type} (nd : HNode F) : Nat := nd._coords.length

/-- The protocol view of a built network edge: the transmitted typ and
(for an anchor destination) its coordinates, and the measured distance
(present on every edge once distances are measured; reading it before
that would raise the missing-property error). -/
def HEdge.ofNetEdge {F : Type} [LinearOrderedField F] (e : NetEdge F) : HEdge F :=
  { typ := e.typ, ptc := (e.pt).map (fun p => p._coords), dist := e.dist.getD 0,
    x := [], lam1 := [], lam2 := [], c := 0, m1s := [], m2s := [], m1r := [],
    m2r := [], y := [], z1 := [], z2 := [] }

/-- HybridNode.__init__ on node `i` of the built network: switched is
False, an agent's x starts at the zero vector and an anchor's x at its
exact coordinates, c is EPS_C and prev_primal_gap is 0; the edge
dictionary and frozen order come from network construction. -/
def hinitNode {F : Type} [LinearOrderedField F] (net : Net F) (i : Nat) : HNode F :=
  { typ := (net.node i).pt.typ,
    _coords := (net.node i).pt._coords,
    x := if (net.node i).pt.typ = "A" then vzero (net.node i).pt._coords.length
         else (net.node i).pt._coords,
    c := EPS_C,
    prev_primal_gap := 0,
    switched := false,
    y := [],
    edges := (net.node i).edges.map (fun q => (q.1, HEdge.ofNetEdge q.2)),
    order := (net.node i).order,
    queue := [] }

/-- HybridNode.postinit: for every edge, x is the anchor destination's
coordinates (or the zero vector for an agent destination), lam1 and lam2
are zero vectors and c is EPS_C. -/
def HNode.postinit {F : Type} [LinearOrderedField F] (nd : HNode F) : HNode F :=
  { nd with edges := nd.edges.map (fun q => (q.1, { q.2 with
      x := if q.2.typ = "S" then q.2.ptc.getD [] else vzero nd.dim,
      lam1 := vzero nd.dim,
      lam2 := vzero nd.dim,
      c := EPS_C })) }

/-- edge.send(msg): append the message, tagged with the sender's
identifier, to the destination's queue. -/
def sendMsg {F : Type} (nodes : List (HNode F)) (dst : Nat) (msg : HMsg F)
    (sender : Nat) : List (HNode F) :=
  updateAt nodes dst (fun nd => { nd with queue := nd.queue ++ [(msg, sender)] })

/-- HybridNode.build_messages for node `i`: for every edge, compute
m1 = (x - edge.x) + edge.lam1 / c and m2 = (x + edge.x) + edge.lam2 / c,
record them as m1s and m2s, and send both along the edge.  The loop
reads only self.x, self.c and per-edge fields it does not write, so each
message is computed from the node state at entry. -/
def buildMessagesNode {F : Type} [LinearOrderedField F]
    (nodes : List (HNode F)) (i : Nat) : List (HNode F) :=
  let nd := nodes.getD i default
  nd.edges.foldl (fun acc q =>
    let m1 := vadd (vsub nd.x q.2.x) (vdivs q.2.lam1 nd.c)
    let m2 := vadd (vadd nd.x q.2.x) (vdivs q.2.lam2 nd.c)
    let acc1 := updateAt acc i (fun n =>
      { n with edges := dmodify n.edges q.1 (fun e => { e with m1s := m1, m2s := m2 }) })
    sendMsg (sendMsg acc1 q.1 (HMsg.m1 m1) i) q.1 (HMsg.m2 m2) i) nodes

/-- The build_messages pass of solve: every node in order. -/
def buildMessagesAll {F : Type} [LinearOrderedField F]
    (nodes : List (HNode F)) : List (HNode F) :=
  (List.range nodes.length).foldl buildMessagesNode nodes

/-- HybridNode.handle: message type 1 sets m1r, type 2 sets m2r and
type 3 sets c, on the edge back to the sender. -/
def HNode.handle {F : Type} (nd : HNode F) (msg : HMsg F) (sender : Nat) : HNode F :=
  match msg with
  | .m1 v => { nd with edges := dmodify nd.edges sender (fun e => { e with m1r := v }) }
  | .m2 v => { nd with edges := dmodify nd.edges sender (fun e => { e with m2r := v }) }
  | .mc t => { nd with edges := dmodify nd.edges sender (fun e => { e with c := t }) }

/-- NetworkNode.handle_messages for node `i`: handle every queued
message in arrival order (handling writes only edge values, never the
queue, so the drain empties the queue). -/
def handleMessagesNode {F : Type} (nodes : List (HNode F)) (i : Nat) : List (HNode F) :=
  updateAt nodes i (fun nd =>
    { nd.queue.foldl (fun n qm => n.handle qm.1 qm.2) nd with queue := [] })

/-- The handle_messages pass of solve: every node in order. -/
def handleMessagesAll {F : Type} (nodes : List (HNode F)) : List (HNode F) :=
  (List.range nodes.length).foldl handleMessagesNode nodes

/-- NetworkNode.broadcast: send the message along every edge of node
`i`. -/
def broadcastMsg {F : Type} [LinearOrderedField F] (nodes : List (HNode F)) (i : Nat)
    (msg : HMsg F) : List (HNode F) :=
  (nodes.getD i default).edges.foldl (fun acc q => sendMsg acc q.1 msg i) nodes

/-- HybridNode.iteration_end for node `i`: update z1 and z2 from the
recorded and received messages; unless skip_lambda, also update the
clamped multipliers, compute the primal gap and cmax (max of self.c and
every edge's c; the fold is seeded with self.c, which agrees with the
source's max for the nonempty edge dictionaries of a connected network),
run the switching logic (already switched: adapt c from cmax and
broadcast it; not yet switched and 0 < gap < TAU_C or cmax > EPS_C:
switch, set c to ZETA_C and broadcast it), and record the gap as
prev_primal_gap. -/
def iterationEndNode {F : Type} [LinearOrderedField F] (skipLambda : Bool)
    (nodes : List (HNode F)) (i : Nat) : List (HNode F) :=
  let nd := nodes.getD i default
  let edges1 := nd.edges.map (fun q => (q.1, { q.2 with
      z1 := vmuls (1 / 2) (vsub q.2.m1s q.2.m1r),
      z2 := vmuls (1 / 2) (vadd q.2.m2s q.2.m2r) }))
  if skipLambda then
    updateAt nodes i (fun n => { n with edges := edges1 })
  else
    let edges2 := edges1.map (fun q => (q.1, { q.2 with
        lam1 := vclamp LAMMAX (vadd q.2.lam1 (vmuls nd.c (vsub (vsub nd.x q.2.x) q.2.z1))),
        lam2 := vclamp LAMMAX (vadd q.2.lam2 (vmuls nd.c (vsub (vadd nd.x q.2.x) q.2.z2))) }))
    let gap := edges2.foldl (fun g q =>
        max (max g (vmaxabs (vsub (vsub nd.x q.2.x) q.2.z1)))
          (vmaxabs (vsub (vadd nd.x q.2.x) q.2.z2))) 0
    let cmax := (edges2.map (fun q => q.2.c)).foldl max nd.c
    if nd.switched then
      let cnew := if gap < nd.prev_primal_gap * THETA_C then cmax else cmax * DELTA_C
      broadcastMsg (updateAt nodes i (fun n =>
        { n with edges := edges2, c := cnew, prev_primal_gap := gap })) i (HMsg.mc cnew)
    else if (0 < gap ∧ gap < TAU_C) ∨ cmax > EPS_C then
      broadcastMsg (updateAt nodes i (fun n =>
        { n with edges := edges2, switched := true, c := ZETA_C, prev_primal_gap := gap }))
        i (HMsg.mc ZETA_C)
    else
      updateAt nodes i (fun n => { n with edges := edges2, prev_primal_gap := gap })

/-- The iteration_end pass of solve: every node in order. -/
def iterationEndAll {F : Type} [LinearOrderedField F] (skipLambda : Bool)
    (nodes : List (HNode F)) : List (HNode F) :=
  (List.range nodes.length).foldl (iterationEndNode skipLambda) nodes

/-- HybridNode.iteration_begin for node `i`: an agent updates its own y
from the edge values; every edge's y is updated; an anchor updates every
edge's x leaving self.x untouched, while an agent updates every edge's x
and then sets self.x by the scipy minimization (the opaque `minimize`);
finally the node builds and sends its new messages. -/
def iterationBeginBody {F : Type} [LinearOrderedField F] (ops : MathOps F)
    (minimize : HNode F → List F) (nd : HNode F) : HNode F :=
  (let nd1 : HNode F := if nd.typ = "A" then
        let s := nd.edges.foldl (fun acc q => vadd acc
          (vsub (vadd q.2.z1 q.2.z2) (vdivs (vadd q.2.lam1 q.2.lam2) nd.c))) (vzero nd.dim)
        { nd with y := vmuls (1 / 2 / (nd.edges.length : F)) s }
      else nd
    let nd2 : HNode F := { nd1 with edges := nd1.edges.map (fun q => (q.1, { q.2 with
        y := vmuls (1 / 2)
          (vsub (vsub q.2.z2 q.2.z1) (vdivs (vsub q.2.lam2 q.2.lam1) nd.c)) })) }
    if nd.typ = "S" then
      { nd2 with edges := nd2.edges.map (fun q => (q.1,
          let arg := vsub q.2.y nd.x
          let argn := vnorm ops arg
          let xnew := if 0 < argn ∧ (nd.switched ∨ q.2.dist < argn) then
              vadd nd.x (vdivs (vdivs (vmuls (q.2.dist + 2 * nd.c * argn) arg)
                (1 + 2 * nd.c)) argn)
            else q.2.y
          { q.2 with x := xnew })) }
    else
      let nd3 : HNode F := { nd2 with edges := nd2.edges.map (fun q => (q.1,
          let arg := vsub nd.x q.2.y
          let argn := vnorm ops arg
          let xnew := if 0 < argn ∧ (nd.switched ∨ q.2.dist < argn) then
              vadd q.2.y (vdivs (vdivs (vmuls (argn - q.2.dist) arg) argn)
                (1 + 2 * nd.c))
            else q.2.y
          { q.2 with x := xnew })) }
      { nd3 with x := minimize nd3 })

/-- HybridNode.iteration_begin for node `i`: apply the body above to the
node, then build and send its new messages. -/
def iterationBeginNode {F : Type} [LinearOrderedField F] (ops : MathOps F)
    (minimize : HNode F → List F) (nodes : List (HNode F)) (i : Nat) :
    List (HNode F) :=
  buildMessagesNode (updateAt nodes i (iterationBeginBody ops minimize)) i

/-- The iteration_begin pass of solve: every node in order. -/
def iterationBeginAll {F : Type} [LinearOrderedField F] (ops : MathOps F)
    (minimize : HNode F → List F) (nodes : List (HNode F)) : List (HNode F) :=
  (List.range nodes.length).foldl (iterationBeginNode ops minimize) nodes

/-- One loop round of solve: iteration_begin, handle_messages,
iteration_end for every node. -/
def roundStep {F : Type} [LinearOrderedField F] (ops : MathOps F)
    (minimize : HNode F → List F) (nodes : List (HNode F)) : List (HNode F) :=
  iterationEndAll false (handleMessagesAll (iterationBeginAll ops minimize nodes))

/-- The pre-loop phase of solve: postinit, build_messages,
handle_messages and iteration_end with skip_lambda on every node. -/
def hpre {F : Type} [LinearOrderedField F] (nodes : List (HNode F)) : List (HNode F) :=
  iterationEndAll true (handleMessagesAll (buildMessagesAll (nodes.map HNode.postinit)))

/-- solve's rounds and final read-out: the pre-loop phase, J loop
rounds, then the list of every node's x in node order. -/
def hsolveFrom {F : Type} [LinearOrderedField F] (ops : MathOps F)
    (minimize : HNode F → List F) (J : Nat) (nodes : List (HNode F)) : List (List F) :=
  (((roundStep ops minimize)^[J]) (hpre nodes)).map (fun nd => nd.x)

/-- algorithms/admmh.py solve: build the network (raising on a
disconnected graph), wrap each node in its HybridNode state, run the
pre-loop phase and J rounds, and return one estimated position per node
in input order. -/
def hsolve {F : Type} [LinearOrderedField F] (ops : MathOps F) (gs : Nat → F)
    (minimize : HNode F → List F) (pts : List (Point F)) (vis sigma : F)
    (k J : Nat) : Except String (List (List F)) :=
  match buildNetwork ops gs pts vis sigma k true with
  | .error e => .error e
  | .ok nk =>
    .ok (hsolveFrom ops minimize J ((List.range nk.1.nodes.length).map (hinitNode nk.1)))

/- ======================================================================
   Frame invariants of the solver passes, for claims C1 and C8. -/

/-- The node fields the message-exchange passes leave untouched: role,
own position estimate and the switching flag (plus the node count). -/
def HFrame {F : Type} [LinearOrderedField F] (a b : List (HNode F)) : Prop :=
  b.length = a.length ∧ ∀ i : Nat,
    (b.getD i default).typ = (a.getD i default).typ ∧
    (b.getD i default).x = (a.getD i default).x ∧
    (b.getD i default).switched = (a.getD i default).switched

/-- What a full solver round preserves: the node count, every node's
role, and an anchor's own position estimate. -/
def HAnchor {F : Type} [LinearOrderedField F] (a b : List (HNode F)) : Prop :=
  b.length = a.length ∧ ∀ i : Nat,
    (b.getD i default).typ = (a.getD i default).typ ∧
    ((a.getD i default).typ = "S" → (b.getD i default).x = (a.getD i default).x)

/-- The switching flag is monotone between two pass states. -/
def HSwMono {F : Type} [LinearOrderedField F] (a b : List (HNode F)) : Prop :=
  b.length = a.length ∧ ∀ i : Nat,
    (a.getD i default).switched = true → (b.getD i default).switched = true

theorem HFrame_refl {F : Type} [LinearOrderedField F] (a : List (HNode F)) :
    HFrame a a :=
  ⟨rfl, fun _ => ⟨rfl, rfl, rfl⟩⟩

theorem HFrame_trans {F : Type} [LinearOrderedField F] {a b c : List (HNode F)}
    (h1 : HFrame a b) (h2 : HFrame b c) : HFrame a c := by
  refine ⟨h2.1.trans h1.1, fun i => ?_⟩
  obtain ⟨t1, x1, s1⟩ := h1.2 i
  obtain ⟨t2, x2, s2⟩ := h2.2 i
  exact ⟨t2.trans t1, x2.trans x1, s2.trans s1⟩

theorem HAnchor_refl {F : Type} [LinearOrderedField F] (a : List (HNode F)) :
    HAnchor a a :=
  ⟨rfl, fun _ => ⟨rfl, fun _ => rfl⟩⟩

theorem HAnchor_trans {F : Type} [LinearOrderedField F] {a b c : List (HNode F)}
    (h1 : HAnchor a b) (h2 : HAnchor b c) : HAnchor a c := by
  refine ⟨h2.1.trans h1.1, fun i => ?_⟩
  obtain ⟨t1, x1⟩ := h1.2 i
  obtain ⟨t2, x2⟩ := h2.2 i
  refine ⟨t2.trans t1, fun hs => ?_⟩
  have hb : (b.getD i default).typ = "S" := t1.trans hs
  exact (x2 hb).trans (x1 hs)

theorem HSwMono_refl {F : Type} [LinearOrderedField F] (a : List (HNode F)) :
    HSwMono a a :=
  ⟨rfl, fun _ h => h⟩

theorem HSwMono_trans {F : Type} [LinearOrderedField F] {a b c : List (HNode F)}
    (h1 : HSwMono a b) (h2 : HSwMono b c) : HSwMono a c :=
  ⟨h2.1.trans h1.1, fun i h => h2.2 i (h1.2 i h)⟩

theorem HAnchor_of_HFrame {F : Type} [LinearOrderedField F] {a b : List (HNode F)}
    (h : HFrame a b) : HAnchor a b :=
  ⟨h.1, fun i => ⟨(h.2 i).1, fun _ => (h.2 i).2.1⟩⟩

theorem HSwMono_of_HFrame {F : Type} [LinearOrderedField F] {a b : List (HNode F)}
    (h : HFrame a b) : HSwMono a b :=
  ⟨h.1, fun i hs => ((h.2 i).2.2).trans hs⟩

theorem HFrame_updateAt {F : Type} [LinearOrderedField F] (nodes : List (HNode F))
    (i : Nat) (f : HNode F → HNode F)
    (hf : ∀ nd, (f nd).typ = nd.typ ∧ (f nd).x = nd.x ∧ (f nd).switched = nd.switched) :
    HFrame nodes (updateAt nodes i f) := by
  refine ⟨updateAt_length nodes i f, fun j => ?_⟩
  by_cases hj : j = i
  · subst hj
    by_cases hl : j < nodes.length
    · rw [updateAt_getD_self nodes j f default hl]
      exact hf _
    · rw [getD_default_oob _ _ (by rw [updateAt_length]; exact hl),
        getD_default_oob _ _ hl]
      exact ⟨rfl, rfl, rfl⟩
  · rw [updateAt_getD_ne nodes i f j default hj]
    exact ⟨rfl, rfl, rfl⟩

theorem HAnchor_updateAt {F : Type} [LinearOrderedField F] (nodes : List (HNode F))
    (i : Nat) (f : HNode F → HNode F)
    (hf : ∀ nd, (f nd).typ = nd.typ ∧ (nd.typ = "S" → (f nd).x = nd.x)) :
    HAnchor nodes (updateAt nodes i f) := by
  refine ⟨updateAt_length nodes i f, fun j => ?_⟩
  by_cases hj : j = i
  · subst hj
    by_cases hl : j < nodes.length
    · rw [updateAt_getD_self nodes j f default hl]
      exact hf _
    · rw [getD_default_oob _ _ (by rw [updateAt_length]; exact hl),
        getD_default_oob _ _ hl]
      exact ⟨rfl, fun _ => rfl⟩
  · rw [updateAt_getD_ne nodes i f j default hj]
    exact ⟨rfl, fun _ => rfl⟩

theorem HSwMono_updateAt {F : Type} [LinearOrderedField F] (nodes : List (HNode F))
    (i : Nat) (f : HNode F → HNode F)
    (hf : ∀ nd, nd.switched = true → (f nd).switched = true) :
    HSwMono nodes (updateAt nodes i f) := by
  refine ⟨updateAt_length nodes i f, fun j => ?_⟩
  by_cases hj : j = i
  · subst hj
    by_cases hl : j < nodes.length
    · rw [updateAt_getD_self nodes j f default hl]
      exact hf _
    · have h1 : (updateAt nodes j f).getD j default = default :=
        getD_default_oob _ _ (by rw [updateAt_length]; exact hl)
      have h2 : nodes.getD j default = default := getD_default_oob _ _ hl
      rw [h1, h2]
      exact fun h => h
  · rw [updateAt_getD_ne nodes i f j default hj]
    exact fun h => h

theorem HFrame_map {F : Type} [LinearOrderedField F] (nodes : List (HNode F))
    (g : HNode F → HNode F)
    (hg : ∀ nd, (g nd).typ = nd.typ ∧ (g nd).x = nd.x ∧ (g nd).switched = nd.switched) :
    HFrame nodes (nodes.map g) := by
  refine ⟨List.length_map nodes g, fun j => ?_⟩
  by_cases hl : j < nodes.length
  · have : (nodes.map g).getD j default = g (nodes.getD j default) := by
      rw [List.getD_eq_getElem?_getD, List.getD_eq_getElem?_getD, List.getElem?_map,
        List.getElem?_eq_getElem hl]
      rfl
    rw [this]
    exact hg _
  · rw [getD_default_oob _ _ (by rw [List.length_map]; exact hl),
      getD_default_oob _ _ hl]
    exact ⟨rfl, rfl, rfl⟩

theorem HFrame_sendMsg {F : Type} [LinearOrderedField F] (nodes : List (HNode F))
    (dst : Nat) (msg : HMsg F) (sender : Nat) :
    HFrame nodes (sendMsg nodes dst msg sender) :=
  HFrame_updateAt nodes dst _ (fun _ => ⟨rfl, rfl, rfl⟩)

theorem foldl_rel {σ β : Type} (R : σ → σ → Prop) (f : σ → β → σ) (l : List β) (s : σ)
    (hrefl : R s s) (htrans : ∀ a b c, R a b → R b c → R a c)
    (hstep : ∀ t b, b ∈ l → R t (f t b)) : R s (l.foldl f s) :=
  foldl_pres f (R s) l s (fun t b hb h => htrans s t (f t b) h (hstep t b hb)) hrefl

theorem HFrame_buildMessagesNode {F : Type} [LinearOrderedField F]
    (nodes : List (HNode F)) (i : Nat) : HFrame nodes (buildMessagesNode nodes i) := by
  unfold buildMessagesNode
  refine foldl_rel HFrame _ _ nodes (HFrame_refl nodes)
    (fun a b c h1 h2 => HFrame_trans h1 h2) ?_
  intro t q hq
  show HFrame t (sendMsg (sendMsg (updateAt t i (fun n =>
      { n with edges := dmodify n.edges q.1 (fun e =>
        { e with
          m1s := vadd (vsub (nodes.getD i default).x q.2.x)
            (vdivs q.2.lam1 (nodes.getD i default).c),
          m2s := vadd (vadd (nodes.getD i default).x q.2.x)
            (vdivs q.2.lam2 (nodes.getD i default).c) }) }))
    q.1 (HMsg.m1 (vadd (vsub (nodes.getD i default).x q.2.x)
      (vdivs q.2.lam1 (nodes.getD i default).c))) i)
    q.1 (HMsg.m2 (vadd (vadd (nodes.getD i default).x q.2.x)
      (vdivs q.2.lam2 (nodes.getD i default).c))) i)
  refine HFrame_trans ?_ (HFrame_trans (HFrame_sendMsg _ _ _ _) (HFrame_sendMsg _ _ _ _))
  exact HFrame_updateAt t i _ (fun nd => ⟨rfl, rfl, rfl⟩)

theorem HFrame_buildMessagesAll {F : Type} [LinearOrderedField F]
    (nodes : List (HNode F)) : HFrame nodes (buildMessagesAll nodes) := by
  unfold buildMessagesAll
  exact foldl_rel HFrame _ _ nodes (HFrame_refl nodes)
    (fun a b c h1 h2 => HFrame_trans h1 h2)
    (fun t b _ => HFrame_buildMessagesNode t b)

theorem handle_frame {F : Type} (nd : HNode F) (msg : HMsg F) (sender : Nat) :
    (nd.handle msg sender).typ = nd.typ ∧ (nd.handle msg sender).x = nd.x ∧
    (nd.handle msg sender).switched = nd.switched := by
  cases msg <;> exact ⟨rfl, rfl, rfl⟩

theorem drain_frame {F : Type} (q : List (HMsg F × Nat)) (nd : HNode F) :
    (q.foldl (fun n qm => n.handle qm.1 qm.2) nd).typ = nd.typ ∧
    (q.foldl (fun n qm => n.handle qm.1 qm.2) nd).x = nd.x ∧
    (q.foldl (fun n qm => n.handle qm.1 qm.2) nd).switched = nd.switched := by
  induction q generalizing nd with
  | nil => exact ⟨rfl, rfl, rfl⟩
  | cons qm rest ih =>
      simp only [List.foldl_cons]
      obtain ⟨t, x, s⟩ := ih (nd.handle qm.1 qm.2)
      obtain ⟨t', x', s'⟩ := handle_frame nd qm.1 qm.2
      exact ⟨t.trans t', x.trans x', s.trans s'⟩

theorem HFrame_handleMessagesNode {F : Type} [LinearOrderedField F]
    (nodes : List (HNode F)) (i : Nat) : HFrame nodes (handleMessagesNode nodes i) := by
  unfold handleMessagesNode
  refine HFrame_updateAt nodes i _ (fun nd => ?_)
  obtain ⟨t, x, s⟩ := drain_frame nd.queue nd
  exact ⟨t, x, s⟩

theorem HFrame_handleMessagesAll {F : Type} [LinearOrderedField F]
    (nodes : List (HNode F)) : HFrame nodes (handleMessagesAll nodes) := by
  unfold handleMessagesAll
  exact foldl_rel HFrame _ _ nodes (HFrame_refl nodes)
    (fun a b c h1 h2 => HFrame_trans h1 h2)
    (fun t b _ => HFrame_handleMessagesNode t b)

theorem HFrame_broadcastMsg {F : Type} [LinearOrderedField F]
    (nodes : List (HNode F)) (i : Nat) (msg : HMsg F) :
    HFrame nodes (broadcastMsg nodes i msg) := by
  unfold broadcastMsg
  exact foldl_rel HFrame _ _ nodes (HFrame_refl nodes)
    (fun a b c h1 h2 => HFrame_trans h1 h2)
    (fun t q _ => HFrame_sendMsg t q.1 msg i)

theorem HFrame_postinitAll {F : Type} [LinearOrderedField F]
    (nodes : List (HNode F)) : HFrame nodes (nodes.map HNode.postinit) :=
  HFrame_map nodes _ (fun _ => ⟨rfl, rfl, rfl⟩)

theorem HFrame_iterationEndNode_skip {F : Type} [LinearOrderedField F]
    (nodes : List (HNode F)) (i : Nat) :
    HFrame nodes (iterationEndNode true nodes i) := by
  unfold iterationEndNode
  rw [if_pos rfl]
  exact HFrame_updateAt nodes i _ (fun nd => ⟨rfl, rfl, rfl⟩)

theorem HFrame_iterationEndAll_skip {F : Type} [LinearOrderedField F]
    (nodes : List (HNode F)) : HFrame nodes (iterationEndAll true nodes) := by
  unfold iterationEndAll
  exact foldl_rel HFrame _ _ nodes (HFrame_refl nodes)
    (fun a b c h1 h2 => HFrame_trans h1 h2)
    (fun t b _ => HFrame_iterationEndNode_skip t b)

theorem HFrame_hpre {F : Type} [LinearOrderedField F] (nodes : List (HNode F)) :
    HFrame nodes (hpre nodes) := by
  unfold hpre
  refine HFrame_trans (HFrame_postinitAll nodes) ?_
  refine HFrame_trans (HFrame_buildMessagesAll _) ?_
  refine HFrame_trans (HFrame_handleMessagesAll _) ?_
  exact HFrame_iterationEndAll_skip _

theorem iterationBeginBody_frame {F : Type} [LinearOrderedField F] (ops : MathOps F)
    (minimize : HNode F → List F) (nd : HNode F) :
    (iterationBeginBody ops minimize nd).typ = nd.typ ∧
    (iterationBeginBody ops minimize nd).switched = nd.switched ∧
    (nd.typ = "S" → (iterationBeginBody ops minimize nd).x = nd.x) := by
  unfold iterationBeginBody
  by_cases hS : nd.typ = "S"
  · have hA : ¬ nd.typ = "A" := by
      rw [hS]
      decide
    rw [if_pos hS, if_neg hA]
    exact ⟨rfl, rfl, fun _ => rfl⟩
  · rw [if_neg hS]
    by_cases hA : nd.typ = "A"
    · rw [if_pos hA]
      exact ⟨rfl, rfl, fun h => absurd h hS⟩
    · rw [if_neg hA]
      exact ⟨rfl, rfl, fun h => absurd h hS⟩

theorem HAnchor_iterationBeginNode {F : Type} [LinearOrderedField F] (ops : MathOps F)
    (minimize : HNode F → List F) (nodes : List (HNode F)) (i : Nat) :
    HAnchor nodes (iterationBeginNode ops minimize nodes i) := by
  unfold iterationBeginNode
  refine HAnchor_trans ?_ (HAnchor_of_HFrame (HFrame_buildMessagesNode _ _))
  refine HAnchor_updateAt nodes i _ (fun nd => ?_)
  obtain ⟨t, _, x⟩ := iterationBeginBody_frame ops minimize nd
  exact ⟨t, x⟩

theorem HSwMono_iterationBeginNode {F : Type} [LinearOrderedField F] (ops : MathOps F)
    (minimize : HNode F → List F) (nodes : List (HNode F)) (i : Nat) :
    HSwMono nodes (iterationBeginNode ops minimize nodes i) := by
  unfold iterationBeginNode
  refine HSwMono_trans ?_ (HSwMono_of_HFrame (HFrame_buildMessagesNode _ _))
  refine HSwMono_updateAt nodes i _ (fun nd h => ?_)
  obtain ⟨_, s, _⟩ := iterationBeginBody_frame ops minimize nd
  exact s.trans h

theorem HAnchor_iterationBeginAll {F : Type} [LinearOrderedField F] (ops : MathOps F)
    (minimize : HNode F → List F) (nodes : List (HNode F)) :
    HAnchor nodes (iterationBeginAll ops minimize nodes) := by
  unfold iterationBeginAll
  exact foldl_rel HAnchor _ _ nodes (HAnchor_refl nodes)
    (fun a b c h1 h2 => HAnchor_trans h1 h2)
    (fun t b _ => HAnchor_iterationBeginNode ops minimize t b)

theorem HSwMono_iterationBeginAll {F : Type} [LinearOrderedField F] (ops : MathOps F)
    (minimize : HNode F → List F) (nodes : List (HNode F)) :
    HSwMono nodes (iterationBeginAll ops minimize nodes) := by
  unfold iterationBeginAll
  exact foldl_rel HSwMono _ _ nodes (HSwMono_refl nodes)
    (fun a b c h1 h2 => HSwMono_trans h1 h2)
    (fun t b _ => HSwMono_iterationBeginNode ops minimize t b)

theorem HAnchor_iterationEndNode {F : Type} [LinearOrderedField F] (skip : Bool)
    (nodes : List (HNode F)) (i : Nat) :
    HAnchor nodes (iterationEndNode skip nodes i) := by
  unfold iterationEndNode
  dsimp only
  split
  · exact HAnchor_of_HFrame (HFrame_updateAt _ _ _ (fun nd => ⟨rfl, rfl, rfl⟩))
  · split
    · refine HAnchor_trans ?_ (HAnchor_of_HFrame (HFrame_broadcastMsg _ _ _))
      exact HAnchor_updateAt _ _ _ (fun nd => ⟨rfl, fun _ => rfl⟩)
    · split
      · refine HAnchor_trans ?_ (HAnchor_of_HFrame (HFrame_broadcastMsg _ _ _))
        exact HAnchor_updateAt _ _ _ (fun nd => ⟨rfl, fun _ => rfl⟩)
      · exact HAnchor_updateAt _ _ _ (fun nd => ⟨rfl, fun _ => rfl⟩)

theorem HSwMono_iterationEndNode {F : Type} [LinearOrderedField F] (skip : Bool)
    (nodes : List (HNode F)) (i : Nat) :
    HSwMono nodes (iterationEndNode skip nodes i) := by
  unfold iterationEndNode
  dsimp only
  split
  · exact HSwMono_of_HFrame (HFrame_updateAt _ _ _ (fun nd => ⟨rfl, rfl, rfl⟩))
  · split
    · refine HSwMono_trans ?_ (HSwMono_of_HFrame (HFrame_broadcastMsg _ _ _))
      exact HSwMono_updateAt _ _ _ (fun nd h => h)
    · split
      · refine HSwMono_trans ?_ (HSwMono_of_HFrame (HFrame_broadcastMsg _ _ _))
        exact HSwMono_updateAt _ _ _ (fun nd _ => rfl)
      · exact HSwMono_updateAt _ _ _ (fun nd h => h)

theorem HAnchor_iterationEndAll {F : Type} [LinearOrderedField F] (skip : Bool)
    (nodes : List (HNode F)) : HAnchor nodes (iterationEndAll skip nodes) := by
  unfold iterationEndAll
  exact foldl_rel HAnchor _ _ nodes (HAnchor_refl nodes)
    (fun a b c h1 h2 => HAnchor_trans h1 h2)
    (fun t b _ => HAnchor_iterationEndNode skip t b)

theorem HSwMono_iterationEndAll {F : Type} [LinearOrderedField F] (skip : Bool)
    (nodes : List (HNode F)) : HSwMono nodes (iterationEndAll skip nodes) := by
  unfold iterationEndAll
  exact foldl_rel HSwMono _ _ nodes (HSwMono_refl nodes)
    (fun a b c h1 h2 => HSwMono_trans h1 h2)
    (fun t b _ => HSwMono_iterationEndNode skip t b)

theorem HAnchor_roundStep {F : Type} [LinearOrderedField F] (ops : MathOps F)
    (minimize : HNode F → List F) (nodes : List (HNode F)) :
    HAnchor nodes (roundStep ops minimize nodes) := by
  unfold roundStep
  refine HAnchor_trans (HAnchor_iterationBeginAll ops minimize nodes) ?_
  refine HAnchor_trans (HAnchor_of_HFrame (HFrame_handleMessagesAll _)) ?_
  exact HAnchor_iterationEndAll false _

theorem HSwMono_roundStep {F : Type} [LinearOrderedField F] (ops : MathOps F)
    (minimize : HNode F → List F) (nodes : List (HNode F)) :
    HSwMono nodes (roundStep ops minimize nodes) := by
  unfold roundStep
  refine HSwMono_trans (HSwMono_iterationBeginAll ops minimize nodes) ?_
  refine HSwMono_trans (HSwMono_of_HFrame (HFrame_handleMessagesAll _)) ?_
  exact HSwMono_iterationEndAll false _

theorem HAnchor_run {F : Type} [LinearOrderedField F] (ops : MathOps F)
    (minimize : HNode F → List F) (J : Nat) (nodes : List (HNode F)) :
    HAnchor nodes (((roundStep ops minimize)^[J]) (hpre nodes)) := by
  induction J with
  | zero => exact HAnchor_of_HFrame (HFrame_hpre nodes)
  | succ J ih =>
      rw [Function.iterate_succ_apply']
      exact HAnchor_trans ih (HAnchor_roundStep ops minimize _)

theorem HSwMono_iterate {F : Type} [LinearOrderedField F] (ops : MathOps F)
    (minimize : HNode F → List F) (s : List (HNode F)) (m d : Nat) :
    HSwMono (((roundStep ops minimize)^[m]) s) (((roundStep ops minimize)^[m + d]) s) := by
  induction d with
  | zero => exact HSwMono_refl _
  | succ d ih =>
      rw [show m + (d + 1) = (m + d) + 1 from rfl, Function.iterate_succ_apply']
      exact HSwMono_trans ih (HSwMono_roundStep ops minimize _)

theorem getD_map_x {F : Type} [LinearOrderedField F] (l : List (HNode F)) (i : Nat)
    (h : i < l.length) :
    (l.map (fun nd => nd.x)).getD i [] = (l.getD i default).x := by
  rw [List.getD_eq_getElem?_getD, List.getD_eq_getElem?_getD, List.getElem?_map,
    List.getElem?_eq_getElem h]
  rfl

/-- Claim C8: over an entire solver run, each node's switching flag is
monotone: it is False for every node when the loop rounds begin (the
initial state sets it False and the pre-loop phase never writes it), and
across any two round counts m and m' with m <= m', a flag that is True at
round m is still True at round m' — a one-way Nonconvex-to-Convex
transition, taken at most once and never reverted. -/
theorem hybrid_switch_monotone {F : Type} [LinearOrderedField F] (ops : MathOps F)
    (minimize : HNode F → List F) (net : Net F) :
    (∀ i : Nat,
      ((hpre ((List.range net.nodes.length).map (hinitNode net))).getD i
        default).switched = false) ∧
    (∀ m m' i : Nat, m ≤ m' →
      ((((roundStep ops minimize)^[m])
          (hpre ((List.range net.nodes.length).map (hinitNode net)))).getD i
        default).switched = true →
      ((((roundStep ops minimize)^[m'])
          (hpre ((List.range net.nodes.length).map (hinitNode net)))).getD i
        default).switched = true) := by
  constructor
  · intro i
    have hf := (HFrame_hpre ((List.range net.nodes.length).map (hinitNode net))).2 i
    rw [hf.2.2, getD_map_range]
    split
    · rfl
    · rfl
  · intro m m' i hmm hsw
    obtain ⟨d, hd⟩ := Nat.exists_eq_add_of_le hmm
    subst hd
    exact (HSwMono_iterate ops minimize _ m d).2 i hsw

/-- Claim C1: whenever solve succeeds, its output is one estimated
position per input point in input order, and the entry of every
anchor-role point equals its input coordinate list exactly: an anchor's
x is initialized to its coordinates and no pass of the run ever writes
an anchor's own x. -/
theorem solver_anchor_passthrough {F : Type} [LinearOrderedField F] (ops : MathOps F)
    (gs : Nat → F) (minimize : HNode F → List F) (pts : List (Point F))
    (vis sigma : F) (k J : Nat) (out : List (List F))
    (h : hsolve ops gs minimize pts vis sigma k J = .ok out) :
    out.length = pts.length ∧
    ∀ i, i < pts.length → (pts.getD i default).typ = "S" →
      out.getD i [] = (pts.getD i default)._coords := by
  unfold hsolve buildNetwork at h
  by_cases hc : (true && !(checkConnectivity (measuredNet ops gs pts vis sigma k).1)) = true
  · rw [if_pos hc] at h
    exact absurd h (by simp)
  · rw [if_neg hc] at h
    dsimp only at h
    have hout : out = hsolveFrom ops minimize J
        ((List.range (measuredNet ops gs pts vis sigma k).1.nodes.length).map
          (hinitNode (measuredNet ops gs pts vis sigma k).1)) := (Except.ok.inj h).symm
    subst hout
    have hMlen : (measuredNet ops gs pts vis sigma k).1.nodes.length = pts.length :=
      length_measuredNet ops gs pts vis sigma k
    have hpts : PtsOf (measuredNet ops gs pts vis sigma k).1 pts :=
      (measureDistances_established ops gs sigma pts vis k).1.hpts
    have hn0 : ((List.range (measuredNet ops gs pts vis sigma k).1.nodes.length).map
        (hinitNode (measuredNet ops gs pts vis sigma k).1)).length = pts.length := by
      rw [List.length_map, List.length_range, hMlen]
    have hrun := HAnchor_run ops minimize J
      ((List.range (measuredNet ops gs pts vis sigma k).1.nodes.length).map
        (hinitNode (measuredNet ops gs pts vis sigma k).1))
    constructor
    · unfold hsolveFrom
      rw [List.length_map, hrun.1, hn0]
    · intro i hi htyp
      have hnode : ((List.range (measuredNet ops gs pts vis sigma k).1.nodes.length).map
          (hinitNode (measuredNet ops gs pts vis sigma k).1)).getD i default
          = hinitNode (measuredNet ops gs pts vis sigma k).1 i := by
        rw [getD_map_range, if_pos (by rw [hMlen]; exact hi)]
      have hptyp : ((measuredNet ops gs pts vis sigma k).1.node i).pt.typ = "S" := by
        rw [hpts i]
        exact htyp
      have hityp : (hinitNode (measuredNet ops gs pts vis sigma k).1 i).typ = "S" := hptyp
      have hix : (hinitNode (measuredNet ops gs pts vis sigma k).1 i).x
          = (pts.getD i default)._coords := by
        show (if ((measuredNet ops gs pts vis sigma k).1.node i).pt.typ = "A" then _ else _) = _
        rw [if_neg (by rw [hptyp]; decide), hpts i]
      obtain ⟨htypf, hxf⟩ := hrun.2 i
      unfold hsolveFrom
      rw [getD_map_x _ _ (by rw [hrun.1, hn0]; exact hi), hxf (by rw [hnode]; exact hityp),
        hnode, hix]

/-- The two-anchor network of `rowPts` in measured form (visibility 2,
exact measurement). -/
def rowMeasured : Net ℚ :=
  ⟨[⟨Point.mk "S" [0, 0],
      [(1, { NetEdge.new 0 1 (Point.mk "S" [1, 0]) with dist := some 1 })],
      [1]⟩,
    ⟨Point.mk "S" [1, 0],
      [(0, { NetEdge.new 1 0 (Point.mk "S" [0, 0]) with dist := some 1 })],
      [0]⟩]⟩

theorem rowMeasured_eval : measuredNet qOps qgs rowPts 2 0 0 = (rowMeasured, 2) := by
  unfold measuredNet
  norm_num [addNeighbours, rowPts, measureDistances, measNode, measPair, syncSetDist,
    Net.edgeModify, Net.node, dget, dmodify, updateAt, Point.dist_noisy, Point._dist,
    Point._distsq, qOps, qgs, NetEdge.new, List.range_succ, List.filterMap_cons,
    List.filterMap_nil, rowMeasured]

theorem rowBuild_eval : buildNetwork qOps qgs rowPts 2 0 0 true = .ok (rowMeasured, 2) := by
  unfold buildNetwork
  rw [rowMeasured_eval]
  rfl

/-- A concrete stand-in for the scipy minimization in witness runs (it
is never consulted in a zero-round run). -/
def demoMinimize : HNode ℚ → List ℚ := fun nd => nd.x

theorem rowSolve_eval : hsolve qOps qgs demoMinimize rowPts 2 0 0 0 =
    .ok (hsolveFrom qOps demoMinimize 0
      ((List.range 2).map (hinitNode rowMeasured))) := by
  unfold hsolve
  rw [rowBuild_eval]
  rfl

/-- Witness for C1 on a concrete connected two-anchor network. -/
theorem solver_anchor_passthrough_witness :
    (hsolveFrom qOps demoMinimize 0 ((List.range 2).map (hinitNode rowMeasured))).length
      = rowPts.length ∧
    ∀ i, i < rowPts.length → (rowPts.getD i default).typ = "S" →
      (hsolveFrom qOps demoMinimize 0
          ((List.range 2).map (hinitNode rowMeasured))).getD i []
        = (rowPts.getD i default)._coords :=
  solver_anchor_passthrough qOps qgs demoMinimize rowPts 2 0 0 0 _ rowSolve_eval
